import Mathlib

/-!
# Treebeard: forest model and GPU representation lowering

A verification development over `DecisionForest.h` (the logical forest model),
`GPURepresentations.cpp` (the device representation lowering),
`onnxmodelparser.h` (the construction of trees from an ONNX model) and the
tile-load tests of `CodeGenTests.cpp`.

Conventions of the embedding.

* C++ integers (`int32_t`, `int64_t`, `size_t`) and MLIR `index` values are
  modelled in `Int`: every such quantity here is a node index, a tree index, a
  buffer size, a buffer offset or a thread coordinate.
* A `std::vector` or a memref is a `List`; an access outside its bounds has no
  defined behaviour in the source and is a `fault` (or `none`) in the model.
* `ThresholdType` is a template parameter of the source; it is a type
  parameter `θ` here, and its `operator<` is the parameter `lt`.
-/

namespace Treebeard

/-! ## Forest model (`DecisionForest.h`) -/

/-- Element access `v[i]` of a `std::vector` with a signed index. -/
def vecAt {α : Type} (v : List α) (i : Int) : Option α :=
  if 0 ≤ i then v.get? i.toNat else none

/-- Sentinel `DecisionTree::INVALID_NODE_INDEX`. -/
def INVALID_NODE_INDEX : Int := -1

/-- Enumeration `FeatureType`. -/
inductive FeatureType
  | kNumerical
  | kCategorical
  deriving DecidableEq, Repr

/-- Struct `DecisionTree::Node`. -/
structure Node (θ : Type) where
  threshold : θ
  featureIndex : Int
  parent : Int
  leftChild : Int
  rightChild : Int
  featureType : FeatureType
  deriving DecidableEq, Repr

/-- Method `Node::IsLeaf`. -/
def Node.IsLeaf {θ : Type} (node : Node θ) : Bool :=
  node.leftChild == INVALID_NODE_INDEX && node.rightChild == INVALID_NODE_INDEX

/-- Class `DecisionTree` (the tiling descriptor is an external collaborator). -/
structure DecisionTree (θ : Type) where
  m_nodes : List (Node θ)
  m_numFeatures : Nat
  m_scale : θ
  deriving DecidableEq, Repr

/-- Result of running a loop of the source under a fuel bound. -/
inductive Outcome (α : Type)
  | value (a : α)
  | fault
  | timeout
  deriving DecidableEq, Repr

/-- The `while (!node->IsLeaf())` loop of `PredictTree`, entered at `node`. -/
def PredictTree.loop {θ : Type} (lt : θ → θ → Bool) (m_nodes : List (Node θ))
    (data : List θ) : Nat → Node θ → Outcome θ
  | 0, _ => .timeout
  | fuel + 1, node =>
    if node.IsLeaf then .value node.threshold
    else
      match vecAt data node.featureIndex with
      | none => .fault
      | some x =>
        if lt node.threshold x then
          match vecAt m_nodes node.leftChild with
          | none => .fault
          | some next => PredictTree.loop lt m_nodes data fuel next
        else
          match vecAt m_nodes node.rightChild with
          | none => .fault
          | some next => PredictTree.loop lt m_nodes data fuel next

/-- Method `DecisionTree::PredictTree`: `fuel` bounds the number of nodes
visited; the `assert` on an empty tree is a fault. -/
def DecisionTree.PredictTree {θ : Type} (lt : θ → θ → Bool) (tree : DecisionTree θ)
    (data : List θ) (fuel : Nat) : Outcome θ :=
  if tree.m_nodes.length > 0 then
    match vecAt tree.m_nodes 0 with
    | none => .fault
    | some node => PredictTree.loop lt tree.m_nodes data fuel node
  else .fault

/-- The traversal as the specification words it: from node `i`, a leaf (both
children `INVALID_NODE_INDEX`) yields its threshold; any other node continues
at `leftChild` when `threshold < data[featureIndex]` and at `rightChild`
otherwise. `SpecDescent lt nodes data i k v` says the walk from `i` visits `k`
nodes and ends in a leaf with threshold `v`. -/
inductive SpecDescent {θ : Type} (lt : θ → θ → Bool) (nodes : List (Node θ))
    (data : List θ) : Int → Nat → θ → Prop
  | leaf (i : Int) (n : Node θ) :
      vecAt nodes i = some n → n.leftChild = -1 → n.rightChild = -1 →
      SpecDescent lt nodes data i 1 n.threshold
  | left (i : Int) (n : Node θ) (x : θ) (k : Nat) (v : θ) :
      vecAt nodes i = some n → ¬ (n.leftChild = -1 ∧ n.rightChild = -1) →
      vecAt data n.featureIndex = some x → lt n.threshold x = true →
      SpecDescent lt nodes data n.leftChild k v →
      SpecDescent lt nodes data i (k + 1) v
  | right (i : Int) (n : Node θ) (x : θ) (k : Nat) (v : θ) :
      vecAt nodes i = some n → ¬ (n.leftChild = -1 ∧ n.rightChild = -1) →
      vecAt data n.featureIndex = some x → lt n.threshold x = false →
      SpecDescent lt nodes data n.rightChild k v →
      SpecDescent lt nodes data i (k + 1) v

/-- A three-node stump over integer thresholds: root `(5, feature 0)` with
leaves `10` (left) and `20` (right). -/
def stumpTree : DecisionTree Int :=
  { m_nodes := [⟨5, 0, -1, 1, 2, .kNumerical⟩, ⟨10, 0, 0, -1, -1, .kNumerical⟩,
                ⟨20, 0, 0, -1, -1, .kNumerical⟩],
    m_numFeatures := 1, m_scale := 1 }

/-- Comparison `operator<` on integer thresholds. -/
def ltInt (a b : Int) : Bool := decide (a < b)

/-! ## Emitted IR (`GPURepresentations.cpp`)

The lowering is a code generator. Its embedding is a function that returns the
operations it creates, as data; `runStmts` below gives the device operations
their run-time meaning. -/

/-- MLIR types the lowering constructs. Every memref here is one-dimensional
(`MemRefType::get({n}, elementType)`). -/
inductive Ty
  | index
  | int (width : Nat)
  | float (width : Nat)
  | tiledNumericalNode (thresholdType indexType tileShapeType : Ty) (tileSize : Int)
      (childIndexType : Ty)
  | memref (shape : Int) (elementType : Ty)
  | asyncToken
  deriving DecidableEq, Repr

/-- A `MemRefType` with the single dimension `shape`. -/
structure MemRefType where
  shape : Int
  elementType : Ty
  deriving DecidableEq, Repr

/-- The memref type as an MLIR `Type`. -/
def MemRefType.toTy (t : MemRefType) : Ty := .memref t.shape t.elementType

/-- The cast `type.cast<MemRefType>()`; `none` when the assertion in the cast fails. -/
def Ty.castMemRef : Ty → Option MemRefType
  | .memref shape elementType => some ⟨shape, elementType⟩
  | _ => none

/-- SSA values of a host procedure. Operations are numbered in creation order. -/
inductive Val
  | arg (i : Nat)
  | memref (op : Nat)
  | token (op : Nat)
  | result (op : Nat)
  | null
  deriving DecidableEq, Repr

/-- Name of a device operation: the operation whose lowering created it (the
launch, for a kernel body) and the C++ variable it is bound to. -/
structure Name where
  owner : Nat
  var : String
  deriving DecidableEq, Repr

/-- SSA values of device code: results of operations, values of the enclosing
function, the ids and sizes of the owning `gpu.launch`, and the operands of the
operation being lowered. -/
inductive DVal
  | res (name : Name)
  | host (v : Val)
  | blockSizeX
  | blockSizeY
  | blockIdX
  | threadIdX
  | threadIdY
  | startTreeIndex
  | endTreeIndex
  | treeIndex
  deriving DecidableEq, Repr

/-- The call `createBody(memrefType, modelMemref, builder, location, tileIndex,
thresholds, featureIndices, tileShapeIds, childIndices)` that fills the
then-region of the fill kernel. -/
structure CreateBodyCall where
  memrefType : MemRefType
  memrefValue : Val
  tileIndex : DVal
  thresholdMemref : Val
  indexMemref : Val
  tileShapeIdMemref : Val
  childIndexMemref : Val
  deriving DecidableEq, Repr

/-- Device operations without regions. -/
inductive DOp
  | constantIndex (value : Int)
  | constantInt (value : Int) (width : Nat)
  | muli (lhs rhs : DVal)
  | addi (lhs rhs : DVal)
  | subi (lhs rhs : DVal)
  | cmpiSlt (lhs rhs : DVal)
  | load (memref index : DVal)
  | getGlobal (type : MemRefType) (name : String)
  | loadTileThresholds (memref index treeIdx : DVal)
  | loadTileFeatureIndices (memref index treeIdx : DVal)
  | initTile (memref index threshold featureIndex tileShapeID : DVal)
  | subview (source offset size : DVal) (stride : Int)
  | barrier
  | yield (value : DVal)
  | createBody (call : CreateBodyCall)
  | terminator
  deriving DecidableEq, Repr

/-- Device statements: an operation bound to a name, or an `scf.if` whose
regions hold operations without regions. -/
inductive DStmt
  | op (name : Name) (o : DOp)
  | ifOp (name : Name) (cond : DVal) (thenOps elseOps : List (Name × DOp))
  deriving DecidableEq, Repr

/-- Host operations of the generated procedures. -/
inductive Op
  | wait (deps : List Val)
  | alloc (type : MemRefType) (deps : List Val)
  | memcpy (deps : List Val) (dst src : Val)
  | dealloc (deps : List Val) (memref : Val)
  | constantIndex (value : Int)
  | constantInt (value : Int) (width : Nat)
  | launch (gridSizeX gridSizeY gridSizeZ blockSizeX blockSizeY blockSizeZ : Val)
      (deps : List Val) (body : List DStmt)
  | ret (operands : List Val)
  deriving DecidableEq, Repr

/-- A `FunctionType`. -/
structure FunctionType where
  inputs : List Ty
  results : List Ty
  deriving DecidableEq, Repr

/-- A `func::FuncOp` with its entry block. -/
structure FuncOp where
  name : String
  type : FunctionType
  visibility : String
  body : List Op
  deriving DecidableEq, Repr

/-- A `memref::GlobalOp`. -/
structure GlobalOp where
  name : String
  visibility : String
  type : MemRefType
  constant : Bool
  deriving DecidableEq, Repr

/-- A `ModuleOp`: the globals at its front and the functions pushed to its back. -/
structure ModuleOp where
  globals : List GlobalOp
  funcs : List FuncOp
  deriving DecidableEq, Repr

/-- Method `ModuleOp::push_back`. -/
def ModuleOp.push_back (module : ModuleOp) (f : FuncOp) : ModuleOp :=
  { module with funcs := module.funcs ++ [f] }

/-- An `OpBuilder` at the end of a block: `create` appends the operation and
returns its handle, the position it was created at. -/
def create (block : List Op) (op : Op) : Nat × List Op :=
  (block.length, block ++ [op])

/-! ### Helpers -/

/-- Function `GenerateSimpleInitializer`. -/
def GenerateSimpleInitializer (funcName : String) (module : ModuleOp)
    (memrefType : MemRefType) : ModuleOp :=
  let functionType : FunctionType := ⟨[memrefType.toTy], [memrefType.toTy]⟩
  let entryBlock : List Op := []
  let (waitOp, entryBlock) := create entryBlock (.wait [])
  let (alloc, entryBlock) := create entryBlock (.alloc memrefType [.token waitOp])
  let (transfer, entryBlock) :=
    create entryBlock (.memcpy [.token alloc] (.memref alloc) (.arg 0))
  let (_, entryBlock) := create entryBlock (.wait [.token transfer])
  let (_, entryBlock) := create entryBlock (.ret [.memref alloc])
  module.push_back ⟨funcName, functionType, "public", entryBlock⟩

/-- The `for` loop of `GenerateCleanupProc`, iterations `i, …, i + n - 1`. -/
def GenerateCleanupProc.loop : Nat → Nat → Val × List Op → Val × List Op
  | 0, _, state => state
  | n + 1, i, (asyncToken, entryBlock) =>
    let (dealloc, entryBlock) := create entryBlock (.dealloc [asyncToken] (.arg i))
    GenerateCleanupProc.loop n (i + 1) (.token dealloc, entryBlock)

/-- Function `GenerateCleanupProc`. -/
def GenerateCleanupProc (funcName : String) (module : ModuleOp)
    (memrefTypes : List Ty) : ModuleOp :=
  let functionType : FunctionType := ⟨memrefTypes, [.int 32]⟩
  let entryBlock : List Op := []
  let (waitOp, entryBlock) := create entryBlock (.wait [])
  let asyncToken := Val.token waitOp
  let (asyncToken, entryBlock) :=
    GenerateCleanupProc.loop memrefTypes.length 0 (asyncToken, entryBlock)
  let (_, entryBlock) := create entryBlock (.wait [asyncToken])
  let (constRetVal, entryBlock) := create entryBlock (.constantInt 0 32)
  let (_, entryBlock) := create entryBlock (.ret [.result constRetVal])
  module.push_back ⟨funcName, functionType, "public", entryBlock⟩

/-- The value of the `double` `std::ceil((double)shape / numThreadsPerBlock)`,
the rational ceiling. For an element count below `2^53` in absolute value the
conversion to `double`, the quotient by the power of two 32 and the ceiling
are exact. -/
def ceilDiv (shape numThreadsPerBlock : Int) : Int :=
  Int.ceil ((shape : ℚ) / (numThreadsPerBlock : ℚ))

/-- The conversion of a `double` with an integral value to `int32_t`, as in
`int32_t numBlocks = std::ceil(…)`. A value in the range of `int32_t` is kept.
A value outside the range has no `int32_t`: the conversion is undefined in
C++, and the instruction compilers emit for it on x86-64 (`cvttsd2si`) yields
`INT32_MIN`, which is the result the model takes. (An element count of `2^53`
or more, where the cast to `double` rounds, has a ceiling of `2^48` or more in
absolute value on either side of the rounding, so the rounding never decides
the result.) -/
def doubleToInt32 (value : Int) : Int :=
  if -2147483648 ≤ value ∧ value ≤ 2147483647 then value else -2147483648

/-- Function template `GenerateModelMemrefInitializerImpl`; `none` when the
element type of `memrefType` is not a `TiledNumericalNodeType` (the cast
asserts). The body creator is recorded as a `createBody` operation. -/
def GenerateModelMemrefInitializerImpl (funcName : String) (module : ModuleOp)
    (memrefType : MemRefType) (sparseRep : Bool) : Option ModuleOp :=
  match memrefType.elementType with
  | .tiledNumericalNode thresholdElementType indexElementType tileShapeType tileSize
      childIndexType =>
    let thresholdArgType : MemRefType := ⟨memrefType.shape * tileSize, thresholdElementType⟩
    let indexArgType : MemRefType := ⟨memrefType.shape * tileSize, indexElementType⟩
    let tileShapeIDArgType : MemRefType := ⟨memrefType.shape, tileShapeType⟩
    let childIndexArgType : MemRefType := ⟨memrefType.shape, childIndexType⟩
    let initModelMemrefFuncType : FunctionType :=
      if sparseRep then
        ⟨[thresholdArgType.toTy, indexArgType.toTy, tileShapeIDArgType.toTy,
          childIndexArgType.toTy], [memrefType.toTy]⟩
      else
        ⟨[thresholdArgType.toTy, indexArgType.toTy, tileShapeIDArgType.toTy],
          [memrefType.toTy]⟩
    let entryBlock : List Op := []
    -- Allocate the model memref
    let (waitOp, entryBlock) := create entryBlock (.wait [])
    let (modelMemrefGPUAlloc, entryBlock) :=
      create entryBlock (.alloc memrefType [.token waitOp])
    -- Allocate and transfer all the arguments
    let (allocThresholds, entryBlock) :=
      create entryBlock (.alloc thresholdArgType [.token modelMemrefGPUAlloc])
    let (transferThresholds, entryBlock) :=
      create entryBlock (.memcpy [.token allocThresholds] (.memref allocThresholds) (.arg 0))
    let (allocFeatureIndices, entryBlock) :=
      create entryBlock (.alloc indexArgType [.token transferThresholds])
    let (transferFeatureIndices, entryBlock) :=
      create entryBlock
        (.memcpy [.token allocFeatureIndices] (.memref allocFeatureIndices) (.arg 1))
    let currentAsyncToken := Val.token transferFeatureIndices
    let (allocTileShapeIds, currentAsyncToken, entryBlock) :=
      if tileSize ≠ 1 then
        let (allocTileShapeIds, entryBlock) :=
          create entryBlock (.alloc tileShapeIDArgType [.token transferFeatureIndices])
        let (transferTileShapeIds, entryBlock) :=
          create entryBlock
            (.memcpy [.token allocTileShapeIds] (.memref allocTileShapeIds) (.arg 2))
        (Val.memref allocTileShapeIds, Val.token transferTileShapeIds, entryBlock)
      else (Val.null, currentAsyncToken, entryBlock)
    let (allocChildIndices, currentAsyncToken, entryBlock) :=
      if sparseRep then
        let (allocChildIndices, entryBlock) :=
          create entryBlock (.alloc childIndexArgType [currentAsyncToken])
        let (transferChildIndices, entryBlock) :=
          create entryBlock
            (.memcpy [.token allocChildIndices] (.memref allocChildIndices) (.arg 3))
        (Val.memref allocChildIndices, Val.token transferChildIndices, entryBlock)
      else (Val.null, currentAsyncToken, entryBlock)
    -- Create the gpu.launch op
    let (oneIndexConst, entryBlock) := create entryBlock (.constantIndex 1)
    let numThreadsPerBlock : Int := 32
    let numBlocks : Int := doubleToInt32 (ceilDiv memrefType.shape numThreadsPerBlock)
    let (numThreadBlocksConst, entryBlock) := create entryBlock (.constantIndex numBlocks)
    let (numThreadsPerBlockConst, entryBlock) :=
      create entryBlock (.constantIndex numThreadsPerBlock)
    -- Generate the body of the launch op
    let gpuLaunch := entryBlock.length
    let launchBody : List DStmt :=
      [ .op ⟨gpuLaunch, "memrefLengthConst"⟩ (.constantIndex memrefType.shape),
        .op ⟨gpuLaunch, "firstThreadNum"⟩ (.muli .blockSizeX .blockIdX),
        .op ⟨gpuLaunch, "elementIndex"⟩ (.addi (.res ⟨gpuLaunch, "firstThreadNum"⟩) .threadIdX),
        .op ⟨gpuLaunch, "inBoundsCondition"⟩
          (.cmpiSlt (.res ⟨gpuLaunch, "elementIndex"⟩) (.res ⟨gpuLaunch, "memrefLengthConst"⟩)),
        .ifOp ⟨gpuLaunch, "ifInBounds"⟩ (.res ⟨gpuLaunch, "inBoundsCondition"⟩)
          [(⟨gpuLaunch, "createBody"⟩, .createBody
              ⟨memrefType, .memref modelMemrefGPUAlloc, .res ⟨gpuLaunch, "elementIndex"⟩,
               .memref allocThresholds, .memref allocFeatureIndices,
               allocTileShapeIds, allocChildIndices⟩)]
          [],
        .op ⟨gpuLaunch, "terminator"⟩ .terminator ]
    let (gpuLaunch, entryBlock) :=
      create entryBlock
        (.launch (.result numThreadBlocksConst) (.result oneIndexConst) (.result oneIndexConst)
          (.result numThreadsPerBlockConst) (.result oneIndexConst) (.result oneIndexConst)
          [currentAsyncToken] launchBody)
    -- Wait and return
    let (_, entryBlock) := create entryBlock (.wait [.token gpuLaunch])
    let (_, entryBlock) := create entryBlock (.ret [.memref modelMemrefGPUAlloc])
    some (module.push_back ⟨funcName, initModelMemrefFuncType, "public", entryBlock⟩)
  | _ => none

/-! ### Run-time meaning of the device operations -/

/-- A tile of tile size 1: one threshold, one feature index, a tile-shape id. -/
structure Tile (θ : Type) where
  threshold : θ
  featureIndex : Int
  tileShapeID : Int
  deriving DecidableEq, Repr

/-- A buffer device code can name: a value of the enclosing function or a
module global. -/
inductive BufRef
  | host (v : Val)
  | global (name : String)
  deriving DecidableEq, Repr

/-- Run-time values. -/
inductive Rt (θ : Type)
  | int (i : Int)
  | bool (b : Bool)
  | thr (t : θ)
  | buf (b : BufRef)
  | view (b : BufRef) (offset size stride : Int)
  | unit
  deriving DecidableEq, Repr

/-- Contents of the buffers at run time: index buffers and tile buffers. -/
structure Memory (θ : Type) where
  ints : BufRef → Option (List Int)
  tiles : BufRef → Option (List (Tile θ))

/-- Run-time values of one worker: the sizes and ids of the owning launch and
the operands of the operation being lowered. -/
structure Inputs where
  blockSizeX : Int
  blockSizeY : Int
  blockIdX : Int
  threadIdX : Int
  threadIdY : Int
  startTreeIndex : Int
  endTreeIndex : Int
  treeIndex : Int
  deriving DecidableEq, Repr

/-- What a worker does to memory, in program order. `fault` marks an access
outside a buffer, after which nothing is defined. -/
inductive Event (θ : Type)
  | load (b : BufRef) (i : Int)
  | loadTileThreshold (b : BufRef) (i : Int)
  | loadTileFeatureIndex (b : BufRef) (i : Int)
  | initTile (b : BufRef) (slot : Int) (threshold : θ) (featureIndex : Int) (tileShapeID : Int)
  | barrier
  | createBody (call : CreateBodyCall) (tileIndex : Int)
  | fault
  deriving DecidableEq, Repr

/-- Execution state of one worker. -/
structure Exec (θ : Type) where
  env : List (Name × Rt θ)
  events : List (Event θ)
  faulted : Bool
  deriving DecidableEq, Repr

/-- Value of an SSA operand. -/
def evalVal {θ : Type} (inp : Inputs) (env : List (Name × Rt θ)) : DVal → Option (Rt θ)
  | .res name => env.lookup name
  | .host v => some (.buf (.host v))
  | .blockSizeX => some (.int inp.blockSizeX)
  | .blockSizeY => some (.int inp.blockSizeY)
  | .blockIdX => some (.int inp.blockIdX)
  | .threadIdX => some (.int inp.threadIdX)
  | .threadIdY => some (.int inp.threadIdY)
  | .startTreeIndex => some (.int inp.startTreeIndex)
  | .endTreeIndex => some (.int inp.endTreeIndex)
  | .treeIndex => some (.int inp.treeIndex)

/-- Integer operand. -/
def evalInt {θ : Type} (inp : Inputs) (env : List (Name × Rt θ)) (v : DVal) : Option Int :=
  match evalVal inp env v with
  | some (.int i) => some i
  | _ => none

/-- Buffer operand. -/
def evalBuf {θ : Type} (inp : Inputs) (env : List (Name × Rt θ)) (v : DVal) :
    Option BufRef :=
  match evalVal inp env v with
  | some (.buf b) => some b
  | _ => none

/-- One operation: its result and its events, or `none` with the events up to
the fault. -/
def evalOp {θ : Type} (mem : Memory θ) (inp : Inputs) (env : List (Name × Rt θ)) :
    DOp → Option (Rt θ) × List (Event θ)
  | .constantIndex value => (some (.int value), [])
  | .constantInt value _ => (some (.int value), [])
  | .muli lhs rhs =>
    match evalInt inp env lhs, evalInt inp env rhs with
    | some a, some b => (some (.int (a * b)), [])
    | _, _ => (none, [])
  | .addi lhs rhs =>
    match evalInt inp env lhs, evalInt inp env rhs with
    | some a, some b => (some (.int (a + b)), [])
    | _, _ => (none, [])
  | .subi lhs rhs =>
    match evalInt inp env lhs, evalInt inp env rhs with
    | some a, some b => (some (.int (a - b)), [])
    | _, _ => (none, [])
  | .cmpiSlt lhs rhs =>
    match evalInt inp env lhs, evalInt inp env rhs with
    | some a, some b => (some (.bool (decide (a < b))), [])
    | _, _ => (none, [])
  | .load memref index =>
    match evalBuf inp env memref, evalInt inp env index with
    | some b, some i =>
      match (mem.ints b).bind (fun l => vecAt l i) with
      | some x => (some (.int x), [.load b i])
      | none => (none, [.load b i])
    | _, _ => (none, [])
  | .getGlobal _ name => (some (.buf (.global name)), [])
  | .loadTileThresholds memref index _ =>
    match evalBuf inp env memref, evalInt inp env index with
    | some b, some i =>
      match (mem.tiles b).bind (fun l => vecAt l i) with
      | some t => (some (.thr t.threshold), [.loadTileThreshold b i])
      | none => (none, [.loadTileThreshold b i])
    | _, _ => (none, [])
  | .loadTileFeatureIndices memref index _ =>
    match evalBuf inp env memref, evalInt inp env index with
    | some b, some i =>
      match (mem.tiles b).bind (fun l => vecAt l i) with
      | some t => (some (.int t.featureIndex), [.loadTileFeatureIndex b i])
      | none => (none, [.loadTileFeatureIndex b i])
    | _, _ => (none, [])
  | .initTile memref index threshold featureIndex tileShapeID =>
    match evalBuf inp env memref, evalInt inp env index, evalVal inp env threshold,
      evalInt inp env featureIndex, evalInt inp env tileShapeID with
    | some b, some i, some (.thr t), some f, some s => (some .unit, [.initTile b i t f s])
    | _, _, _, _, _ => (none, [])
  | .subview source offset size stride =>
    match evalBuf inp env source, evalInt inp env offset, evalInt inp env size with
    | some b, some o, some n => (some (.view b o n stride), [])
    | _, _, _ => (none, [])
  | .barrier => (some .unit, [.barrier])
  | .yield value => (evalVal inp env value, [])
  | .createBody call =>
    match evalInt inp env call.tileIndex with
    | some i => (some .unit, [.createBody call i])
    | none => (none, [])
  | .terminator => (some .unit, [])

/-- A straight-line region: each result is bound to its name; the value of the
region is the value of its last operation. -/
def runOps {θ : Type} (mem : Memory θ) (inp : Inputs) :
    List (Name × DOp) → Exec θ → Rt θ → Exec θ × Rt θ
  | [], st, last => (st, last)
  | (name, o) :: rest, st, last =>
    if st.faulted then (st, last)
    else
      match evalOp mem inp st.env o with
      | (some r, evs) =>
        runOps mem inp rest ⟨(name, r) :: st.env, st.events ++ evs, false⟩ r
      | (none, evs) => (⟨st.env, st.events ++ evs ++ [.fault], true⟩, last)

/-- One statement. An `scf.if` runs the region its condition selects; the
names bound inside the region stay local to it, and the value the region
yields is bound to the name of the `scf.if` (nothing is bound after a fault). -/
def runStmt {θ : Type} (mem : Memory θ) (inp : Inputs) (st : Exec θ) : DStmt → Exec θ
  | .op name o => (runOps mem inp [(name, o)] st .unit).1
  | .ifOp name cond thenOps elseOps =>
    if st.faulted then st
    else
      match evalVal inp st.env cond with
      | some (.bool c) =>
        let (inner, r) := runOps mem inp (if c then thenOps else elseOps) st .unit
        if inner.faulted then ⟨st.env, inner.events, true⟩
        else ⟨(name, r) :: st.env, inner.events, false⟩
      | _ => ⟨st.env, st.events ++ [.fault], true⟩

/-- A statement list, from the state `st`. -/
def runFrom {θ : Type} (mem : Memory θ) (inp : Inputs) (st : Exec θ) (stmts : List DStmt) :
    Exec θ :=
  stmts.foldl (runStmt mem inp) st

/-- A statement list, from the empty state. -/
def runStmts {θ : Type} (mem : Memory θ) (inp : Inputs) (stmts : List DStmt) : Exec θ :=
  runFrom mem inp ⟨[], [], false⟩ stmts

/-! ### Layout planner -/

/-- The layout plan: total number of tiles, per-tree offsets and lengths. -/
structure LayoutPlan where
  modelBufferSize : Int
  perTreeOffset : List Int
  perTreeLength : List Int
  deriving DecidableEq, Repr

/-- Modelled from the spec: the pass of the Layout Planner over the trees in
forest order (the serializer behind `IModelSerializer::Persist`, whose code is
not among the sources). Each tree is placed at the running total of the tile
counts before it, and the total advances by the tree's tile count. -/
def planLayout.go : List Nat → Int → LayoutPlan → LayoutPlan
  | [], total, plan => { plan with modelBufferSize := total }
  | tiles :: rest, total, plan =>
    planLayout.go rest (total + tiles)
      { plan with perTreeOffset := plan.perTreeOffset ++ [total],
                  perTreeLength := plan.perTreeLength ++ [(tiles : Int)] }

/-- Modelled from the spec: the Layout Planner of §4.1 (`Persist`, absent from
the sources), from the tile count of each tree: offsets are the prefix sums of
the per-tree tile counts in forest order, lengths are the tile counts, and the
model buffer size is their total. -/
def planLayout (tiles : List Nat) : LayoutPlan :=
  planLayout.go tiles 0 ⟨0, [], []⟩

/-- Modelled from the spec: `GetTotalNumberOfTiles()` (absent from the
sources), the model buffer size of the plan persisted last. -/
def GetTotalNumberOfTiles (persisted : LayoutPlan) : Int :=
  persisted.modelBufferSize

/-! ### GPU array based representation -/

/-- A `TreeType`: element types and tile size of one tree. -/
structure TreeType where
  thresholdType : Ty
  featureIndexType : Ty
  tileShapeType : Ty
  childIndexType : Ty
  resultType : Ty
  tileSize : Int
  deriving DecidableEq, Repr

/-- Modelled from the spec: `TreeEnsembleType::doAllTreesHaveSameTileSize`
(absent from the sources): every tree has the tile size of tree 0. -/
def doAllTreesHaveSameTileSize (forestType : List TreeType) : Bool :=
  forestType.all (fun t => forestType.head?.map (fun t0 => t0.tileSize) == some t.tileSize)

/-- Modelled from the spec: `TreeEnsembleType::doAllTreesHaveSameType` (absent
from the sources): every tree has the type of tree 0. -/
def doAllTreesHaveSameType (forestType : List TreeType) : Bool :=
  forestType.all (fun t => forestType.head? == some t)

/-- What `GenerateModelGlobals` reads from the forest: the tile count of each
tree (one entry per tree, as the serializer derives it) and whether the forest
is a multi-class classifier. -/
structure Forest where
  tiles : List Nat
  isMultiClassClassifier : Bool
  deriving DecidableEq, Repr

/-- Method `DecisionForest::NumTrees`. -/
def Forest.NumTrees (forest : Forest) : Nat := forest.tiles.length

/-- Struct `EnsembleConstantLoweringInfo`, in the order its initializer lists
the fields. -/
structure EnsembleConstantLoweringInfo where
  modelGlobal : Val
  offsetGlobal : Val
  lengthGlobal : Val
  classInfoGlobal : Val
  modelGlobalType : Ty
  offsetGlobaltype : Ty
  lengthGlobalType : Ty
  classInfoType : Ty
  deriving DecidableEq, Repr

/-- Struct `CacheTreesInfo`: the value of the scratch buffer of a directive. -/
structure CacheTreesInfo where
  cachedModelBuffer : DVal
  deriving DecidableEq, Repr

/-- The assignment `map[key] = value` of a `std::map`. -/
def mapSet {β : Type} (m : List (Nat × β)) (key : Nat) (value : β) : List (Nat × β) :=
  (key, value) :: m.filter (fun e => e.1 != key)

/-- State of a `GPUArrayBasedRepresentation` object: the Registration Table,
the Cache Entry table, the tree memref recorded for each requesting operation,
and the members `GenerateModelGlobals` sets. -/
structure GPUArrayBasedRepresentation where
  ensembleConstantToMemrefsMap : List (Nat × EnsembleConstantLoweringInfo)
  m_cacheTreesOpsMap : List (Nat × CacheTreesInfo)
  getTreeOperationMap : List (Nat × DVal)
  m_tileSize : Int
  m_thresholdType : Option Ty
  m_featureIndexType : Option Ty
  m_tileShapeType : Option Ty
  m_modelMemrefArgIndex : Nat
  m_offsetMemrefArgIndex : Nat
  m_lengthMemrefArgIndex : Nat
  m_classInfoMemrefArgIndex : Nat
  m_modelMemref : Val
  deriving DecidableEq, Repr

/-- A freshly constructed representation object. -/
def GPUArrayBasedRepresentation.new : GPUArrayBasedRepresentation :=
  ⟨[], [], [], 0, none, none, none, 0, 0, 0, 0, .null⟩

/-- Method `Value::getType` for the values the lowering inspects: a function
argument has the type the function declares for it. -/
def Val.getType (argTypes : List Ty) : Val → Option Ty
  | .arg i => argTypes.get? i
  | _ => none

/-- Method `GPUArrayBasedRepresentation::GenerateModelMemrefInitializer`. -/
def GPUArrayBasedRepresentation.GenerateModelMemrefInitializer (funcName : String)
    (module : ModuleOp) (memrefType : MemRefType) : Option ModuleOp :=
  GenerateModelMemrefInitializerImpl funcName module memrefType false

/-- Result of `GenerateModelGlobals`: the representation object, the enclosing
function's argument types and the module, after the call. -/
structure Globals where
  rep : GPUArrayBasedRepresentation
  funcArgs : List Ty
  module : ModuleOp
  deriving DecidableEq, Repr

/-- Method `GPUArrayBasedRepresentation::GenerateModelGlobals` for the
`EnsembleConstantOp` `op` with forest `forest` of type `forestType`, inside a
function with argument types `funcArgs`; `persist` is the serializer's
`Persist`. `none` is a failed assertion. -/
def GPUArrayBasedRepresentation.GenerateModelGlobals (rep : GPUArrayBasedRepresentation)
    (op : Nat) (forest : Forest) (forestType : List TreeType) (funcArgs : List Ty)
    (module : ModuleOp) (persist : Forest → LayoutPlan) : Option Globals :=
  if ¬ doAllTreesHaveSameTileSize forestType then none
  else
    match forestType.head? with
    | none => none
    | some treeType =>
      let thresholdType := treeType.thresholdType
      let featureIndexType := treeType.featureIndexType
      let tileSize := treeType.tileSize
      let tileShapeType := treeType.tileShapeType
      let childIndexType := treeType.childIndexType
      let rep := { rep with m_tileSize := tileSize, m_thresholdType := some thresholdType,
                            m_featureIndexType := some featureIndexType,
                            m_tileShapeType := some tileShapeType }
      let modelMemrefElementType : Ty :=
        .tiledNumericalNode thresholdType featureIndexType tileShapeType tileSize childIndexType
      let persisted := persist forest
      let modelMemrefSize := GetTotalNumberOfTiles persisted
      let modelMemrefType : MemRefType := ⟨modelMemrefSize, modelMemrefElementType⟩
      let funcArgs := funcArgs ++ [modelMemrefType.toTy]
      let rep := { rep with m_modelMemrefArgIndex := funcArgs.length - 1 }
      let offsetSize : Int := forest.NumTrees
      let offsetMemrefType : MemRefType := ⟨offsetSize, .index⟩
      let funcArgs := funcArgs ++ [offsetMemrefType.toTy]
      let rep := { rep with m_offsetMemrefArgIndex := funcArgs.length - 1 }
      -- Add the length argument
      let funcArgs := funcArgs ++ [offsetMemrefType.toTy]
      let rep := { rep with m_lengthMemrefArgIndex := funcArgs.length - 1 }
      -- Add the class info argument
      let classInfoSize : Int := if forest.isMultiClassClassifier then offsetSize else 0
      let classInfoMemrefType : MemRefType := ⟨classInfoSize, .int 8⟩
      let funcArgs := funcArgs ++ [classInfoMemrefType.toTy]
      let rep := { rep with m_classInfoMemrefArgIndex := funcArgs.length - 1 }
      let rep := { rep with m_modelMemref := .arg rep.m_modelMemrefArgIndex }
      match GPUArrayBasedRepresentation.GenerateModelMemrefInitializer "Init_Model" module
          modelMemrefType with
      | none => none
      | some module =>
        let module := GenerateSimpleInitializer "Init_Offsets" module offsetMemrefType
        let module := GenerateSimpleInitializer "Init_Lengths" module offsetMemrefType
        let module := GenerateSimpleInitializer "Init_ClassIds" module classInfoMemrefType
        let module := GenerateCleanupProc "Dealloc_Buffers" module
          [modelMemrefType.toTy, offsetMemrefType.toTy, offsetMemrefType.toTy]
        let info : EnsembleConstantLoweringInfo :=
          { modelGlobal := rep.m_modelMemref,
            offsetGlobal := .arg rep.m_offsetMemrefArgIndex,
            lengthGlobal := .arg rep.m_lengthMemrefArgIndex,
            classInfoGlobal := .arg rep.m_classInfoMemrefArgIndex,
            modelGlobalType := modelMemrefType.toTy,
            offsetGlobaltype := offsetMemrefType.toTy,
            lengthGlobalType := offsetMemrefType.toTy,
            classInfoType := classInfoMemrefType.toTy }
        let rep := { rep with
          ensembleConstantToMemrefsMap := mapSet rep.ensembleConstantToMemrefsMap op info }
        some ⟨rep, funcArgs, module⟩

/-! ### On-device tree cache -/

/-- The operation that defines an ensemble value. -/
inductive DefiningOp
  | ensembleConstant (op : Nat)
  | cacheTreesFromEnsemble (op : Nat) (forest : DefiningOp)
  | other (op : Nat)
  deriving DecidableEq, Repr

/-- What `LowerCacheTreeOp` reads from the surroundings of the directive: the
constant step of the owning `scf.for` (`none` when the loop or the constant is
missing), whether a `gpu.launch` owns the directive, and the argument types of
the enclosing function. -/
structure CacheContext where
  stepConst : Option Int
  owningGPULaunchOp : Bool
  funcArgs : List Ty
  deriving DecidableEq, Repr

/-- The value `*std::max_element(begin, end)`; `none` on an empty range. -/
def maxElement : List Int → Option Int
  | [] => none
  | x :: rest => some (rest.foldl (fun largest y => if largest < y then y else largest) x)

/-- The operations `LowerCacheTreeOp` creates at the directive `op` (from
`offsetLenConst` to the barrier). `offsetsLength` is the shape of the offsets
memref and `_modelMemrefLength` the shape of the model memref; the source
computes both and builds the constant `modelLenConst` from `offsetsLength`. -/
def LowerCacheTreeOp.emitted (op : Nat) (ensembleInfo : EnsembleConstantLoweringInfo)
    (offsetsLength _modelMemrefLength : Int) (cacheBufferType : MemRefType)
    (globalCacheBufferName : String) : List DStmt :=
  let offsetsMemref := DVal.host ensembleInfo.offsetGlobal
  let modelMemref := DVal.host ensembleInfo.modelGlobal
  let numThreadsX := DVal.blockSizeX
  let threadNum_x := DVal.threadIdX
  let threadNum_y := DVal.threadIdY
  let v := fun (var : String) => DVal.res ⟨op, var⟩
  [ .op ⟨op, "offsetLenConst"⟩ (.constantIndex offsetsLength),
    .op ⟨op, "modelLenConst"⟩ (.constantIndex offsetsLength),
    .op ⟨op, "sharedMemoryBuffer"⟩ (.getGlobal cacheBufferType globalCacheBufferName),
    -- Compute the actual range of indices we need to read into the shared mem buffer
    .op ⟨op, "startIndex"⟩ (.load offsetsMemref .startTreeIndex),
    -- Since the end index can be out of range, we need to generate an "if"
    .op ⟨op, "endIndexInRange"⟩ (.cmpiSlt .endTreeIndex (v "offsetLenConst")),
    .ifOp ⟨op, "endIndex"⟩ (v "endIndexInRange")
      [ (⟨op, "loadEndIndex"⟩, .load offsetsMemref .endTreeIndex),
        (⟨op, "yield"⟩, .yield (v "loadEndIndex")) ]
      [ (⟨op, "yield"⟩, .yield (v "modelLenConst")) ],
    -- index = numThreadsX*threadNum.Y + threadNum.X
    .op ⟨op, "nxTimesTy"⟩ (.muli numThreadsX threadNum_y),
    .op ⟨op, "index"⟩ (.addi (v "nxTimesTy") threadNum_x),
    .op ⟨op, "numElementsToRead"⟩ (.subi (v "endIndex") (v "startIndex")),
    .op ⟨op, "indexLTElemsToRead"⟩ (.cmpiSlt (v "index") (v "numElementsToRead")),
    .ifOp ⟨op, "ifIndexInRange"⟩ (v "indexLTElemsToRead")
      [ (⟨op, "globalIndex"⟩, .addi (v "index") (v "startIndex")),
        (⟨op, "zeroIndexConst"⟩, .constantIndex 0),
        (⟨op, "threshold"⟩,
          .loadTileThresholds modelMemref (v "globalIndex") (v "zeroIndexConst")),
        (⟨op, "featureIndex"⟩,
          .loadTileFeatureIndices modelMemref (v "globalIndex") (v "zeroIndexConst")),
        (⟨op, "tileShapeID"⟩, .constantInt 0 32),
        (⟨op, "initTile"⟩,
          .initTile (v "sharedMemoryBuffer") (v "index") (v "threshold")
            (v "featureIndex") (v "tileShapeID")) ]
      [],
    .op ⟨op, "barrier"⟩ .barrier ]

/-- Result of `LowerCacheTreeOp`: the representation object and the module
after the call, and the operations emitted at the directive. -/
structure CacheLowering where
  rep : GPUArrayBasedRepresentation
  module : ModuleOp
  code : List DStmt
  deriving DecidableEq, Repr

/-- Method `GPUArrayBasedRepresentation::LowerCacheTreeOp` for the directive
`op` on the ensemble defined by `forest`. `lengths` is the table
`InitializeLengthBuffer` fills (its code is not among the sources). `none` is
a failed assertion. The module global is inserted at the front of the module;
the operations of `LowerCacheTreeOp.emitted` are created at the directive. -/
def GPUArrayBasedRepresentation.LowerCacheTreeOp (rep : GPUArrayBasedRepresentation)
    (op : Nat) (forest : DefiningOp) (forestType : List TreeType) (lengths : List Int)
    (ctx : CacheContext) (owningModule : ModuleOp) : Option CacheLowering :=
  match forest with
  | .ensembleConstant ensembleConst =>
    if ¬ (doAllTreesHaveSameType forestType && doAllTreesHaveSameTileSize forestType) then none
    else
      match forestType.head?, rep.ensembleConstantToMemrefsMap.lookup ensembleConst with
      | some _, some ensembleInfo =>
        -- Compute the size of the shared mem buffer (max tree size * step)
        match maxElement lengths, ctx.stepConst with
        | some maxLen, some stepValue =>
          let bufferLen : Int := maxLen * stepValue
          -- Add the required globals to the owning module
          let globalCacheBufferName := "treeCache_" ++ toString op
          match (ensembleInfo.modelGlobal.getType ctx.funcArgs).bind Ty.castMemRef,
            (ensembleInfo.offsetGlobal.getType ctx.funcArgs).bind Ty.castMemRef with
          | some treeMemrefType, some offsetsType =>
            let cacheBufferType : MemRefType := ⟨bufferLen, treeMemrefType.elementType⟩
            let owningModule := { owningModule with
              globals := ⟨globalCacheBufferName, "private", cacheBufferType, false⟩
                :: owningModule.globals }
            let offsetsLength := offsetsType.shape
            let modelMemrefLength := treeMemrefType.shape
            if ¬ ctx.owningGPULaunchOp then none
            else
              let code := LowerCacheTreeOp.emitted op ensembleInfo offsetsLength
                modelMemrefLength cacheBufferType globalCacheBufferName
              let sharedMemoryBuffer := DVal.res ⟨op, "sharedMemoryBuffer"⟩
              let rep := { rep with
                m_cacheTreesOpsMap := mapSet rep.m_cacheTreesOpsMap op ⟨sharedMemoryBuffer⟩ }
              some ⟨rep, owningModule, code⟩
          | _, _ => none
        | _, _ => none
      | _, _ => none
  | _ => none

/-- Result of `GenerateTreeMemref`: the representation object after the call
and the operations emitted at the requesting operation. -/
structure TreeMemref where
  rep : GPUArrayBasedRepresentation
  code : List DStmt
  deriving DecidableEq, Repr

/-- The operations `GenerateTreeMemref` creates at the requesting operation
`op` for a tree of a cached ensemble. -/
def GenerateTreeMemref.emitted (op : Nat) (ensembleInfo : EnsembleConstantLoweringInfo)
    (cachedModelBuffer : DVal) : List DStmt :=
  let v := fun (var : String) => DVal.res ⟨op, var⟩
  [ .op ⟨op, "modelMemrefOffset"⟩ (.load (.host ensembleInfo.offsetGlobal) .startTreeIndex),
    .op ⟨op, "modelMemrefIndex"⟩ (.load (.host ensembleInfo.offsetGlobal) .treeIndex),
    .op ⟨op, "cacheIndex"⟩ (.subi (v "modelMemrefIndex") (v "modelMemrefOffset")),
    .op ⟨op, "treeLength"⟩ (.load (.host ensembleInfo.lengthGlobal) .treeIndex),
    .op ⟨op, "treeMemref"⟩ (.subview cachedModelBuffer (v "cacheIndex") (v "treeLength") 1) ]

/-- Method `GPUArrayBasedRepresentation::GenerateTreeMemref` for the requesting
operation `op` and the ensemble value defined by `ensembleDefiningOp`. `base`
is `ArrayBasedRepresentation::GenerateTreeMemref` of the base class (its code
is not among the sources). `none` is a failed assertion. -/
def GPUArrayBasedRepresentation.GenerateTreeMemref (rep : GPUArrayBasedRepresentation)
    (base : GPUArrayBasedRepresentation → Nat → Nat → Option TreeMemref)
    (op : Nat) (ensembleDefiningOp : DefiningOp) : Option TreeMemref :=
  match ensembleDefiningOp with
  | .ensembleConstant ensembleConstantOp => base rep op ensembleConstantOp
  | .cacheTreesFromEnsemble cacheTreesOp (.ensembleConstant ensembleConstantOp) =>
    match rep.ensembleConstantToMemrefsMap.lookup ensembleConstantOp,
      rep.m_cacheTreesOpsMap.lookup cacheTreesOp with
    | some ensembleInfo, some cacheTreesInfo =>
      let cachedModelBuffer := cacheTreesInfo.cachedModelBuffer
      let code := GenerateTreeMemref.emitted op ensembleInfo cachedModelBuffer
      let treeMemref := DVal.res ⟨op, "treeMemref"⟩
      let rep := { rep with getTreeOperationMap := mapSet rep.getTreeOperationMap op treeMemref }
      some ⟨rep, code⟩
    | _, _ => none
  | _ => none

/-- The loads of the offsets buffer that open every run of the staging code. -/
def rangeLoads {θ : Type} (info : EnsembleConstantLoweringInfo) (inp : Inputs)
    (offsetsLength : Int) : List (Event θ) :=
  [.load (.host info.offsetGlobal) inp.startTreeIndex]
    ++ (if inp.endTreeIndex < offsetsLength
        then [.load (.host info.offsetGlobal) inp.endTreeIndex] else [])

/-- Whether an event reads a tile of a model buffer or writes a scratch slot. -/
def Event.isTileAccess {θ : Type} : Event θ → Bool
  | .loadTileThreshold _ _ => true
  | .loadTileFeatureIndex _ _ => true
  | .initTile _ _ _ _ _ => true
  | _ => false

/-- The source operand of a host-to-device copy; `none` for any other operation. -/
def Op.copySource : Op → Option Val
  | .memcpy _ _ src => some src
  | _ => none

/-! ### The boundary scenario of the specification

Three trees of tile size 1 with tile counts `[2, 3, 1]`; the directive caches
the trees `[1, 3)` inside a loop of step 4. -/

/-- Tree type of the scenario: `double` thresholds, `int32` indices, tile size 1. -/
def exTreeType : TreeType := ⟨.float 64, .int 32, .int 32, .int 32, .float 64, 1⟩

/-- Forest of the scenario. -/
def exForest : Forest := ⟨[2, 3, 1], false⟩

/-- The serializer of the scenario: the planner run on the forest's tile counts. -/
def exPersist (forest : Forest) : LayoutPlan := planLayout forest.tiles

/-- Registration of the ensemble constant (operation 0) in a function without
arguments. -/
def exGlobals : Option Globals :=
  GPUArrayBasedRepresentation.new.GenerateModelGlobals 0 exForest
    [exTreeType, exTreeType, exTreeType] [] ⟨[], []⟩ exPersist

/-- Buffers of the scenario: six tiles `(10, 0) … (15, 5)` behind argument 0,
the offsets `[0, 2, 5]` behind argument 1, the lengths `[2, 3, 1]` behind
argument 2. -/
def exMemory : Memory Int where
  ints := fun b =>
    if b = .host (.arg 1) then some [0, 2, 5]
    else if b = .host (.arg 2) then some [2, 3, 1]
    else none
  tiles := fun b =>
    if b = .host (.arg 0) then
      some [⟨10, 0, 0⟩, ⟨11, 1, 0⟩, ⟨12, 2, 0⟩, ⟨13, 3, 0⟩, ⟨14, 4, 0⟩, ⟨15, 5, 0⟩]
    else none

/-- Worker `(threadX, 0)` of a block of `4 × 1` threads, for the directive over
trees `[1, 3)`. -/
def exWorker (threadX : Int) : Inputs :=
  ⟨4, 1, 0, threadX, 0, 1, 3, 1⟩

/-- Tree types of the scenario's forest. -/
def exTypes : List TreeType := [exTreeType, exTreeType, exTreeType]

/-- The representation object after the registration. -/
def exRep : GPUArrayBasedRepresentation := (exGlobals.map (·.rep)).getD .new

/-- The argument types of the enclosing function after the registration. -/
def exFuncArgs : List Ty := (exGlobals.map (·.funcArgs)).getD []

/-- The module after the registration. -/
def exModule : ModuleOp := (exGlobals.map (·.module)).getD ⟨[], []⟩

/-- Surroundings of the directive: loop step 4, inside a `gpu.launch`. -/
def exContext : CacheContext := ⟨some 4, true, exFuncArgs⟩

/-- The lowering of the scenario's directive (operation 1) over trees `[1, 3)`. -/
def exLowering : CacheLowering :=
  (exRep.LowerCacheTreeOp 1 (.ensembleConstant 0) exTypes [2, 3, 1] exContext exModule).getD
    ⟨.new, ⟨[], []⟩, []⟩

/-- A stand-in for the base class's `GenerateTreeMemref` in the scenario: it
emits nothing. -/
def exBase (rep : GPUArrayBasedRepresentation) (_op _ensembleConstantOp : Nat) :
    Option TreeMemref :=
  some ⟨rep, []⟩

/-- Worker `(0, 0)` requesting tree 2 of the cached range `[1, 3)`. -/
def exRequest : Inputs := ⟨4, 1, 0, 0, 0, 1, 3, 2⟩

/-- The tree view generated for operation 2, which requests a tree of the
ensemble cached by directive 1. -/
def exTreeMemref : TreeMemref :=
  (exLowering.rep.GenerateTreeMemref exBase 2
      (.cacheTreesFromEnsemble 1 (.ensembleConstant 0))).getD ⟨.new, []⟩

/-- The registration entry of the scenario's ensemble. -/
def exInfo : EnsembleConstantLoweringInfo :=
  ⟨.arg 0, .arg 1, .arg 2, .arg 3,
    .memref 6 (.tiledNumericalNode (.float 64) (.int 32) (.int 32) 1 (.int 32)),
    .memref 3 .index, .memref 3 .index, .memref 0 (.int 8)⟩

/-! ### GPU sparse representation -/

/-- Struct `SparseEnsembleConstantLoweringInfo`, in the order its initializer
lists the fields; the fields this file leaves empty (`Value()`, `Type()`) are
named after the comments of the initializer. -/
structure SparseEnsembleConstantLoweringInfo where
  modelGlobal : Val
  offsetGlobal : Val
  lengthGlobal : Val
  lut : Val
  leaves : Val
  leavesOffset : Val
  leavesLength : Val
  classInfoGlobal : Val
  modelGlobalType : Ty
  offsetGlobaltype : Ty
  lengthGlobalType : Ty
  lutType : Option Ty
  leavesType : Option Ty
  classInfoType : Ty
  deriving DecidableEq, Repr

/-- State of a `GPUSparseRepresentation` object: its Registration Table and
the members `GenerateModelGlobals` sets. -/
structure GPUSparseRepresentation where
  sparseEnsembleConstantToMemrefsMap : List (Nat × SparseEnsembleConstantLoweringInfo)
  m_tileSize : Int
  m_thresholdType : Option Ty
  m_featureIndexType : Option Ty
  m_tileShapeType : Option Ty
  m_modelMemrefArgIndex : Nat
  m_offsetMemrefArgIndex : Nat
  m_lengthMemrefArgIndex : Nat
  m_classInfoMemrefArgIndex : Nat
  m_modelMemref : Val
  deriving DecidableEq, Repr

/-- A freshly constructed sparse representation object. -/
def GPUSparseRepresentation.new : GPUSparseRepresentation :=
  ⟨[], 0, none, none, none, 0, 0, 0, 0, .null⟩

/-- Method `GPUSparseRepresentation::GenerateModelMemrefInitializer`. -/
def GPUSparseRepresentation.GenerateModelMemrefInitializer (funcName : String)
    (module : ModuleOp) (memrefType : MemRefType) : Option ModuleOp :=
  GenerateModelMemrefInitializerImpl funcName module memrefType true

/-- Result of the sparse `GenerateModelGlobals`: the representation object, the
enclosing function's argument types and the module, after the call. -/
structure SparseGlobals where
  rep : GPUSparseRepresentation
  funcArgs : List Ty
  module : ModuleOp
  deriving DecidableEq, Repr

/-- Method `GPUSparseRepresentation::GenerateModelGlobals` for the
`EnsembleConstantOp` `op` with forest `forest` of type `forestType`, inside a
function with argument types `funcArgs`; `persist` is the serializer's
`Persist`. `none` is a failed assertion. -/
def GPUSparseRepresentation.GenerateModelGlobals (rep : GPUSparseRepresentation)
    (op : Nat) (forest : Forest) (forestType : List TreeType) (funcArgs : List Ty)
    (module : ModuleOp) (persist : Forest → LayoutPlan) : Option SparseGlobals :=
  if ¬ doAllTreesHaveSameTileSize forestType then none
  else
    match forestType.head? with
    | none => none
    | some treeType =>
      let thresholdType := treeType.thresholdType
      let featureIndexType := treeType.featureIndexType
      let tileSize := treeType.tileSize
      let tileShapeType := treeType.tileShapeType
      let childIndexType := treeType.childIndexType
      let rep := { rep with m_tileSize := tileSize, m_thresholdType := some thresholdType,
                            m_featureIndexType := some featureIndexType,
                            m_tileShapeType := some tileShapeType }
      let modelMemrefElementType : Ty :=
        .tiledNumericalNode thresholdType featureIndexType tileShapeType tileSize childIndexType
      let persisted := persist forest
      let modelMemrefSize := GetTotalNumberOfTiles persisted
      let modelMemrefType : MemRefType := ⟨modelMemrefSize, modelMemrefElementType⟩
      let funcArgs := funcArgs ++ [modelMemrefType.toTy]
      let rep := { rep with m_modelMemrefArgIndex := funcArgs.length - 1 }
      let offsetSize : Int := forest.NumTrees
      let offsetMemrefType : MemRefType := ⟨offsetSize, .index⟩
      let funcArgs := funcArgs ++ [offsetMemrefType.toTy]
      let rep := { rep with m_offsetMemrefArgIndex := funcArgs.length - 1 }
      -- Add the length argument
      let funcArgs := funcArgs ++ [offsetMemrefType.toTy]
      let rep := { rep with m_lengthMemrefArgIndex := funcArgs.length - 1 }
      -- Add the class info argument
      let classInfoSize : Int := if forest.isMultiClassClassifier then offsetSize else 0
      let classInfoMemrefType : MemRefType := ⟨classInfoSize, treeType.resultType⟩
      let funcArgs := funcArgs ++ [classInfoMemrefType.toTy]
      let rep := { rep with m_classInfoMemrefArgIndex := funcArgs.length - 1 }
      let rep := { rep with m_modelMemref := .arg rep.m_modelMemrefArgIndex }
      match GPUSparseRepresentation.GenerateModelMemrefInitializer "Init_Model" module
          modelMemrefType with
      | none => none
      | some module =>
        let module := GenerateSimpleInitializer "Init_Offsets" module offsetMemrefType
        let module := GenerateSimpleInitializer "Init_Lengths" module offsetMemrefType
        let module := GenerateSimpleInitializer "Init_ClassIds" module classInfoMemrefType
        let module := GenerateCleanupProc "Dealloc_Buffers" module
          [modelMemrefType.toTy, offsetMemrefType.toTy, offsetMemrefType.toTy]
        let info : SparseEnsembleConstantLoweringInfo :=
          { modelGlobal := rep.m_modelMemref,
            offsetGlobal := .arg rep.m_offsetMemrefArgIndex,
            lengthGlobal := .arg rep.m_lengthMemrefArgIndex,
            lut := .null,
            leaves := .null,
            leavesOffset := .null,
            leavesLength := .null,
            classInfoGlobal := .arg rep.m_classInfoMemrefArgIndex,
            modelGlobalType := modelMemrefType.toTy,
            offsetGlobaltype := offsetMemrefType.toTy,
            lengthGlobalType := offsetMemrefType.toTy,
            lutType := none,
            leavesType := none,
            classInfoType := classInfoMemrefType.toTy }
        let rep := { rep with
          sparseEnsembleConstantToMemrefsMap :=
            mapSet rep.sparseEnsembleConstantToMemrefsMap op info }
        some ⟨rep, funcArgs, module⟩

/-! ### A multi-class classifier with five trees -/

/-- A multi-class classifier of five one-tile trees. -/
def exClassifier : Forest := ⟨[1, 1, 1, 1, 1], true⟩

/-- Tree types of the classifier. -/
def exClassifierTypes : List TreeType :=
  [exTreeType, exTreeType, exTreeType, exTreeType, exTreeType]

/-- Array-based registration of the classifier (operation 0) in a function
without arguments. -/
def exClassifierGlobals : Option Globals :=
  GPUArrayBasedRepresentation.new.GenerateModelGlobals 0 exClassifier exClassifierTypes []
    ⟨[], []⟩ exPersist

/-- Sparse registration of the classifier (operation 0) in a function without
arguments. -/
def exClassifierSparseGlobals : Option SparseGlobals :=
  GPUSparseRepresentation.new.GenerateModelGlobals 0 exClassifier exClassifierTypes []
    ⟨[], []⟩ exPersist

/-- Tree types that agree on the tile size and disagree on the element types:
tree 0 has `double` thresholds and `int32` feature indices, tree 1 `float`
thresholds and `int16` feature indices. -/
def exMixedTypes : List TreeType :=
  [exTreeType, ⟨.float 32, .int 16, .int 32, .int 32, .float 32, 1⟩]

/-- A forest of two trees with tile counts `[2, 3]`. -/
def exMixedForest : Forest := ⟨[2, 3], false⟩

/-! ### Sequences of lowering calls -/

/-- One call of a method of `GPUArrayBasedRepresentation` during the lowering
of a function, with the arguments the method does not read from the state. -/
inductive Call
  | generateModelGlobals (op : Nat) (forest : Forest) (forestType : List TreeType)
      (persist : Forest → LayoutPlan)
  | lowerCacheTreeOp (op : Nat) (forest : DefiningOp) (forestType : List TreeType)
      (lengths : List Int) (stepConst : Option Int) (owningGPULaunchOp : Bool)
  | generateTreeMemref (op : Nat) (ensembleDefiningOp : DefiningOp)

/-- The key a call writes in `ensembleConstantToMemrefsMap`, if it writes one. -/
def Call.registers : Call → Option Nat
  | .generateModelGlobals op _ _ _ => some op
  | _ => none

/-- The key a call writes in `m_cacheTreesOpsMap`, if it writes one. -/
def Call.caches : Call → Option Nat
  | .lowerCacheTreeOp op _ _ _ _ _ => some op
  | _ => none

/-- What the calls share: the representation object, the argument types of the
function being lowered and the module. -/
structure LoweringState where
  rep : GPUArrayBasedRepresentation
  funcArgs : List Ty
  module : ModuleOp
  deriving DecidableEq, Repr

/-- One call on the shared state; `none` is a failed assertion. `base` is the
base class's `GenerateTreeMemref`. -/
def applyCall (base : GPUArrayBasedRepresentation → Nat → Nat → Option TreeMemref)
    (st : LoweringState) : Call → Option LoweringState
  | .generateModelGlobals op forest forestType persist =>
    (st.rep.GenerateModelGlobals op forest forestType st.funcArgs st.module persist).map
      (fun g => ⟨g.rep, g.funcArgs, g.module⟩)
  | .lowerCacheTreeOp op forest forestType lengths stepConst owningGPULaunchOp =>
    (st.rep.LowerCacheTreeOp op forest forestType lengths
        ⟨stepConst, owningGPULaunchOp, st.funcArgs⟩ st.module).map
      (fun c => ⟨c.rep, st.funcArgs, c.module⟩)
  | .generateTreeMemref op ensembleDefiningOp =>
    (st.rep.GenerateTreeMemref base op ensembleDefiningOp).map
      (fun t => ⟨t.rep, st.funcArgs, st.module⟩)

/-- A sequence of calls, in order; `none` as soon as one fails. -/
def runCalls (base : GPUArrayBasedRepresentation → Nat → Nat → Option TreeMemref)
    (st : LoweringState) : List Call → Option LoweringState
  | [] => some st
  | call :: rest => (applyCall base st call).bind (fun st' => runCalls base st' rest)

/-- The `asyncDependencies` operands of a host operation. -/
def Op.asyncDependencies : Op → List Val
  | .wait deps => deps
  | .alloc _ deps => deps
  | .memcpy deps _ _ => deps
  | .dealloc deps _ => deps
  | .launch _ _ _ _ _ _ deps _ => deps
  | _ => []

/-- Whether the operation is an asynchronous allocation, copy, kernel launch or
free. -/
def Op.isAsync : Op → Bool
  | .alloc _ _ => true
  | .memcpy _ _ _ => true
  | .dealloc _ _ => true
  | .launch _ _ _ _ _ _ _ _ => true
  | _ => false

/-- The operation at position `k` of `body` depends, directly or through a
chain of tokens, on the completion token of the operation at position `j`. -/
inductive DependsOn (body : List Op) : Nat → Nat → Prop
  | direct {k j : Nat} {op : Op} : body.get? k = some op →
      Val.token j ∈ op.asyncDependencies → DependsOn body k j
  | trans {k i j : Nat} : DependsOn body k i → DependsOn body i j → DependsOn body k j

/-- The operation at position `w` of `body` is a wait, and every asynchronous
allocation, copy, kernel launch and free of `body` is issued before it and is
among its transitive dependencies. -/
def FinalWait (body : List Op) (w : Nat) : Prop :=
  (∃ deps, body.get? w = some (.wait deps)) ∧
  ∀ j op, body.get? j = some op → op.isAsync = true → j < w ∧ DependsOn body w j

/-- Search for a chain of tokens from position `k` to position `j` in the
dependency lists `graph`, of at most `fuel` links. -/
def reachesB (graph : List (List Val)) : Nat → Nat → Nat → Bool
  | 0, _, _ => false
  | fuel + 1, k, j =>
    ((graph.get? k).getD []).any (fun v =>
      match v with
      | .token i => i == j || reachesB graph fuel i j
      | _ => false)

/-- A check of `FinalWait` by search. -/
def waitsForAll (body : List Op) (w : Nat) : Bool :=
  (match body.get? w with
    | some (.wait _) => true
    | _ => false) &&
  (List.range body.length).all (fun j =>
    !(((body.get? j).map Op.isAsync).getD false) ||
      (decide (j < w) && reachesB (body.map Op.asyncDependencies) body.length w j))

/-! ### The barrier of the staging code -/

/-- The operations of a statement, those inside the regions of an `scf.if`
included. -/
def DStmt.ops : DStmt → List DOp
  | .op _ o => [o]
  | .ifOp _ _ thenOps elseOps => thenOps.map (fun e => e.2) ++ elseOps.map (fun e => e.2)

/-- Whether the operation is a `gpu.barrier`. -/
def DOp.isBarrier : DOp → Bool
  | .barrier => true
  | _ => false

/-- Whether the operation is an `InitTileOp`, the store into a slot of a tile
buffer. -/
def DOp.isInitTile : DOp → Bool
  | .initTile _ _ _ _ _ => true
  | _ => false

/-- Whether the event is a worker passing the barrier. -/
def Event.isBarrier {θ : Type} : Event θ → Bool
  | .barrier => true
  | _ => false

/-- Whether the event is a store into a slot of a tile buffer. -/
def Event.isInitTile {θ : Type} : Event θ → Bool
  | .initTile _ _ _ _ _ => true
  | _ => false

/-! ## Serialization and equality (`DecisionForest.h`)

A `std::stringstream` is a `String`; `strStream << x` appends the text of `x`.
Integers are written in decimal (`toString`). `ThresholdType` is a template
parameter (`double` by default): the text `<<` writes for a value of it is the
parameter `render`, its `operator==` the parameter `eq`; neither is assumed to
agree with equality of `θ` (for `double`, `0.0 == -0.0` holds and `NaN == NaN`
does not). -/

/-- Enumeration `ReductionType`. -/
inductive ReductionType
  | kAdd
  | kVoting
  deriving DecidableEq, Repr

/-- The cast `(int32_t)featureType`. -/
def FeatureType.toInt32 : FeatureType → Int
  | .kNumerical => 0
  | .kCategorical => 1

/-- The cast `(int32_t)m_reductionType`. -/
def ReductionType.toInt32 : ReductionType → Int
  | .kAdd => 0
  | .kVoting => 1

/-- Operator `Node::operator==`. -/
def Node.beq {θ : Type} (eq : θ → θ → Bool) (node that : Node θ) : Bool :=
  eq node.threshold that.threshold && node.featureIndex == that.featureIndex &&
    node.parent == that.parent && node.leftChild == that.leftChild &&
    node.rightChild == that.rightChild && decide (node.featureType = that.featureType)

/-- Operator `==` of `std::vector`: same size and equal elements. -/
def vecBeq {α : Type} (eq : α → α → Bool) : List α → List α → Bool
  | [], [] => true
  | a :: as, b :: bs => eq a b && vecBeq eq as bs
  | _, _ => false

/-- Operator `DecisionTree::operator==`. -/
def DecisionTree.beq {θ : Type} (eq : θ → θ → Bool) (tree that : DecisionTree θ) : Bool :=
  vecBeq (Node.beq eq) tree.m_nodes that.m_nodes && tree.m_numFeatures == that.m_numFeatures &&
    eq tree.m_scale that.m_scale

/-- Struct `DecisionForest::Feature`. -/
structure Feature where
  name : String
  type : String
  deriving DecidableEq, Repr

/-- Class `DecisionForest` of `DecisionForest.h`. -/
structure DecisionForest (θ : Type) where
  m_features : List Feature
  m_trees : List (DecisionTree θ)
  m_reductionType : ReductionType
  deriving DecidableEq, Repr

/-- Operator `DecisionForest::operator==`. -/
def DecisionForest.beq {θ : Type} (eq : θ → θ → Bool) (forest that : DecisionForest θ) : Bool :=
  decide (forest.m_reductionType = that.m_reductionType) &&
    vecBeq (DecisionTree.beq eq) forest.m_trees that.m_trees

/-- The texts `DecisionTree::Serialize` writes for one node, one for every
`<<` of the loop body. -/
def Node.written {θ : Type} (render : θ → String) (node : Node θ) : List String :=
  [render node.threshold, toString node.featureIndex, toString node.parent,
    toString node.leftChild, toString node.rightChild, toString node.featureType.toInt32]

/-- The texts `DecisionTree::Serialize` writes, one for every `<<`, in the
order of writing. -/
def DecisionTree.written {θ : Type} (render : θ → String) (tree : DecisionTree θ) :
    List String :=
  toString tree.m_numFeatures :: render tree.m_scale ::
    (tree.m_nodes.map (Node.written render)).flatten

/-- The texts `DecisionForest::Serialize` writes, in the order of writing: the
reduction type, the tree count and, for every tree, the texts of the tree. -/
def DecisionForest.written {θ : Type} (render : θ → String) (forest : DecisionForest θ) :
    List String :=
  toString forest.m_reductionType.toInt32 :: toString forest.m_trees.length ::
    (forest.m_trees.map (DecisionTree.written render)).flatten

/-- Method `DecisionTree::NewNode`: the tree after the call and the index it
returns. -/
def DecisionTree.NewNode {θ : Type} (tree : DecisionTree θ) (threshold : θ)
    (featureIndex : Int) : DecisionTree θ × Int :=
  let node : Node θ := ⟨threshold, featureIndex, INVALID_NODE_INDEX, INVALID_NODE_INDEX,
    INVALID_NODE_INDEX, .kNumerical⟩
  let m_nodes := tree.m_nodes ++ [node]
  ({ tree with m_nodes := m_nodes }, (m_nodes.length : Int) - 1)

/-- The assignment `v[i].field = value` on a `std::vector`, `f` setting the
field; `none` when `i` is outside the vector. -/
def vecUpdate {α : Type} (v : List α) (i : Int) (f : α → α) : Option (List α) :=
  match vecAt v i with
  | some x => some (v.set i.toNat (f x))
  | none => none

/-- Method `DecisionTree::SetNodeParent`. -/
def DecisionTree.SetNodeParent {θ : Type} (tree : DecisionTree θ) (node parent : Int) :
    Option (DecisionTree θ) :=
  (vecUpdate tree.m_nodes node (fun n => { n with parent := parent })).map
    (fun m_nodes => { tree with m_nodes := m_nodes })

/-- Method `DecisionTree::SetNodeRightChild`. -/
def DecisionTree.SetNodeRightChild {θ : Type} (tree : DecisionTree θ) (node child : Int) :
    Option (DecisionTree θ) :=
  (vecUpdate tree.m_nodes node (fun n => { n with rightChild := child })).map
    (fun m_nodes => { tree with m_nodes := m_nodes })

/-- Method `DecisionTree::SetNodeLeftChild`. -/
def DecisionTree.SetNodeLeftChild {θ : Type} (tree : DecisionTree θ) (node child : Int) :
    Option (DecisionTree θ) :=
  (vecUpdate tree.m_nodes node (fun n => { n with leftChild := child })).map
    (fun m_nodes => { tree with m_nodes := m_nodes })

/-! ## Tile loads of the code-generation tests (`CodeGenTests.cpp`)

The tests build a function around one tile-load operation, lower it and run it
on five tiles. The functions are embedded from the tests; the lowering of the
operations is not among the sources. -/

/-- Modelled from the spec: a one-dimensional memref of tiles as the tests pass
it to the compiled function, `(ptr, alignedPtr, offset, length, stride)` over
the tile buffer `data`. The lowering of memrefs to this descriptor is missing
from the sources. -/
structure TileMemref (θ : Type) where
  data : List (Tile θ)
  offset : Int
  length : Int
  stride : Int
  deriving DecidableEq, Repr

/-- Modelled from the spec: `memref::SubViewOp` with one offset, one size and
one stride, a view of the same buffer; the operation is part of MLIR, missing
from the sources. -/
def TileMemref.SubViewOp {θ : Type} (source : TileMemref θ) (offset size stride : Int) :
    TileMemref θ :=
  ⟨source.data, source.offset + offset * source.stride, size, source.stride * stride⟩

/-- Modelled from the spec: the element of a memref at `index`, the tile of
the buffer at `offset + index * stride`; an index outside the memref or outside
the buffer has no value. The lowering of element accesses is missing from the
sources. -/
def TileMemref.tileAt {θ : Type} (memref : TileMemref θ) (index : Int) : Option (Tile θ) :=
  if 0 ≤ index ∧ index < memref.length then
    vecAt memref.data (memref.offset + index * memref.stride)
  else none

/-- Modelled from the spec: `decisionforest::LoadTileThresholdsOp` on tiles of
tile size 1, the threshold of the tile at `index`; its lowering is missing from
the sources. -/
def LoadTileThresholdsOp {θ : Type} (memref : TileMemref θ) (index : Int) : Option θ :=
  (memref.tileAt index).map (fun tile => tile.threshold)

/-- Modelled from the spec: `decisionforest::LoadTileFeatureIndicesOp` on tiles
of tile size 1, the feature index of the tile at `index`; its lowering is
missing from the sources. -/
def LoadTileFeatureIndicesOp {θ : Type} (memref : TileMemref θ) (index : Int) : Option Int :=
  (memref.tileAt index).map (fun tile => tile.featureIndex)

/-- The `scf::ForOp batchLoop` of the tests, from 0 below `upperBound` in steps
of 1: `value = load(i)`, then `memref::StoreOp` of `value` into
`outputMemref[i]`. `none` when a load or a store is out of bounds. -/
def batchLoop {α : Type} (load : Int → Option α) (upperBound : Nat) (outputMemref : List α) :
    Option (List α) :=
  (List.range upperBound).foldlM
    (fun output i => (load i).bind (fun value => vecUpdate output i (fun _ => value)))
    outputMemref

/-- The `TestFunction` of `Test_LoadTileThresholdOp_DoubleInt32_TileSize1` on
the arguments the test passes: the tiles as a memref of offset 0 and stride
1, and the result vector. It gives the result vector and the return value. -/
def Test_LoadTileThresholdOp {θ : Type} (tiles : List (Tile θ)) (thresholds : List θ) :
    Option (List θ × Int) :=
  let length := tiles.length
  let inputMemref : TileMemref θ := ⟨tiles, 0, length, 1⟩
  (batchLoop (LoadTileThresholdsOp inputMemref) length thresholds).map (fun out => (out, 0))

/-- The `TestFunction` of `Test_LoadTileFeatureIndicesOp_DoubleInt32_TileSize1`. -/
def Test_LoadTileFeatureIndicesOp {θ : Type} (tiles : List (Tile θ)) (indices : List Int) :
    Option (List Int × Int) :=
  let length := tiles.length
  let inputMemref : TileMemref θ := ⟨tiles, 0, length, 1⟩
  (batchLoop (LoadTileFeatureIndicesOp inputMemref) length indices).map (fun out => (out, 0))

/-- The `TestFunction` of `Test_LoadTileThresholdOp_Subview_DoubleInt32_TileSize1`:
the loads go through the subview at `offset` of size `length - offset`. -/
def Test_LoadTileThresholdOp_Subview {θ : Type} (tiles : List (Tile θ)) (offset : Nat)
    (thresholds : List θ) : Option (List θ × Int) :=
  let length := tiles.length
  let inputMemref : TileMemref θ := ⟨tiles, 0, length, 1⟩
  let memrefSubview := inputMemref.SubViewOp offset ((length : Int) - offset) 1
  (batchLoop (LoadTileThresholdsOp memrefSubview) (length - offset) thresholds).map
    (fun out => (out, 0))

/-- The `TestFunction` of
`Test_LoadTileFeatureIndicesOp_Subview_DoubleInt32_TileSize1`. -/
def Test_LoadTileFeatureIndicesOp_Subview {θ : Type} (tiles : List (Tile θ)) (offset : Nat)
    (indices : List Int) : Option (List Int × Int) :=
  let length := tiles.length
  let inputMemref : TileMemref θ := ⟨tiles, 0, length, 1⟩
  let memrefSubview := inputMemref.SubViewOp offset ((length : Int) - offset) 1
  (batchLoop (LoadTileFeatureIndicesOp memrefSubview) (length - offset) indices).map
    (fun out => (out, 0))

/-- The five tiles `(1, 1) … (5, 5)` of the tests (thresholds as integers). -/
def exTiles : List (Tile Int) := [⟨1, 1, 0⟩, ⟨2, 2, 0⟩, ⟨3, 3, 0⟩, ⟨4, 4, 0⟩, ⟨5, 5, 0⟩]

/-! ### Workers of the fill kernel -/

/-- Worker `t` of block `b` in the launch of the fill kernel: blocks of
`32 × 1 × 1` workers. -/
def fillWorker (b t : Int) : Inputs := ⟨32, 1, b, t, 0, 0, 0, 0⟩

/-- Worker `(threadX, threadY)` of a block of `numThreadsX × numThreadsY`
workers running the staging code of a directive over the trees
`[startTree, endTree)`. -/
def stagingWorker (numThreadsX numThreadsY threadX threadY startTree endTree : Int) : Inputs :=
  ⟨numThreadsX, numThreadsY, 0, threadX, threadY, startTree, endTree, 0⟩

/-! ### The nodes `PredictTree` visits -/

/-- The loop of `PredictTree` with the node pointer kept as an index into
`m_nodes`: the indices of the nodes visited, in order, and the outcome. -/
def PredictTree.visited {θ : Type} (lt : θ → θ → Bool) (m_nodes : List (Node θ))
    (data : List θ) : Nat → Int → List Int × Outcome θ
  | 0, i =>
    match vecAt m_nodes i with
    | none => ([], .fault)
    | some _ => ([], .timeout)
  | fuel + 1, i =>
    match vecAt m_nodes i with
    | none => ([], .fault)
    | some node =>
      if node.IsLeaf then ([i], .value node.threshold)
      else
        match vecAt data node.featureIndex with
        | none => ([i], .fault)
        | some x =>
          let next := if lt node.threshold x then node.leftChild else node.rightChild
          (i :: (PredictTree.visited lt m_nodes data fuel next).1,
            (PredictTree.visited lt m_nodes data fuel next).2)

/-- A two-node tree whose root has a right child only: every valid child index
(the 1) is greater than its parent's index and less than the node count. -/
def exHalfTree : DecisionTree Int :=
  { m_nodes := [⟨5, 0, -1, -1, 1, .kNumerical⟩, ⟨20, 0, 0, -1, -1, .kNumerical⟩],
    m_numFeatures := 1, m_scale := 1 }

/-! ## Building trees from an ONNX model (`onnxmodelparser.h`) -/

/-- Struct `_ONNXTreeNode` behind a `std::shared_ptr`; `null` is the null
pointer. The type holds the finite trees; `featureId` is an `int64_t`. -/
inductive ONNXTreeNode (θ : Type)
  | null
  | node (featureId : Int) (threshold : θ) (leftChild rightChild : ONNXTreeNode θ)
  deriving Repr

/-- The test `if (parent)` on a `shared_ptr`, negated. -/
def ONNXTreeNode.isNull {θ : Type} : ONNXTreeNode θ → Bool
  | .null => true
  | .node _ _ _ _ => false

/-- Number of ONNX nodes of a tree. -/
def ONNXTreeNode.size {θ : Type} : ONNXTreeNode θ → Nat
  | .null => 0
  | .node _ _ leftChild rightChild => 1 + leftChild.size + rightChild.size

/-- Conversion of an `int64_t` to `int32_t`: the value modulo `2^32`, in two's
complement. -/
def int64ToInt32 (value : Int) : Int :=
  (value + 2147483648) % 4294967296 - 2147483648

/-- Modelled from the spec: method `ForestCreator::NewNode` (`forestcreator.h`
is missing from the sources), taken to be `DecisionTree::NewNode` on the tree
that `NewTree` added last, the tree under construction. `constructSingleTree`
passes an `int64_t` feature id; the node stores it in the `int32_t`
`FeatureIndexType`, so it is converted on the way. -/
def ForestCreator.NewNode {θ : Type} (tree : DecisionTree θ) (threshold : θ)
    (featureIndex : Int) : DecisionTree θ × Int :=
  tree.NewNode threshold (int64ToInt32 featureIndex)

/-- Modelled from the spec: method `ForestCreator::SetNodeParent` (missing from
the sources), taken to be `DecisionTree::SetNodeParent` on the tree under
construction. -/
def ForestCreator.SetNodeParent {θ : Type} (tree : DecisionTree θ) (node parent : Int) :
    Option (DecisionTree θ) :=
  tree.SetNodeParent node parent

/-- Modelled from the spec: method `ForestCreator::SetNodeLeftChild` (missing
from the sources), taken to be `DecisionTree::SetNodeLeftChild` on the tree
under construction. -/
def ForestCreator.SetNodeLeftChild {θ : Type} (tree : DecisionTree θ) (node child : Int) :
    Option (DecisionTree θ) :=
  tree.SetNodeLeftChild node child

/-- Modelled from the spec: method `ForestCreator::SetNodeRightChild` (missing
from the sources), taken to be `DecisionTree::SetNodeRightChild` on the tree
under construction. -/
def ForestCreator.SetNodeRightChild {θ : Type} (tree : DecisionTree θ) (node child : Int) :
    Option (DecisionTree θ) :=
  tree.SetNodeRightChild node child

/-- The two statements under `if (childIndex != -1)` of `constructSingleTree`:
`setChild(rootIndex, childIndex)`, then `SetNodeParent(childIndex, rootIndex)`. -/
def linkChild {θ : Type}
    (setChild : DecisionTree θ → Int → Int → Option (DecisionTree θ))
    (tree : DecisionTree θ) (rootIndex childIndex : Int) : Option (DecisionTree θ) :=
  if childIndex != -1 then
    (setChild tree rootIndex childIndex).bind
      (fun tree => ForestCreator.SetNodeParent tree childIndex rootIndex)
  else some tree

/-- Method `ONNXFileParser::constructSingleTree` on the tree under
construction: the value it returns and the tree afterwards; `none` when a
setter is called with an index outside the tree. -/
def constructSingleTree {θ : Type} :
    ONNXTreeNode θ → DecisionTree θ → Option (Int × DecisionTree θ)
  | .null, tree => some (-1, tree)
  | .node featureId threshold leftChild rightChild, tree =>
    let (tree, rootIndex) := ForestCreator.NewNode tree threshold featureId
    match constructSingleTree leftChild tree with
    | none => none
    | some (leftChildIndex, tree) =>
      match linkChild ForestCreator.SetNodeLeftChild tree rootIndex leftChildIndex with
      | none => none
      | some tree =>
        match constructSingleTree rightChild tree with
        | none => none
        | some (rightChildIndex, tree) =>
          match linkChild ForestCreator.SetNodeRightChild tree rootIndex rightChildIndex with
          | none => none
          | some tree => some (rootIndex, tree)

/-- Method `DecisionForest::NewTree`: a value-initialized tree is appended;
`zero` is the value-initialized `ThresholdType`. -/
def DecisionForest.NewTree {θ : Type} (zero : θ) (forest : DecisionForest θ) :
    DecisionForest θ :=
  { forest with m_trees := forest.m_trees ++ [⟨[], 0, zero⟩] }

/-- Modelled from the spec: method `ForestCreator::NewTree` (missing from the
sources), taken to be `DecisionForest::NewTree` on the forest being created;
the appended tree becomes the tree under construction. -/
def ForestCreator.NewTree {θ : Type} (zero : θ) (forest : DecisionForest θ) :
    DecisionForest θ :=
  forest.NewTree zero

/-- Modelled from the spec: method `ForestCreator::SetTreeClassId` (missing
from the sources; `DecisionTree` of `DecisionForest.h` has no class id), taken
to record the class id for the tree under construction, the last tree of the
forest, and to leave the nodes alone. -/
def ForestCreator.SetTreeClassId {θ : Type} (forest : DecisionForest θ)
    (treeClassIds : List (Nat × Int)) (classId : Int) : List (Nat × Int) :=
  treeClassIds ++ [(forest.m_trees.length - 1, classId)]

/-- Body of the loop of `ONNXFileParser::ConstructForest` for the root `tree`:
`NewTree`, `constructSingleTree`, `SetNodeParent(rootIndex, -1)`, for a
classifier the assertion on the class ids and `SetTreeClassId`, then
`treeIdIndex++`. The state is the counter `treeIdIndex`, the forest and the
recorded class ids. `_treeToClassIdMap[key]` is the ordered set of the class
ids under `key`, empty for a key the map does not have; `none` is a failed
assertion or a setter called with an index outside the tree. The tree under
construction is written back as the last tree of the forest; `EndTree` (of
`ForestCreator`, missing from the sources) is taken to leave the nodes alone,
as `DecisionForest::EndTree` does. -/
def ConstructForest.body {θ : Type} (zero : θ) (_isClassifier : Bool)
    (_treeToClassIdMap : Int → List Int)
    (state : Int × DecisionForest θ × List (Nat × Int)) (tree : ONNXTreeNode θ) :
    Option (Int × DecisionForest θ × List (Nat × Int)) :=
  let treeIdIndex := state.1
  let forest := ForestCreator.NewTree zero state.2.1
  let treeClassIds := state.2.2
  match forest.m_trees.getLast? with
  | none => none
  | some current =>
    match constructSingleTree tree current with
    | none => none
    | some (rootIndex, current) =>
      -- Root has no parent, setting to -1
      match ForestCreator.SetNodeParent current rootIndex (-1) with
      | none => none
      | some current =>
        let forest := { forest with m_trees := forest.m_trees.dropLast ++ [current] }
        if _isClassifier then
          if (_treeToClassIdMap treeIdIndex).length == 1 then
            match (_treeToClassIdMap treeIdIndex).head? with
            | none => none
            | some classId =>
              some (treeIdIndex + 1, forest,
                ForestCreator.SetTreeClassId forest treeClassIds classId)
          else none
        else some (treeIdIndex + 1, forest, treeClassIds)

/-- Method `ONNXFileParser::ConstructForest`: the loop over the roots in
`_trees`, from `treeIdIndex = 0`; the result is the forest and the recorded
class ids. -/
def ConstructForest {θ : Type} (zero : θ) (_trees : List (ONNXTreeNode θ))
    (_isClassifier : Bool) (_treeToClassIdMap : Int → List Int)
    (forest : DecisionForest θ) (treeClassIds : List (Nat × Int)) :
    Option (DecisionForest θ × List (Nat × Int)) :=
  (_trees.foldlM (ConstructForest.body zero _isClassifier _treeToClassIdMap)
    (0, forest, treeClassIds)).map (fun state => state.2)

/-- The nodes of an ONNX tree in preorder, as the claim words them: the node
at index `base` with the parent `parent`, then the left subtree from
`base + 1`, then the right subtree; the child fields hold the indices of the
roots of the subtrees, `INVALID_NODE_INDEX` for a null child; the feature
index is the feature id as the `int32_t` the node stores. -/
def preorderNodes {θ : Type} (parent : Int) (base : Nat) : ONNXTreeNode θ → List (Node θ)
  | .null => []
  | .node featureId threshold leftChild rightChild =>
    ⟨threshold, int64ToInt32 featureId, parent,
      if leftChild.isNull then INVALID_NODE_INDEX else ((base + 1 : Nat) : Int),
      if rightChild.isNull then INVALID_NODE_INDEX else ((base + 1 + leftChild.size : Nat) : Int),
      .kNumerical⟩
      :: (preorderNodes base (base + 1) leftChild
          ++ preorderNodes base (base + 1 + leftChild.size) rightChild)

/-- An ONNX tree of five nodes: the root has a left leaf and a right inner
node with two leaves; the feature id of the inner node is `2^32 + 1`. -/
def exOnnxTree : ONNXTreeNode Int :=
  .node 0 5 (.node 0 10 .null .null)
    (.node 4294967297 7 (.node 0 20 .null .null) (.node 0 30 .null .null))

/-! # Theorems -/

/-! ### Traversal lemmas -/

theorem Node.IsLeaf_iff {θ : Type} (n : Node θ) :
    n.IsLeaf = true ↔ (n.leftChild = -1 ∧ n.rightChild = -1) := by
  simp [Node.IsLeaf, INVALID_NODE_INDEX]

theorem PredictTree.loop_of_descent {θ : Type} (lt : θ → θ → Bool) (nodes : List (Node θ))
    (data : List θ) (i : Int) (k : Nat) (v : θ)
    (h : SpecDescent lt nodes data i k v) :
    ∀ (n : Node θ), vecAt nodes i = some n → ∀ fuel, k ≤ fuel →
      PredictTree.loop lt nodes data fuel n = .value v := by
  induction h with
  | leaf i n hn hl hr =>
    intro m hm fuel hf
    rw [hn] at hm
    cases hm
    obtain ⟨f, rfl⟩ : ∃ f, fuel = f + 1 := ⟨fuel - 1, by omega⟩
    have : n.IsLeaf = true := (Node.IsLeaf_iff n).2 ⟨hl, hr⟩
    simp [PredictTree.loop, this]
  | left i n x k v hn hnl hx hlt hd ih =>
    intro m hm fuel hf
    rw [hn] at hm
    cases hm
    obtain ⟨f, rfl⟩ : ∃ f, fuel = f + 1 := ⟨fuel - 1, by omega⟩
    have hleaf : n.IsLeaf = false := by
      cases hb : n.IsLeaf with
      | false => rfl
      | true => exact absurd ((Node.IsLeaf_iff n).1 hb) hnl
    have hk : 1 ≤ k := by cases hd <;> omega
    cases hnext : vecAt nodes n.leftChild with
    | none => cases hd <;> simp_all
    | some next =>
      simp [PredictTree.loop, hleaf, hx, hlt, hnext]
      exact ih next hnext f (by omega)
  | right i n x k v hn hnl hx hlt hd ih =>
    intro m hm fuel hf
    rw [hn] at hm
    cases hm
    obtain ⟨f, rfl⟩ : ∃ f, fuel = f + 1 := ⟨fuel - 1, by omega⟩
    have hleaf : n.IsLeaf = false := by
      cases hb : n.IsLeaf with
      | false => rfl
      | true => exact absurd ((Node.IsLeaf_iff n).1 hb) hnl
    cases hnext : vecAt nodes n.rightChild with
    | none => cases hd <;> simp_all
    | some next =>
      simp [PredictTree.loop, hleaf, hx, hlt, hnext]
      exact ih next hnext f (by omega)

theorem PredictTree.descent_of_loop {θ : Type} (lt : θ → θ → Bool) (nodes : List (Node θ))
    (data : List θ) :
    ∀ (fuel : Nat) (i : Int) (n : Node θ) (v : θ), vecAt nodes i = some n →
      PredictTree.loop lt nodes data fuel n = .value v →
      ∃ k, k ≤ fuel ∧ SpecDescent lt nodes data i k v := by
  intro fuel
  induction fuel with
  | zero => intro i n v _ h; simp [PredictTree.loop] at h
  | succ f ih =>
    intro i n v hn h
    unfold PredictTree.loop at h
    by_cases hleaf : n.IsLeaf = true
    · simp [hleaf] at h
      subst h
      have := (Node.IsLeaf_iff n).1 hleaf
      exact ⟨1, by omega, SpecDescent.leaf i n hn this.1 this.2⟩
    · have hnl : ¬ (n.leftChild = -1 ∧ n.rightChild = -1) :=
        fun hc => hleaf ((Node.IsLeaf_iff n).2 hc)
      simp only [hleaf] at h
      cases hx : vecAt data n.featureIndex with
      | none => simp [hx] at h
      | some x =>
        simp only [hx] at h
        cases hlt : lt n.threshold x with
        | true =>
          simp only [hlt, if_true] at h
          cases hnext : vecAt nodes n.leftChild with
          | none => simp [hnext] at h
          | some next =>
            simp only [hnext] at h
            obtain ⟨k, hk, hd⟩ := ih n.leftChild next v hnext h
            exact ⟨k + 1, by omega, SpecDescent.left i n x k v hn hnl hx hlt hd⟩
        | false =>
          simp only [hlt] at h
          cases hnext : vecAt nodes n.rightChild with
          | none => simp [hnext] at h
          | some next =>
            simp at h
            simp only [hnext] at h
            obtain ⟨k, hk, hd⟩ := ih n.rightChild next v hnext h
            exact ⟨k + 1, by omega, SpecDescent.right i n x k v hn hnl hx hlt hd⟩

/-! ### Claim C2 -/

/-- C2: for a non-empty tree, `PredictTree` starts at node 0 and follows the
specified descent: whenever the walk from node 0 (left when
`threshold < data[featureIndex]`, right otherwise) stays in bounds and ends in a
leaf after `k` nodes, `PredictTree` returns that leaf's threshold for every fuel
of at least `k`; conversely every value it returns is the threshold of the leaf
that walk ends in; and a tree whose root is a leaf returns the root's threshold
for every `data`. -/
theorem PredictTree_follows_descent {θ : Type} (lt : θ → θ → Bool) (tree : DecisionTree θ)
    (data : List θ) (hne : tree.m_nodes ≠ []) :
    (∀ k v, SpecDescent lt tree.m_nodes data 0 k v →
        ∀ fuel, k ≤ fuel → tree.PredictTree lt data fuel = .value v) ∧
    (∀ fuel v, tree.PredictTree lt data fuel = .value v →
        ∃ k, k ≤ fuel ∧ SpecDescent lt tree.m_nodes data 0 k v) ∧
    (∀ root, tree.m_nodes.head? = some root → root.leftChild = -1 → root.rightChild = -1 →
        ∀ fuel, 1 ≤ fuel → tree.PredictTree lt data fuel = .value root.threshold) := by
  obtain ⟨root, rest, hnodes⟩ : ∃ root rest, tree.m_nodes = root :: rest := by
    cases h : tree.m_nodes with
    | nil => exact absurd h hne
    | cons a l => exact ⟨a, l, rfl⟩
  have hroot : vecAt tree.m_nodes 0 = some root := by simp [vecAt, hnodes]
  have hlen : tree.m_nodes.length > 0 := by simp [hnodes]
  have hrun : ∀ fuel, tree.PredictTree lt data fuel
      = PredictTree.loop lt tree.m_nodes data fuel root := by
    intro fuel
    simp [DecisionTree.PredictTree, hroot, hlen]
  refine ⟨?_, ?_, ?_⟩
  · intro k v hd fuel hf
    rw [hrun]
    exact PredictTree.loop_of_descent lt tree.m_nodes data 0 k v hd root hroot fuel hf
  · intro fuel v h
    rw [hrun] at h
    exact PredictTree.descent_of_loop lt tree.m_nodes data fuel 0 root v hroot h
  · intro r hr hl hrc fuel hf
    have : r = root := by simpa [hnodes] using hr.symm
    subst this
    rw [hrun]
    exact PredictTree.loop_of_descent lt tree.m_nodes data 0 1 r.threshold
      (SpecDescent.leaf 0 r hroot hl hrc) r hroot fuel hf

/-- Witness for C2: on the stump with `data = [7]`, `5 < 7` sends the walk left
and `PredictTree` returns `10`. -/
theorem PredictTree_follows_descent_witness :
    stumpTree.m_nodes ≠ [] ∧ stumpTree.PredictTree ltInt [7] 2 = .value 10 :=
  ⟨by decide,
   (PredictTree_follows_descent ltInt stumpTree [7] (by decide)).1 2 10
     (SpecDescent.left 0 ⟨5, 0, -1, 1, 2, .kNumerical⟩ 7 1 10 (by decide) (by decide)
       (by decide) (by decide)
       (SpecDescent.leaf 1 ⟨10, 0, 0, -1, -1, .kNumerical⟩ (by decide) rfl rfl))
     2 (by decide)⟩

/-! ### Running the staging code -/

theorem lookup_cons_name {β : Type} (k k' : Name) (v : β) (rest : List (Name × β)) :
    List.lookup k ((k', v) :: rest) = if k = k' then some v else List.lookup k rest := by
  by_cases h : k = k'
  · subst h; simp [List.lookup]
  · have : (k == k') = false := by simpa using h
    simp [List.lookup, this, h]

theorem LowerCacheTreeOp.emitted_run_idle {θ : Type} (mem : Memory θ) (inp : Inputs) (op : Nat)
    (info : EnsembleConstantLoweringInfo) (offsetsLength modelLength : Int) (ty : MemRefType)
    (name : String) (offsets : List Int) (s e : Int)
    (hoff : mem.ints (.host info.offsetGlobal) = some offsets)
    (hs : vecAt offsets inp.startTreeIndex = some s)
    (he : if inp.endTreeIndex < offsetsLength then vecAt offsets inp.endTreeIndex = some e
          else e = offsetsLength)
    (hidle : ¬ inp.blockSizeX * inp.threadIdY + inp.threadIdX < e - s) :
    (runStmts mem inp (LowerCacheTreeOp.emitted op info offsetsLength modelLength ty name)).events
      = rangeLoads info inp offsetsLength ++ [.barrier] := by
  by_cases hlt : inp.endTreeIndex < offsetsLength
  · simp only [hlt, if_true] at he
    simp [LowerCacheTreeOp.emitted, lookup_cons_name, runStmts, runFrom, runStmt, runOps, evalOp,
      evalVal, evalInt, evalBuf, rangeLoads, hoff, hs, he, hlt, hidle]
  · simp only [hlt, if_false] at he
    subst he
    simp [LowerCacheTreeOp.emitted, lookup_cons_name, runStmts, runFrom, runStmt, runOps, evalOp,
      evalVal, evalInt, evalBuf, rangeLoads, hoff, hs, hlt, hidle]

theorem LowerCacheTreeOp.emitted_run_stage {θ : Type} (mem : Memory θ) (inp : Inputs) (op : Nat)
    (info : EnsembleConstantLoweringInfo) (offsetsLength modelLength : Int) (ty : MemRefType)
    (name : String) (offsets : List Int) (s e : Int) (model : List (Tile θ)) (tile : Tile θ)
    (hoff : mem.ints (.host info.offsetGlobal) = some offsets)
    (hs : vecAt offsets inp.startTreeIndex = some s)
    (he : if inp.endTreeIndex < offsetsLength then vecAt offsets inp.endTreeIndex = some e
          else e = offsetsLength)
    (hin : inp.blockSizeX * inp.threadIdY + inp.threadIdX < e - s)
    (hmodel : mem.tiles (.host info.modelGlobal) = some model)
    (htile : vecAt model (s + (inp.blockSizeX * inp.threadIdY + inp.threadIdX)) = some tile) :
    (runStmts mem inp (LowerCacheTreeOp.emitted op info offsetsLength modelLength ty name)).events
      = rangeLoads info inp offsetsLength
        ++ [.loadTileThreshold (.host info.modelGlobal)
              (s + (inp.blockSizeX * inp.threadIdY + inp.threadIdX)),
            .loadTileFeatureIndex (.host info.modelGlobal)
              (s + (inp.blockSizeX * inp.threadIdY + inp.threadIdX)),
            .initTile (.global name) (inp.blockSizeX * inp.threadIdY + inp.threadIdX)
              tile.threshold tile.featureIndex 0,
            .barrier] := by
  have htile' : vecAt model (inp.blockSizeX * inp.threadIdY + inp.threadIdX + s) = some tile := by
    rw [add_comm]; exact htile
  have hc : s + (inp.blockSizeX * inp.threadIdY + inp.threadIdX)
      = inp.blockSizeX * inp.threadIdY + inp.threadIdX + s := add_comm _ _
  by_cases hlt : inp.endTreeIndex < offsetsLength
  · simp only [hlt, if_true] at he
    simp [LowerCacheTreeOp.emitted, lookup_cons_name, runStmts, runFrom, runStmt, runOps, evalOp,
      evalVal, evalInt, evalBuf, rangeLoads, hoff, hs, he, hlt, hin, hmodel, htile', hc]
  · simp only [hlt, if_false] at he
    subst he
    simp [LowerCacheTreeOp.emitted, lookup_cons_name, runStmts, runFrom, runStmt, runOps, evalOp,
      evalVal, evalInt, evalBuf, rangeLoads, hoff, hs, hlt, hin, hmodel, htile', hc]

theorem LowerCacheTreeOp.emitted_run_fault {θ : Type} (mem : Memory θ) (inp : Inputs) (op : Nat)
    (info : EnsembleConstantLoweringInfo) (offsetsLength modelLength : Int) (ty : MemRefType)
    (name : String) (offsets : List Int) (s e : Int)
    (hoff : mem.ints (.host info.offsetGlobal) = some offsets)
    (hs : vecAt offsets inp.startTreeIndex = some s)
    (he : if inp.endTreeIndex < offsetsLength then vecAt offsets inp.endTreeIndex = some e
          else e = offsetsLength)
    (hin : inp.blockSizeX * inp.threadIdY + inp.threadIdX < e - s)
    (htile : (mem.tiles (.host info.modelGlobal)).bind
      (fun l => vecAt l (s + (inp.blockSizeX * inp.threadIdY + inp.threadIdX))) = none) :
    (runStmts mem inp (LowerCacheTreeOp.emitted op info offsetsLength modelLength ty name)).events
      = rangeLoads info inp offsetsLength
        ++ [.loadTileThreshold (.host info.modelGlobal)
              (s + (inp.blockSizeX * inp.threadIdY + inp.threadIdX)),
            .fault] := by
  have hc : s + (inp.blockSizeX * inp.threadIdY + inp.threadIdX)
      = inp.blockSizeX * inp.threadIdY + inp.threadIdX + s := add_comm _ _
  rw [hc] at htile
  by_cases hlt : inp.endTreeIndex < offsetsLength
  · simp only [hlt, if_true] at he
    simp [LowerCacheTreeOp.emitted, lookup_cons_name, runStmts, runFrom, runStmt, runOps, evalOp,
      evalVal, evalInt, evalBuf, rangeLoads, hoff, hs, he, hlt, hin, htile, hc]
  · simp only [hlt, if_false] at he
    subst he
    simp [LowerCacheTreeOp.emitted, lookup_cons_name, runStmts, runFrom, runStmt, runOps, evalOp,
      evalVal, evalInt, evalBuf, rangeLoads, hoff, hs, hlt, hin, htile, hc]

theorem LowerCacheTreeOp.emitted_run_env {θ : Type} (mem : Memory θ) (inp : Inputs) (op : Nat)
    (info : EnsembleConstantLoweringInfo) (offsetsLength modelLength : Int) (ty : MemRefType)
    (name : String) (offsets : List Int) (s e : Int)
    (hoff : mem.ints (.host info.offsetGlobal) = some offsets)
    (hs : vecAt offsets inp.startTreeIndex = some s)
    (he : if inp.endTreeIndex < offsetsLength then vecAt offsets inp.endTreeIndex = some e
          else e = offsetsLength) :
    let r := runStmts mem inp (LowerCacheTreeOp.emitted op info offsetsLength modelLength ty name)
    r.env.lookup ⟨op, "startIndex"⟩ = some (.int s) ∧
    r.env.lookup ⟨op, "endIndex"⟩ = some (.int e) ∧
    r.env.lookup ⟨op, "index"⟩
      = some (.int (inp.blockSizeX * inp.threadIdY + inp.threadIdX)) ∧
    r.env.lookup ⟨op, "numElementsToRead"⟩ = some (.int (e - s)) ∧
    r.env.lookup ⟨op, "sharedMemoryBuffer"⟩ = some (.buf (.global name)) := by
  by_cases hlt : inp.endTreeIndex < offsetsLength
  · simp only [hlt, if_true] at he
    by_cases hin : inp.blockSizeX * inp.threadIdY + inp.threadIdX < e - s
    · cases htile : (mem.tiles (.host info.modelGlobal)).bind
        (fun l => vecAt l (inp.blockSizeX * inp.threadIdY + inp.threadIdX + s)) <;>
      simp [LowerCacheTreeOp.emitted, lookup_cons_name, runStmts, runFrom, runStmt, runOps, evalOp,
        evalVal, evalInt, evalBuf, hoff, hs, he, hlt, hin, htile]
    · simp [LowerCacheTreeOp.emitted, lookup_cons_name, runStmts, runFrom, runStmt, runOps, evalOp,
        evalVal, evalInt, evalBuf, hoff, hs, he, hlt, hin]
  · simp only [hlt, if_false] at he
    subst he
    by_cases hin : inp.blockSizeX * inp.threadIdY + inp.threadIdX < e - s
    · cases htile : (mem.tiles (.host info.modelGlobal)).bind
        (fun l => vecAt l (inp.blockSizeX * inp.threadIdY + inp.threadIdX + s)) <;>
      simp [LowerCacheTreeOp.emitted, lookup_cons_name, runStmts, runFrom, runStmt, runOps, evalOp,
        evalVal, evalInt, evalBuf, hoff, hs, hlt, hin, htile]
    · simp [LowerCacheTreeOp.emitted, lookup_cons_name, runStmts, runFrom, runStmt, runOps, evalOp,
        evalVal, evalInt, evalBuf, hoff, hs, hlt, hin]

theorem LowerCacheTreeOp.emitted_run_nostart {θ : Type} (mem : Memory θ) (inp : Inputs) (op : Nat)
    (info : EnsembleConstantLoweringInfo) (offsetsLength modelLength : Int) (ty : MemRefType)
    (name : String)
    (hs : (mem.ints (.host info.offsetGlobal)).bind (fun l => vecAt l inp.startTreeIndex) = none) :
    (runStmts mem inp (LowerCacheTreeOp.emitted op info offsetsLength modelLength ty name)).env.lookup
      ⟨op, "startIndex"⟩ = none := by
  simp [LowerCacheTreeOp.emitted, lookup_cons_name, runStmts, runFrom, runStmt, runOps, evalOp,
    evalVal, evalInt, evalBuf, hs]

theorem LowerCacheTreeOp.emitted_run_noend {θ : Type} (mem : Memory θ) (inp : Inputs) (op : Nat)
    (info : EnsembleConstantLoweringInfo) (offsetsLength modelLength : Int) (ty : MemRefType)
    (name : String) (s : Int)
    (hs : (mem.ints (.host info.offsetGlobal)).bind (fun l => vecAt l inp.startTreeIndex) = some s)
    (hlt : inp.endTreeIndex < offsetsLength)
    (he : (mem.ints (.host info.offsetGlobal)).bind (fun l => vecAt l inp.endTreeIndex) = none) :
    (runStmts mem inp (LowerCacheTreeOp.emitted op info offsetsLength modelLength ty name)).env.lookup
      ⟨op, "endIndex"⟩ = none := by
  simp [LowerCacheTreeOp.emitted, lookup_cons_name, runStmts, runFrom, runStmt, runOps, evalOp,
    evalVal, evalInt, evalBuf, hs, he, hlt]

/-- What a successful `LowerCacheTreeOp` did. -/
theorem LowerCacheTreeOp_some (rep : GPUArrayBasedRepresentation) (op : Nat) (forest : DefiningOp)
    (forestType : List TreeType) (lengths : List Int) (ctx : CacheContext) (module : ModuleOp)
    (c : CacheLowering)
    (h : rep.LowerCacheTreeOp op forest forestType lengths ctx module = some c) :
    ∃ ec info maxLen stepValue treeMemrefType offsetsType,
      forest = .ensembleConstant ec ∧
      rep.ensembleConstantToMemrefsMap.lookup ec = some info ∧
      maxElement lengths = some maxLen ∧ ctx.stepConst = some stepValue ∧
      (info.modelGlobal.getType ctx.funcArgs).bind Ty.castMemRef = some treeMemrefType ∧
      (info.offsetGlobal.getType ctx.funcArgs).bind Ty.castMemRef = some offsetsType ∧
      c.module = { module with
        globals := ⟨"treeCache_" ++ toString op, "private",
          ⟨maxLen * stepValue, treeMemrefType.elementType⟩, false⟩ :: module.globals } ∧
      c.rep = { rep with
        m_cacheTreesOpsMap :=
          mapSet rep.m_cacheTreesOpsMap op ⟨.res ⟨op, "sharedMemoryBuffer"⟩⟩ } ∧
      c.code = LowerCacheTreeOp.emitted op info offsetsType.shape treeMemrefType.shape
        ⟨maxLen * stepValue, treeMemrefType.elementType⟩ ("treeCache_" ++ toString op) := by
  unfold GPUArrayBasedRepresentation.LowerCacheTreeOp at h
  split at h
  · rename_i ec
    split at h
    · exact absurd h (by simp)
    · split at h
      · rename_i t0 info _ hinfo
        split at h
        · rename_i maxLen stepValue hmax hstep
          split at h
          · rename_i treeTy offTy hT hO
            split at h
            · exact absurd h (by simp)
            · simp only [Option.some.injEq] at h
              subst h
              exact ⟨ec, info, maxLen, stepValue, treeTy, offTy, rfl, hinfo, hmax, hstep, hT, hO,
                rfl, rfl, rfl⟩
          · exact absurd h (by simp)
        · exact absurd h (by simp)
      · exact absurd h (by simp)
  · exact absurd h (by simp)

/-! ### Claims C1, C4, C5, C6: the on-device tree cache -/

theorem maxElement.foldl_spec (rest : List Int) (x : Int) :
    (rest.foldl (fun largest y => if largest < y then y else largest) x ∈ x :: rest) ∧
    ∀ y ∈ x :: rest, y ≤ rest.foldl (fun largest y => if largest < y then y else largest) x := by
  induction rest generalizing x with
  | nil => simp
  | cons a rest ih =>
    simp only [List.foldl_cons]
    obtain ⟨hmem, hle⟩ := ih (if x < a then a else x)
    constructor
    · rcases List.mem_cons.1 hmem with h | h
      · rw [h]; split <;> simp
      · exact List.mem_cons_of_mem _ (List.mem_cons_of_mem _ h)
    · intro y hy
      have hbase : (if x < a then a else x) ≤
          rest.foldl (fun largest y => if largest < y then y else largest)
            (if x < a then a else x) := hle _ (List.mem_cons_self _ _)
      rcases List.mem_cons.1 hy with h | h
      · subst h; split_ifs at hbase ⊢ <;> omega
      · rcases List.mem_cons.1 h with h | h
        · subst h; split_ifs at hbase ⊢ <;> omega
        · exact hle y (List.mem_cons_of_mem _ h)

theorem maxElement_spec (lengths : List Int) (maxLen : Int)
    (h : maxElement lengths = some maxLen) :
    maxLen ∈ lengths ∧ ∀ x ∈ lengths, x ≤ maxLen := by
  cases lengths with
  | nil => simp [maxElement] at h
  | cons x rest =>
    simp only [maxElement, Option.some.injEq] at h
    subst h
    exact maxElement.foldl_spec rest x

/-- C1 (evaluation of the code at the scenario of the claim): for tile counts
`[2, 3, 1]` (model buffer of 6 tiles, offsets `[0, 2, 5]`) and the cached range
`[1, 3)`, the staging code computes `startIndex = 2` and, `endTreeIndex = 3`
not being less than the number of trees, `endIndex = 3` (the length of the
offsets buffer), so `numElementsToRead = 1`: worker 0 stages global tile 2 and
workers 1, 2 and 3 stage nothing. -/
theorem LowerCacheTreeOp_endIndex_last_range :
    exRep.LowerCacheTreeOp 1 (.ensembleConstant 0) exTypes [2, 3, 1] exContext exModule
      = some exLowering ∧
    GetTotalNumberOfTiles (exPersist exForest) = 6 ∧
    (exPersist exForest).perTreeOffset = [0, 2, 5] ∧
    (runStmts exMemory (exWorker 0) exLowering.code).env.lookup ⟨1, "startIndex"⟩
      = some (.int 2) ∧
    (runStmts exMemory (exWorker 0) exLowering.code).env.lookup ⟨1, "endIndex"⟩
      = some (.int 3) ∧
    (runStmts exMemory (exWorker 0) exLowering.code).events.filter Event.isTileAccess
      = [.loadTileThreshold (.host (.arg 0)) 2, .loadTileFeatureIndex (.host (.arg 0)) 2,
         .initTile (.global "treeCache_1") 0 12 2 0] ∧
    (runStmts exMemory (exWorker 1) exLowering.code).events.filter Event.isTileAccess = [] ∧
    (runStmts exMemory (exWorker 2) exLowering.code).events.filter Event.isTileAccess = [] ∧
    (runStmts exMemory (exWorker 3) exLowering.code).events.filter Event.isTileAccess = [] :=
  ⟨rfl, by decide, by decide, by decide, by decide, by decide, by decide, by decide, by decide⟩

/-- C5: a successful `LowerCacheTreeOp` adds exactly one global to the module,
the scratch buffer `treeCache_<op>`, whose element count is
`maxLen * stepValue` — `maxLen` the maximum entry of the length table,
`stepValue` the constant step of the owning loop — and whose element type is
the element type of the model buffer; the functions of the module are
unchanged. -/
theorem LowerCacheTreeOp_scratch_capacity (rep : GPUArrayBasedRepresentation) (op : Nat)
    (forest : DefiningOp) (forestType : List TreeType) (lengths : List Int)
    (ctx : CacheContext) (module : ModuleOp) (c : CacheLowering)
    (h : rep.LowerCacheTreeOp op forest forestType lengths ctx module = some c) :
    ∃ ec info maxLen stepValue modelType,
      forest = .ensembleConstant ec ∧
      rep.ensembleConstantToMemrefsMap.lookup ec = some info ∧
      (info.modelGlobal.getType ctx.funcArgs).bind Ty.castMemRef = some modelType ∧
      maxLen ∈ lengths ∧ (∀ x ∈ lengths, x ≤ maxLen) ∧
      ctx.stepConst = some stepValue ∧
      c.module.globals = ⟨"treeCache_" ++ toString op, "private",
        ⟨maxLen * stepValue, modelType.elementType⟩, false⟩ :: module.globals ∧
      c.module.funcs = module.funcs := by
  obtain ⟨ec, info, maxLen, stepValue, treeTy, offTy, hf, hinfo, hmax, hstep, hT, _, hmod, _, _⟩ :=
    LowerCacheTreeOp_some rep op forest forestType lengths ctx module c h
  obtain ⟨hmem, hle⟩ := maxElement_spec lengths maxLen hmax
  exact ⟨ec, info, maxLen, stepValue, treeTy, hf, hinfo, hT, hmem, hle, hstep,
    by rw [hmod], by rw [hmod]⟩

/-- Witness for C5: lengths `[2, 3, 1]` and loop step 4 give one scratch
buffer of capacity `3 * 4 = 12` with the tile type of the model buffer. -/
theorem LowerCacheTreeOp_scratch_capacity_witness :
    (∃ ec info maxLen stepValue modelType,
      DefiningOp.ensembleConstant 0 = .ensembleConstant ec ∧
      exRep.ensembleConstantToMemrefsMap.lookup ec = some info ∧
      (info.modelGlobal.getType exContext.funcArgs).bind Ty.castMemRef = some modelType ∧
      maxLen ∈ ([2, 3, 1] : List Int) ∧ (∀ x ∈ ([2, 3, 1] : List Int), x ≤ maxLen) ∧
      exContext.stepConst = some stepValue ∧
      exLowering.module.globals = ⟨"treeCache_" ++ toString 1, "private",
        ⟨maxLen * stepValue, modelType.elementType⟩, false⟩ :: exModule.globals ∧
      exLowering.module.funcs = exModule.funcs) ∧
    exLowering.module.globals = [⟨"treeCache_1", "private",
      ⟨12, .tiledNumericalNode (.float 64) (.int 32) (.int 32) 1 (.int 32)⟩, false⟩] :=
  ⟨LowerCacheTreeOp_scratch_capacity exRep 1 (.ensembleConstant 0) exTypes [2, 3, 1] exContext
    exModule exLowering rfl, by decide⟩

/-- C6 (evaluation of the code at the scenario of C1): for lengths `[2, 3, 1]`
and the cached range `[1, 3)` the trees of the range hold `3 + 1 = 4` tiles,
while the staging code computes `numElementsToRead = endIndex - startIndex = 1`;
the scratch buffer has capacity 12. -/
theorem LowerCacheTreeOp_staged_count_last_range :
    ((([2, 3, 1] : List Int).drop 1).take (3 - 1)).sum = 4 ∧
    (runStmts exMemory (exWorker 0) exLowering.code).env.lookup ⟨1, "numElementsToRead"⟩
      = some (.int 1) ∧
    exLowering.module.globals.map (fun g => g.type.shape) = [12] := by
  decide

theorem LowerCacheTreeOp.emitted_range_of_env {θ : Type} (mem : Memory θ) (inp : Inputs)
    (op : Nat) (info : EnsembleConstantLoweringInfo) (offsetsLength modelLength : Int)
    (ty : MemRefType) (name : String) (s e : Int)
    (hstart : (runStmts mem inp
      (LowerCacheTreeOp.emitted op info offsetsLength modelLength ty name)).env.lookup
        ⟨op, "startIndex"⟩ = some (.int s))
    (hend : (runStmts mem inp
      (LowerCacheTreeOp.emitted op info offsetsLength modelLength ty name)).env.lookup
        ⟨op, "endIndex"⟩ = some (.int e)) :
    ∃ offsets, mem.ints (.host info.offsetGlobal) = some offsets ∧
      vecAt offsets inp.startTreeIndex = some s ∧
      (if inp.endTreeIndex < offsetsLength then vecAt offsets inp.endTreeIndex = some e
       else e = offsetsLength) := by
  cases hA : (mem.ints (.host info.offsetGlobal)).bind (fun l => vecAt l inp.startTreeIndex) with
  | none =>
    rw [LowerCacheTreeOp.emitted_run_nostart mem inp op info offsetsLength modelLength ty name hA]
      at hstart
    exact absurd hstart (by simp)
  | some s' =>
    obtain ⟨offsets, hoff, hs'⟩ := Option.bind_eq_some.1 hA
    by_cases hlt : inp.endTreeIndex < offsetsLength
    · cases hB : (mem.ints (.host info.offsetGlobal)).bind
          (fun l => vecAt l inp.endTreeIndex) with
      | none =>
        rw [LowerCacheTreeOp.emitted_run_noend mem inp op info offsetsLength modelLength ty name
          s' hA hlt hB] at hend
        exact absurd hend (by simp)
      | some e' =>
        have he' : vecAt offsets inp.endTreeIndex = some e' := by
          rw [hoff] at hB; simpa using hB
        have henv := LowerCacheTreeOp.emitted_run_env mem inp op info offsetsLength modelLength
          ty name offsets s' e' hoff hs' (by simp [hlt, he'])
        simp only at henv
        rw [henv.1] at hstart
        rw [henv.2.1] at hend
        simp only [Option.some.injEq, Rt.int.injEq] at hstart hend
        subst hstart hend
        exact ⟨offsets, hoff, hs', by simp [hlt, he']⟩
    · have henv := LowerCacheTreeOp.emitted_run_env mem inp op info offsetsLength modelLength
        ty name offsets s' offsetsLength hoff hs' (by simp [hlt])
      simp only at henv
      rw [henv.1] at hstart
      rw [henv.2.1] at hend
      simp only [Option.some.injEq, Rt.int.injEq] at hstart hend
      subst hstart hend
      exact ⟨offsets, hoff, hs', by simp [hlt]⟩

/-- C4: in the staging code `LowerCacheTreeOp` emits, a worker computes
`index = numThreadsX * threadY + threadX`. In a run that computes `startIndex = s`
and `endIndex = e`: if `index < e - s`, the worker reads the threshold and the
feature index of global tile `s + index` and writes them, with tile-shape id 0,
into slot `index` of the directive's scratch buffer, and touches no other tile;
otherwise it reads no tile and writes no slot. Every tile index a worker reads is
less than `e`. -/
theorem LowerCacheTreeOp_staging_guard {θ : Type} (rep : GPUArrayBasedRepresentation)
    (op ec : Nat) (forestType : List TreeType) (lengths : List Int) (ctx : CacheContext)
    (module : ModuleOp) (c : CacheLowering) (info : EnsembleConstantLoweringInfo)
    (mem : Memory θ) (inp : Inputs) (s e : Int)
    (h : rep.LowerCacheTreeOp op (.ensembleConstant ec) forestType lengths ctx module = some c)
    (hinfo : rep.ensembleConstantToMemrefsMap.lookup ec = some info)
    (hstart : (runStmts mem inp c.code).env.lookup ⟨op, "startIndex"⟩ = some (.int s))
    (hend : (runStmts mem inp c.code).env.lookup ⟨op, "endIndex"⟩ = some (.int e)) :
    (runStmts mem inp c.code).env.lookup ⟨op, "index"⟩
      = some (.int (inp.blockSizeX * inp.threadIdY + inp.threadIdX)) ∧
    (inp.blockSizeX * inp.threadIdY + inp.threadIdX < e - s →
      ∀ tile, (mem.tiles (.host info.modelGlobal)).bind
          (fun l => vecAt l (s + (inp.blockSizeX * inp.threadIdY + inp.threadIdX))) = some tile →
        (runStmts mem inp c.code).events.filter Event.isTileAccess
          = [.loadTileThreshold (.host info.modelGlobal)
                (s + (inp.blockSizeX * inp.threadIdY + inp.threadIdX)),
             .loadTileFeatureIndex (.host info.modelGlobal)
                (s + (inp.blockSizeX * inp.threadIdY + inp.threadIdX)),
             .initTile (.global ("treeCache_" ++ toString op))
                (inp.blockSizeX * inp.threadIdY + inp.threadIdX)
                tile.threshold tile.featureIndex 0]) ∧
    (¬ inp.blockSizeX * inp.threadIdY + inp.threadIdX < e - s →
      (runStmts mem inp c.code).events.filter Event.isTileAccess = []) ∧
    (∀ b g, (Event.loadTileThreshold b g ∈ (runStmts mem inp c.code).events ∨
             Event.loadTileFeatureIndex b g ∈ (runStmts mem inp c.code).events) →
      b = .host info.modelGlobal ∧
      g = s + (inp.blockSizeX * inp.threadIdY + inp.threadIdX) ∧ g < e) := by
  obtain ⟨ec', info', maxLen, stepValue, treeTy, offTy, hf, hinfo', _, _, _, _, _, _, hcode⟩ :=
    LowerCacheTreeOp_some rep op _ forestType lengths ctx module c h
  cases hf
  rw [hinfo] at hinfo'
  cases hinfo'
  rw [hcode] at hstart hend ⊢
  obtain ⟨offsets, hoff, hs, he⟩ := LowerCacheTreeOp.emitted_range_of_env mem inp op info
    offTy.shape treeTy.shape _ _ s e hstart hend
  have henv := LowerCacheTreeOp.emitted_run_env mem inp op info offTy.shape treeTy.shape
    ⟨maxLen * stepValue, treeTy.elementType⟩ ("treeCache_" ++ toString op) offsets s e hoff hs he
  simp only at henv
  refine ⟨henv.2.2.1, ?_, ?_, ?_⟩
  · intro hin tile htile
    obtain ⟨model, hmodel, hget⟩ := Option.bind_eq_some.1 htile
    rw [LowerCacheTreeOp.emitted_run_stage mem inp op info offTy.shape treeTy.shape _ _ offsets
      s e model tile hoff hs he hin hmodel hget]
    unfold rangeLoads
    split <;> simp [Event.isTileAccess]
  · intro hidle
    rw [LowerCacheTreeOp.emitted_run_idle mem inp op info offTy.shape treeTy.shape _ _ offsets
      s e hoff hs he hidle]
    unfold rangeLoads
    split <;> simp [Event.isTileAccess]
  · intro b g hmem
    by_cases hin : inp.blockSizeX * inp.threadIdY + inp.threadIdX < e - s
    · cases htile : (mem.tiles (.host info.modelGlobal)).bind
          (fun l => vecAt l (s + (inp.blockSizeX * inp.threadIdY + inp.threadIdX))) with
      | none =>
        rw [LowerCacheTreeOp.emitted_run_fault mem inp op info offTy.shape treeTy.shape _ _
          offsets s e hoff hs he hin htile] at hmem
        unfold rangeLoads at hmem
        split at hmem <;> simp at hmem <;>
          (obtain ⟨hb, hg⟩ := hmem; exact ⟨hb, hg, by omega⟩)
      | some tile =>
        obtain ⟨model, hmodel, hget⟩ := Option.bind_eq_some.1 htile
        rw [LowerCacheTreeOp.emitted_run_stage mem inp op info offTy.shape treeTy.shape _ _
          offsets s e model tile hoff hs he hin hmodel hget] at hmem
        unfold rangeLoads at hmem
        split at hmem <;> simp at hmem <;>
          (obtain ⟨hb, hg⟩ := hmem; exact ⟨hb, hg, by omega⟩)
    · rw [LowerCacheTreeOp.emitted_run_idle mem inp op info offTy.shape treeTy.shape _ _ offsets
        s e hoff hs he hin] at hmem
      unfold rangeLoads at hmem
      split at hmem <;> simp at hmem

/-- Witness for C4: in the scenario, worker 0 computes `startIndex = 2`,
`endIndex = 3`, `index = 0 < 1` and stages tile 2 into slot 0. -/
theorem LowerCacheTreeOp_staging_guard_witness :
    (runStmts exMemory (exWorker 0) exLowering.code).events.filter Event.isTileAccess
      = [.loadTileThreshold (.host (.arg 0)) 2, .loadTileFeatureIndex (.host (.arg 0)) 2,
         .initTile (.global ("treeCache_" ++ toString 1)) 0 12 2 0] :=
  (LowerCacheTreeOp_staging_guard exRep 1 0 exTypes [2, 3, 1] exContext exModule exLowering
    ⟨.arg 0, .arg 1, .arg 2, .arg 3,
      .memref 6 (.tiledNumericalNode (.float 64) (.int 32) (.int 32) 1 (.int 32)),
      .memref 3 .index, .memref 3 .index, .memref 0 (.int 8)⟩
    exMemory (exWorker 0) 2 3 rfl (by decide) (by decide) (by decide)).2.1 (by decide)
    ⟨12, 2, 0⟩ (by decide)

/-! ### Claim C3: the layout invariant -/

theorem planLayout.go_spec (tiles : List Nat) :
    ∀ (total : Int) (plan : LayoutPlan),
      (planLayout.go tiles total plan).modelBufferSize
        = total + (tiles.map Int.ofNat).sum ∧
      (planLayout.go tiles total plan).perTreeLength
        = plan.perTreeLength ++ tiles.map Int.ofNat ∧
      (planLayout.go tiles total plan).perTreeOffset
        = plan.perTreeOffset ++ (List.range tiles.length).map
            (fun i => total + ((tiles.take i).map Int.ofNat).sum) := by
  induction tiles with
  | nil => intro total plan; simp [planLayout.go]
  | cons t rest ih =>
    intro total plan
    obtain ⟨h1, h2, h3⟩ := ih (total + t)
      { plan with perTreeOffset := plan.perTreeOffset ++ [total],
                  perTreeLength := plan.perTreeLength ++ [(t : Int)] }
    refine ⟨?_, ?_, ?_⟩
    · simp only [planLayout.go, h1, List.map_cons, List.sum_cons, Int.ofNat_eq_coe]
      omega
    · simp only [planLayout.go, h2, List.map_cons, List.append_assoc, List.singleton_append,
        Int.ofNat_eq_coe]
    · simp only [planLayout.go, h3, List.length_cons, List.range_succ_eq_map, List.map_cons,
        List.take_zero, List.map_nil, List.sum_nil, add_zero, List.append_assoc,
        List.singleton_append, List.map_map]
      congr 2
      apply List.map_congr_left
      intro i _
      simp only [Function.comp, List.take_succ_cons, List.map_cons, List.sum_cons,
        Int.ofNat_eq_coe]
      omega

theorem planLayout_spec (tiles : List Nat) :
    (planLayout tiles).modelBufferSize = (tiles.map Int.ofNat).sum ∧
    (planLayout tiles).perTreeLength = tiles.map Int.ofNat ∧
    (planLayout tiles).perTreeOffset = (List.range tiles.length).map
        (fun i => ((tiles.take i).map Int.ofNat).sum) := by
  obtain ⟨h1, h2, h3⟩ := planLayout.go_spec tiles 0 ⟨0, [], []⟩
  refine ⟨?_, ?_, ?_⟩
  · simpa [planLayout] using h1
  · simpa [planLayout] using h2
  · simpa [planLayout] using h3

theorem sum_take_le_succ (tiles : List Nat) (i j : Nat) (hij : i ≤ j) :
    ((tiles.take i).map Int.ofNat).sum
      ≤ ((tiles.take j).map Int.ofNat).sum := by
  induction tiles generalizing i j with
  | nil => simp
  | cons t rest ih =>
    cases i with
    | zero =>
      simp only [List.take_zero, List.map_nil, List.sum_nil]
      apply List.sum_nonneg
      intro x hx
      obtain ⟨n, _, rfl⟩ := List.mem_map.1 hx
      exact Int.ofNat_nonneg n
    | succ i =>
      cases j with
      | zero => omega
      | succ j =>
        simp only [List.take_succ_cons, List.map_cons, List.sum_cons]
        have := ih i j (by omega)
        omega

/-- What a successful `GenerateModelGlobals` did to the argument list of the
enclosing function and to the Registration Table. -/
theorem GenerateModelGlobals_some (rep : GPUArrayBasedRepresentation) (op : Nat)
    (forest : Forest) (forestType : List TreeType) (funcArgs : List Ty) (module : ModuleOp)
    (persist : Forest → LayoutPlan) (g : Globals)
    (h : rep.GenerateModelGlobals op forest forestType funcArgs module persist = some g) :
    ∃ treeType modelElementType classInfoSize,
      forestType.head? = some treeType ∧
      modelElementType = Ty.tiledNumericalNode treeType.thresholdType treeType.featureIndexType
        treeType.tileShapeType treeType.tileSize treeType.childIndexType ∧
      classInfoSize = (if forest.isMultiClassClassifier then (forest.NumTrees : Int) else 0) ∧
      g.funcArgs = funcArgs ++
        [.memref (GetTotalNumberOfTiles (persist forest)) modelElementType,
         .memref forest.NumTrees .index, .memref forest.NumTrees .index,
         .memref classInfoSize (.int 8)] ∧
      g.rep.ensembleConstantToMemrefsMap.lookup op = some
        ⟨.arg funcArgs.length, .arg (funcArgs.length + 1), .arg (funcArgs.length + 2),
         .arg (funcArgs.length + 3),
         .memref (GetTotalNumberOfTiles (persist forest)) modelElementType,
         .memref forest.NumTrees .index, .memref forest.NumTrees .index,
         .memref classInfoSize (.int 8)⟩ := by
  unfold GPUArrayBasedRepresentation.GenerateModelGlobals at h
  split at h
  · exact absurd h (by simp)
  · split at h
    · exact absurd h (by simp)
    · rename_i treeType htree
      simp only at h
      split at h
      · exact absurd h (by simp)
      · simp only [Option.some.injEq] at h
        subst h
        refine ⟨treeType, _, _, htree, rfl, rfl, ?_, ?_⟩
        · simp [MemRefType.toTy]
        · simp [mapSet, List.lookup, MemRefType.toTy, Nat.add_assoc]

/-- C3: for every forest, with the plan the serializer persists
(`planLayout`, modelled from the specification): the per-tree lengths sum to the
model buffer size, which is the size `GenerateModelGlobals` gives the model
memref (`GetTotalNumberOfTiles`); the offset of tree `i` is the sum of the
lengths of the trees before it, so the first offset is 0 and the offsets are
non-decreasing in forest order; tile counts `[2, 3, 1]` give offsets
`[0, 2, 5]` and model buffer size 6. -/
theorem layout_invariant (forest : Forest) :
    (planLayout forest.tiles).perTreeLength.sum = (planLayout forest.tiles).modelBufferSize ∧
    (planLayout forest.tiles).perTreeLength.length = forest.NumTrees ∧
    (planLayout forest.tiles).perTreeOffset.length = forest.NumTrees ∧
    (∀ i, i < forest.NumTrees →
      (planLayout forest.tiles).perTreeOffset.get? i
        = some (((planLayout forest.tiles).perTreeLength.take i).sum)) ∧
    (0 < forest.NumTrees → (planLayout forest.tiles).perTreeOffset.head? = some 0) ∧
    List.Pairwise (fun a b => a ≤ b) (planLayout forest.tiles).perTreeOffset ∧
    (∀ rep op forestType funcArgs module g,
      GPUArrayBasedRepresentation.GenerateModelGlobals rep op forest forestType funcArgs module
          (fun f => planLayout f.tiles) = some g →
        ∃ elementType, g.funcArgs.get? funcArgs.length
          = some (.memref ((planLayout forest.tiles).perTreeLength.sum) elementType)) ∧
    planLayout [2, 3, 1] = ⟨6, [0, 2, 5], [2, 3, 1]⟩ := by
  obtain ⟨h1, h2, h3⟩ := planLayout_spec forest.tiles
  have hoff : ∀ i, i < forest.NumTrees →
      (planLayout forest.tiles).perTreeOffset.get? i
        = some (((planLayout forest.tiles).perTreeLength.take i).sum) := by
    intro i hi
    rw [h3, h2, ← List.map_take]
    simp only [Forest.NumTrees] at hi
    simp [List.get?_eq_getElem?, List.getElem?_map, List.getElem?_range hi]
  refine ⟨by rw [h1, h2], by simp [h2, Forest.NumTrees], by simp [h3, Forest.NumTrees], hoff,
    ?_, ?_, ?_, by decide⟩
  · intro hpos
    have := hoff 0 hpos
    simpa [List.head?_eq_getElem?, List.get?_eq_getElem?] using this
  · rw [h3, List.pairwise_map]
    refine List.Pairwise.imp_of_mem ?_ (List.pairwise_lt_range _)
    intro a b _ _ hab
    exact sum_take_le_succ forest.tiles a b (Nat.le_of_lt hab)
  · intro rep op forestType funcArgs module g hg
    obtain ⟨treeType, elemTy, cls, _, _, _, hargs, _⟩ :=
      GenerateModelGlobals_some rep op forest forestType funcArgs module _ g hg
    refine ⟨elemTy, ?_⟩
    rw [hargs, List.get?_eq_getElem?, List.getElem?_append_right (Nat.le_refl _)]
    simp [GetTotalNumberOfTiles, h1, h2]

/-- Witness for C3: in the scenario the model memref that
`GenerateModelGlobals` adds as argument 0 has `2 + 3 + 1 = 6` tiles. -/
theorem layout_invariant_witness :
    ∃ elementType, exFuncArgs.get? 0 = some (.memref 6 elementType) :=
  (layout_invariant exForest).2.2.2.2.2.2.1 .new 0 exTypes [] ⟨[], []⟩
    ⟨exRep, exFuncArgs, exModule⟩ rfl

/-! ### Claims C7, C8: the tree view of a cached tree -/

theorem mapSet_lookup_self {β : Type} (m : List (Nat × β)) (key : Nat) (value : β) :
    (mapSet m key value).lookup key = some value := by
  simp [mapSet, List.lookup]

/-- What a successful `GenerateTreeMemref` did for a cached ensemble. -/
theorem GenerateTreeMemref_cached_some (rep : GPUArrayBasedRepresentation)
    (base : GPUArrayBasedRepresentation → Nat → Nat → Option TreeMemref)
    (op cacheTreesOp ec : Nat) (t : TreeMemref)
    (h : rep.GenerateTreeMemref base op (.cacheTreesFromEnsemble cacheTreesOp (.ensembleConstant ec))
      = some t) :
    ∃ info entry,
      rep.ensembleConstantToMemrefsMap.lookup ec = some info ∧
      rep.m_cacheTreesOpsMap.lookup cacheTreesOp = some entry ∧
      t.code = GenerateTreeMemref.emitted op info entry.cachedModelBuffer ∧
      t.rep = { rep with
        getTreeOperationMap := mapSet rep.getTreeOperationMap op (.res ⟨op, "treeMemref"⟩) } := by
  unfold GPUArrayBasedRepresentation.GenerateTreeMemref at h
  simp only at h
  split at h
  · rename_i info entry hinfo hentry
    simp only [Option.some.injEq] at h
    subst h
    exact ⟨info, entry, hinfo, hentry, rfl, rfl⟩
  · exact absurd h (by simp)

theorem runStmt_op_lookup {θ : Type} (mem : Memory θ) (inp : Inputs) (st : Exec θ)
    (k name : Name) (o : DOp) (hne : k ≠ name) :
    (runStmt mem inp st (.op name o)).env.lookup k = st.env.lookup k := by
  simp only [runStmt, runOps]
  split
  · rfl
  · split
    · simp [runOps, lookup_cons_name, hne]
    · rfl

theorem GenerateTreeMemref.emitted_cacheIndex {θ : Type} (mem : Memory θ) (inp : Inputs)
    (st : Exec θ) (op : Nat) (info : EnsembleConstantLoweringInfo) (cachedModelBuffer : DVal)
    (offsets : List Int) (s g : Int) (hst : st.faulted = false)
    (hoff : mem.ints (.host info.offsetGlobal) = some offsets)
    (hs : vecAt offsets inp.startTreeIndex = some s)
    (hg : vecAt offsets inp.treeIndex = some g) :
    (runFrom mem inp st (GenerateTreeMemref.emitted op info cachedModelBuffer)).env.lookup
      ⟨op, "cacheIndex"⟩ = some (.int (g - s)) := by
  simp only [GenerateTreeMemref.emitted, runFrom, List.foldl_cons, List.foldl_nil]
  rw [runStmt_op_lookup _ _ _ _ _ _ (by simp), runStmt_op_lookup _ _ _ _ _ _ (by simp)]
  simp [lookup_cons_name, runStmt, runOps, evalOp, evalVal, evalInt, evalBuf, hst, hoff, hs, hg]

theorem GenerateTreeMemref.emitted_view {θ : Type} (mem : Memory θ) (inp : Inputs)
    (st : Exec θ) (op cacheTreesOp : Nat) (info : EnsembleConstantLoweringInfo)
    (offsets lengths : List Int) (s g len : Int) (b : BufRef) (hst : st.faulted = false)
    (hbuf : st.env.lookup ⟨cacheTreesOp, "sharedMemoryBuffer"⟩ = some (.buf b))
    (hoff : mem.ints (.host info.offsetGlobal) = some offsets)
    (hlen : mem.ints (.host info.lengthGlobal) = some lengths)
    (hs : vecAt offsets inp.startTreeIndex = some s)
    (hg : vecAt offsets inp.treeIndex = some g)
    (hl : vecAt lengths inp.treeIndex = some len) :
    (runFrom mem inp st (GenerateTreeMemref.emitted op info
        (.res ⟨cacheTreesOp, "sharedMemoryBuffer"⟩))).env.lookup ⟨op, "treeMemref"⟩
      = some (.view b (g - s) len 1) ∧
    (runFrom mem inp st (GenerateTreeMemref.emitted op info
        (.res ⟨cacheTreesOp, "sharedMemoryBuffer"⟩))).faulted = false := by
  simp [GenerateTreeMemref.emitted, lookup_cons_name, runFrom, runStmt, runOps, evalOp,
    evalVal, evalInt, evalBuf, hst, hoff, hlen, hs, hg, hl, hbuf]

/-- C7: the cache index `GenerateTreeMemref` computes for a tree of a cached
ensemble is `offsetBuffer[treeIndex] - offsetBuffer[startTreeIndex]`; and for a
cached range that starts at `s` and ends at `e`, a global index `g` with
`s ≤ g < e` gives a cache index `g - s` with `0 ≤ g - s < e - s`. -/
theorem GenerateTreeMemref_cache_index {θ : Type} (rep : GPUArrayBasedRepresentation)
    (base : GPUArrayBasedRepresentation → Nat → Nat → Option TreeMemref)
    (op cacheTreesOp ec : Nat) (t : TreeMemref) (info : EnsembleConstantLoweringInfo)
    (mem : Memory θ) (inp : Inputs) (st : Exec θ) (offsets : List Int) (s g : Int)
    (ht : rep.GenerateTreeMemref base op
      (.cacheTreesFromEnsemble cacheTreesOp (.ensembleConstant ec)) = some t)
    (hinfo : rep.ensembleConstantToMemrefsMap.lookup ec = some info)
    (hst : st.faulted = false)
    (hoff : mem.ints (.host info.offsetGlobal) = some offsets)
    (hs : vecAt offsets inp.startTreeIndex = some s)
    (hg : vecAt offsets inp.treeIndex = some g) :
    (runFrom mem inp st t.code).env.lookup ⟨op, "cacheIndex"⟩ = some (.int (g - s)) ∧
    ∀ e, s ≤ g → g < e → 0 ≤ g - s ∧ g - s < e - s := by
  obtain ⟨info', entry, hinfo', _, hcode, _⟩ :=
    GenerateTreeMemref_cached_some rep base op cacheTreesOp ec t ht
  rw [hinfo] at hinfo'
  cases hinfo'
  refine ⟨?_, fun e h1 h2 => ⟨by omega, by omega⟩⟩
  rw [hcode]
  exact GenerateTreeMemref.emitted_cacheIndex mem inp st op info _ offsets s g hst hoff hs hg

/-- Witness for C7: in the scenario (offsets `[0, 2, 5]`, cached range
`[1, 3)`), tree 2 gets cache index `5 - 2 = 3`. -/
theorem GenerateTreeMemref_cache_index_witness :
    (runFrom exMemory exRequest (runStmts exMemory exRequest exLowering.code)
        exTreeMemref.code).env.lookup ⟨2, "cacheIndex"⟩ = some (.int (5 - 2)) :=
  (GenerateTreeMemref_cache_index exLowering.rep exBase 2 1 0 exTreeMemref exInfo exMemory
    exRequest (runStmts exMemory exRequest exLowering.code) [0, 2, 5] 2 5 rfl (by decide)
    (by decide) (by decide) (by decide) (by decide)).1

/-- C8: `GenerateTreeMemref` chooses the view by the operation that defines the
ensemble value. For an ensemble constant the result is the result of the base
array representation. For a cache directive with a Registration Table entry and
the Cache Entry `LowerCacheTreeOp` records, it succeeds, records for the
requesting operation the value `treeMemref`, and `treeMemref` is a view into the
directive's scratch buffer with offset
`offsetBuffer[treeIndex] - offsetBuffer[startTreeIndex]`, length
`lengthBuffer[treeIndex]` and stride 1. -/
theorem GenerateTreeMemref_view {θ : Type} (rep : GPUArrayBasedRepresentation)
    (base : GPUArrayBasedRepresentation → Nat → Nat → Option TreeMemref)
    (op cacheTreesOp ec : Nat) (info : EnsembleConstantLoweringInfo)
    (mem : Memory θ) (inp : Inputs) (st : Exec θ) (offsets lengths : List Int) (s g len : Int)
    (scratch : BufRef)
    (hinfo : rep.ensembleConstantToMemrefsMap.lookup ec = some info)
    (hentry : rep.m_cacheTreesOpsMap.lookup cacheTreesOp
      = some ⟨.res ⟨cacheTreesOp, "sharedMemoryBuffer"⟩⟩)
    (hst : st.faulted = false)
    (hbuf : st.env.lookup ⟨cacheTreesOp, "sharedMemoryBuffer"⟩ = some (.buf scratch))
    (hoff : mem.ints (.host info.offsetGlobal) = some offsets)
    (hlen : mem.ints (.host info.lengthGlobal) = some lengths)
    (hs : vecAt offsets inp.startTreeIndex = some s)
    (hg : vecAt offsets inp.treeIndex = some g)
    (hl : vecAt lengths inp.treeIndex = some len) :
    rep.GenerateTreeMemref base op (.ensembleConstant ec) = base rep op ec ∧
    ∃ t, rep.GenerateTreeMemref base op
          (.cacheTreesFromEnsemble cacheTreesOp (.ensembleConstant ec)) = some t ∧
      t.rep.getTreeOperationMap.lookup op = some (.res ⟨op, "treeMemref"⟩) ∧
      (runFrom mem inp st t.code).env.lookup ⟨op, "treeMemref"⟩
        = some (.view scratch (g - s) len 1) := by
  refine ⟨rfl, ?_⟩
  refine ⟨⟨{ rep with
      getTreeOperationMap := mapSet rep.getTreeOperationMap op (.res ⟨op, "treeMemref"⟩) },
    GenerateTreeMemref.emitted op info (.res ⟨cacheTreesOp, "sharedMemoryBuffer"⟩)⟩, ?_, ?_, ?_⟩
  · simp [GPUArrayBasedRepresentation.GenerateTreeMemref, hinfo, hentry]
  · exact mapSet_lookup_self _ _ _
  · exact (GenerateTreeMemref.emitted_view mem inp st op cacheTreesOp info offsets lengths s g len
      scratch hst hbuf hoff hlen hs hg hl).1

/-- Witness for C8: in the scenario, after directive 1 is lowered and its
staging code has run, the request for tree 2 gets a view into `treeCache_1`
with offset `5 - 2`, length 1 and stride 1. -/
theorem GenerateTreeMemref_view_witness :
    exLowering.rep.GenerateTreeMemref exBase 2 (.ensembleConstant 0)
      = exBase exLowering.rep 2 0 ∧
    ∃ t, exLowering.rep.GenerateTreeMemref exBase 2
          (.cacheTreesFromEnsemble 1 (.ensembleConstant 0)) = some t ∧
      t.rep.getTreeOperationMap.lookup 2 = some (.res ⟨2, "treeMemref"⟩) ∧
      (runFrom exMemory exRequest (runStmts exMemory exRequest exLowering.code)
          t.code).env.lookup ⟨2, "treeMemref"⟩
        = some (.view (.global "treeCache_1") (5 - 2) 1 1) :=
  GenerateTreeMemref_view exLowering.rep exBase 2 1 0 exInfo exMemory exRequest
    (runStmts exMemory exRequest exLowering.code) [0, 2, 5] [2, 3, 1] 2 5 1
    (.global "treeCache_1") (by decide) (by decide) (by decide) (by decide) (by decide)
    (by decide) (by decide) (by decide) (by decide)

/-! ### Claims C9, C10: the model-buffer initializer -/

theorem ceilDiv_eq (n : Int) : ceilDiv n 32 = (n + 31) / 32 := by
  unfold ceilDiv
  rw [Int.ceil_eq_iff]
  constructor
  · have h1 : ((n + 31) / 32 - 1) * 32 < n := by omega
    have h2 : ((((n + 31) / 32 - 1) * 32 : Int) : ℚ) < (n : ℚ) := by exact_mod_cast h1
    push_cast at h2 ⊢
    linarith
  · have h1 : n ≤ ((n + 31) / 32) * 32 := by omega
    have h2 : (n : ℚ) ≤ (((n + 31) / 32 * 32 : Int) : ℚ) := by exact_mod_cast h1
    push_cast at h2 ⊢
    linarith

theorem GenerateModelMemrefInitializerImpl_isSome (funcName : String) (module : ModuleOp)
    (n : Int) (th ix sh ch : Ty) (ts : Int) (sparseRep : Bool) :
    ∃ m, GenerateModelMemrefInitializerImpl funcName module
      ⟨n, .tiledNumericalNode th ix sh ts ch⟩ sparseRep = some m := by
  simp [GenerateModelMemrefInitializerImpl]

/-- For an element count whose number of blocks fits an `int32_t`, the
conversion keeps the ceiling. -/
theorem doubleToInt32_ceilDiv (n : Int) (h0 : 0 ≤ n) (hmax : n ≤ 68719476704) :
    doubleToInt32 (ceilDiv n 32) = ceilDiv n 32 := by
  rw [ceilDiv_eq]
  unfold doubleToInt32
  rw [if_pos]
  constructor <;> omega

/-- C9 (amended): the fill kernel of the model-buffer initializer is the only
launch of the generated procedure. Its grid is the constant
`numBlocks = doubleToInt32 (ceilDiv n 32)` by 1 by 1 and its blocks are 32 by 1
by 1 workers, `n` the element count of the model buffer; for
`0 ≤ n ≤ 32 * (2^31 - 1) = 68719476704` the number of blocks is
`ceilDiv n 32 = (n + 31) / 32` (0 blocks for `n = 0`); and in a block of 32
workers, worker `t` of block `b` runs the body-creator's code for element
`b * 32 + t` if `b * 32 + t < n` and does nothing otherwise. -/
theorem fill_kernel_launch {θ : Type} (funcName : String) (module : ModuleOp) (n : Int)
    (th ix sh ch : Ty) (ts : Int) (sparseRep : Bool) :
    ∃ m f k gridX blockX one deps body call,
      GenerateModelMemrefInitializerImpl funcName module
        ⟨n, .tiledNumericalNode th ix sh ts ch⟩ sparseRep = some m ∧
      m.funcs = module.funcs ++ [f] ∧
      f.body.get? k = some (.launch (.result gridX) (.result one) (.result one)
        (.result blockX) (.result one) (.result one) deps body) ∧
      (∀ j gx gy gz bx bY bz d b,
        f.body.get? j = some (.launch gx gy gz bx bY bz d b) → j = k) ∧
      f.body.get? gridX = some (.constantIndex (doubleToInt32 (ceilDiv n 32))) ∧
      (0 ≤ n → n ≤ 68719476704 →
        doubleToInt32 (ceilDiv n 32) = ceilDiv n 32 ∧ ceilDiv n 32 = (n + 31) / 32) ∧
      doubleToInt32 (ceilDiv 0 32) = 0 ∧
      f.body.get? blockX = some (.constantIndex 32) ∧
      f.body.get? one = some (.constantIndex 1) ∧
      ∀ (mem : Memory θ) (inp : Inputs), inp.blockSizeX = 32 →
        (runStmts mem inp body).events
          = if inp.blockIdX * 32 + inp.threadIdX < n
            then [.createBody call (inp.blockIdX * 32 + inp.threadIdX)] else [] := by
  obtain ⟨m, hm⟩ := GenerateModelMemrefInitializerImpl_isSome funcName module n th ix sh ch ts
    sparseRep
  have hc0 : doubleToInt32 (ceilDiv 0 32) = 0 := by rw [ceilDiv_eq]; decide
  have hbound : 0 ≤ n → n ≤ 68719476704 →
      doubleToInt32 (ceilDiv n 32) = ceilDiv n 32 ∧ ceilDiv n 32 = (n + 31) / 32 :=
    fun h0 hmax => ⟨doubleToInt32_ceilDiv n h0 hmax, ceilDiv_eq n⟩
  have hget : ∀ (l : List Op) (j : Nat) (x : Op), l.get? j = some x → j < l.length := by
    intro l j x hx
    exact (List.get?_eq_some.1 hx).1
  refine ⟨m, ?_⟩
  have hm' := hm
  by_cases hts : ts = 1 <;> cases sparseRep <;>
    simp [GenerateModelMemrefInitializerImpl, create, hts, ModuleOp.push_back] at hm' <;>
    subst hm'
  · refine ⟨?f1, 9, 7, 8, 6, ?deps1, ?body1, ⟨⟨n, .tiledNumericalNode th ix sh 1 ch⟩, .memref 1, .res ⟨9, "elementIndex"⟩, .memref 2,
      .memref 4, .null, .null⟩, hm, ?h1_1, ?h2_1, ?h3_1, ?h4_1,
      hbound, hc0, ?h5_1, ?h6_1, ?h7_1⟩
    case h1_1 => exact rfl
    case h2_1 => exact rfl
    case h4_1 => exact rfl
    case h5_1 => exact rfl
    case h6_1 => exact rfl
    case h3_1 =>
      intro j gx gy gz bx bY bz d b hj
      have hlt := hget _ _ _ hj
      simp only [List.length_cons, List.length_nil] at hlt
      interval_cases j <;> simp at hj ⊢
    case h7_1 =>
      intro mem inp hbs
      by_cases hin : inp.blockIdX * 32 + inp.threadIdX < n
      · have hin' : 32 * inp.blockIdX + inp.threadIdX < n := by omega
        have he : 32 * inp.blockIdX + inp.threadIdX = inp.blockIdX * 32 + inp.threadIdX := by
          omega
        simp [lookup_cons_name, runStmts, runFrom, runStmt, runOps, evalOp, evalVal, evalInt,
          hbs, hin, hin', he]
      · have hin' : ¬ 32 * inp.blockIdX + inp.threadIdX < n := by omega
        simp [lookup_cons_name, runStmts, runFrom, runStmt, runOps, evalOp, evalVal, evalInt,
          hbs, hin, hin']
  · refine ⟨?f2, 11, 9, 10, 8, ?deps2, ?body2, ⟨⟨n, .tiledNumericalNode th ix sh 1 ch⟩, .memref 1, .res ⟨11, "elementIndex"⟩, .memref 2,
      .memref 4, .null, .memref 6⟩, hm, ?h1_2, ?h2_2, ?h3_2, ?h4_2,
      hbound, hc0, ?h5_2, ?h6_2, ?h7_2⟩
    case h1_2 => exact rfl
    case h2_2 => exact rfl
    case h4_2 => exact rfl
    case h5_2 => exact rfl
    case h6_2 => exact rfl
    case h3_2 =>
      intro j gx gy gz bx bY bz d b hj
      have hlt := hget _ _ _ hj
      simp only [List.length_cons, List.length_nil] at hlt
      interval_cases j <;> simp at hj ⊢
    case h7_2 =>
      intro mem inp hbs
      by_cases hin : inp.blockIdX * 32 + inp.threadIdX < n
      · have hin' : 32 * inp.blockIdX + inp.threadIdX < n := by omega
        have he : 32 * inp.blockIdX + inp.threadIdX = inp.blockIdX * 32 + inp.threadIdX := by
          omega
        simp [lookup_cons_name, runStmts, runFrom, runStmt, runOps, evalOp, evalVal, evalInt,
          hbs, hin, hin', he]
      · have hin' : ¬ 32 * inp.blockIdX + inp.threadIdX < n := by omega
        simp [lookup_cons_name, runStmts, runFrom, runStmt, runOps, evalOp, evalVal, evalInt,
          hbs, hin, hin']
  · refine ⟨?f3, 11, 9, 10, 8, ?deps3, ?body3, ⟨⟨n, .tiledNumericalNode th ix sh ts ch⟩, .memref 1, .res ⟨11, "elementIndex"⟩, .memref 2,
      .memref 4, .memref 6, .null⟩, hm, ?h1_3, ?h2_3, ?h3_3, ?h4_3,
      hbound, hc0, ?h5_3, ?h6_3, ?h7_3⟩
    case h1_3 => exact rfl
    case h2_3 => exact rfl
    case h4_3 => exact rfl
    case h5_3 => exact rfl
    case h6_3 => exact rfl
    case h3_3 =>
      intro j gx gy gz bx bY bz d b hj
      have hlt := hget _ _ _ hj
      simp only [List.length_cons, List.length_nil] at hlt
      interval_cases j <;> simp at hj ⊢
    case h7_3 =>
      intro mem inp hbs
      by_cases hin : inp.blockIdX * 32 + inp.threadIdX < n
      · have hin' : 32 * inp.blockIdX + inp.threadIdX < n := by omega
        have he : 32 * inp.blockIdX + inp.threadIdX = inp.blockIdX * 32 + inp.threadIdX := by
          omega
        simp [lookup_cons_name, runStmts, runFrom, runStmt, runOps, evalOp, evalVal, evalInt,
          hbs, hin, hin', he]
      · have hin' : ¬ 32 * inp.blockIdX + inp.threadIdX < n := by omega
        simp [lookup_cons_name, runStmts, runFrom, runStmt, runOps, evalOp, evalVal, evalInt,
          hbs, hin, hin']
  · refine ⟨?f4, 13, 11, 12, 10, ?deps4, ?body4, ⟨⟨n, .tiledNumericalNode th ix sh ts ch⟩, .memref 1, .res ⟨13, "elementIndex"⟩, .memref 2,
      .memref 4, .memref 6, .memref 8⟩, hm, ?h1_4, ?h2_4, ?h3_4, ?h4_4,
      hbound, hc0, ?h5_4, ?h6_4, ?h7_4⟩
    case h1_4 => exact rfl
    case h2_4 => exact rfl
    case h4_4 => exact rfl
    case h5_4 => exact rfl
    case h6_4 => exact rfl
    case h3_4 =>
      intro j gx gy gz bx bY bz d b hj
      have hlt := hget _ _ _ hj
      simp only [List.length_cons, List.length_nil] at hlt
      interval_cases j <;> simp at hj ⊢
    case h7_4 =>
      intro mem inp hbs
      by_cases hin : inp.blockIdX * 32 + inp.threadIdX < n
      · have hin' : 32 * inp.blockIdX + inp.threadIdX < n := by omega
        have he : 32 * inp.blockIdX + inp.threadIdX = inp.blockIdX * 32 + inp.threadIdX := by
          omega
        simp [lookup_cons_name, runStmts, runFrom, runStmt, runOps, evalOp, evalVal, evalInt,
          hbs, hin, hin', he]
      · have hin' : ¬ 32 * inp.blockIdX + inp.threadIdX < n := by omega
        simp [lookup_cons_name, runStmts, runFrom, runStmt, runOps, evalOp, evalVal, evalInt,
          hbs, hin, hin']

/-- C9 (counterexample): for a model buffer of
`68719476705 = 32 * (2^31 - 1) + 1` tiles the claimed number of blocks is
`(n + 31) / 32 = 2^31`, which no `int32_t` holds; the grid constant of the
generated launch (operation 7) is `-2147483648`. -/
theorem fill_kernel_grid_overflow :
    (GenerateModelMemrefInitializerImpl "Init_Model" ⟨[], []⟩
        ⟨68719476705, .tiledNumericalNode (.float 64) (.int 32) (.int 32) 1 (.int 32)⟩
        false).map (fun m => m.funcs.map (fun f => f.body.get? 7))
      = some [some (.constantIndex (-2147483648))] ∧
    ((68719476705 : Int) + 31) / 32 = 2147483648 ∧
    ceilDiv 68719476705 32 = 2147483648 := by
  refine ⟨?_, by decide, by rw [ceilDiv_eq]; decide⟩
  simp [GenerateModelMemrefInitializerImpl, create, ModuleOp.push_back, ceilDiv_eq,
    doubleToInt32]

/-- Witness for C9: a model buffer of 33 tiles (tile size 1, array-based) is
filled by a launch whose grid size is the constant `ceilDiv 33 32 = 2`. -/
theorem fill_kernel_launch_witness :
    ∃ m f k gridX blockX one deps body call,
      GenerateModelMemrefInitializerImpl "Init_Model" ⟨[], []⟩
        ⟨33, .tiledNumericalNode (.float 64) (.int 32) (.int 32) 1 (.int 32)⟩ false = some m ∧
      m.funcs = ([] : List FuncOp) ++ [f] ∧
      f.body.get? k = some (.launch (.result gridX) (.result one) (.result one)
        (.result blockX) (.result one) (.result one) deps body) ∧
      (∀ j gx gy gz bx bY bz d b,
        f.body.get? j = some (.launch gx gy gz bx bY bz d b) → j = k) ∧
      f.body.get? gridX = some (.constantIndex (doubleToInt32 (ceilDiv 33 32))) ∧
      (doubleToInt32 (ceilDiv 33 32) = ceilDiv 33 32 ∧ ceilDiv 33 32 = (33 + 31) / 32) ∧
      doubleToInt32 (ceilDiv 0 32) = 0 ∧
      f.body.get? blockX = some (.constantIndex 32) ∧
      f.body.get? one = some (.constantIndex 1) ∧
      ∀ (mem : Memory Int) (inp : Inputs), inp.blockSizeX = 32 →
        (runStmts mem inp body).events
          = if inp.blockIdX * 32 + inp.threadIdX < 33
            then [.createBody call (inp.blockIdX * 32 + inp.threadIdX)] else [] :=
  (fill_kernel_launch "Init_Model" ⟨[], []⟩ 33 (.float 64) (.int 32) (.int 32) (.int 32) 1
    false).elim (fun m h => h.elim (fun f h => h.elim (fun k h => h.elim (fun gridX h =>
      h.elim (fun blockX h => h.elim (fun one h => h.elim (fun deps h => h.elim (fun body h =>
        h.elim (fun call h =>
          ⟨m, f, k, gridX, blockX, one, deps, body, call, h.1, h.2.1, h.2.2.1, h.2.2.2.1,
            h.2.2.2.2.1, h.2.2.2.2.2.1 (by decide) (by decide), h.2.2.2.2.2.2⟩)))))))))

/-- C10: the model-buffer initializer takes the threshold, feature-index and
tile-shape-id arrays (and the child-index array when sparse) and issues exactly
one host-to-device copy per field, in this order: thresholds (argument 0),
feature indices (argument 1), tile-shape ids (argument 2) if and only if
`tileSize ≠ 1`, child indices (argument 3) if and only if the representation is
sparse. Each copy depends on, and targets, the buffer of an allocation that no
other copy targets and whose type is the type of the copy's source argument;
and the allocation for each later field depends on the token of the copy of the
field before it. -/
theorem model_initializer_copies (funcName : String) (module : ModuleOp) (n : Int)
    (th ix sh ch : Ty) (ts : Int) (sparseRep : Bool) :
    ∃ m f,
      GenerateModelMemrefInitializerImpl funcName module
        ⟨n, .tiledNumericalNode th ix sh ts ch⟩ sparseRep = some m ∧
      m.funcs = module.funcs ++ [f] ∧
      f.type.inputs = [.memref (n * ts) th, .memref (n * ts) ix, .memref n sh]
        ++ (if sparseRep then [.memref n ch] else []) ∧
      f.body.filterMap Op.copySource = [.arg 0, .arg 1]
        ++ (if ts ≠ 1 then [.arg 2] else []) ++ (if sparseRep then [.arg 3] else []) ∧
      (∀ p deps dst src, f.body.get? p = some (.memcpy deps dst src) →
        ∃ a i ty adeps, a < p ∧ dst = .memref a ∧ src = .arg i ∧ deps = [.token a] ∧
          f.body.get? a = some (.alloc ty adeps) ∧ f.type.inputs.get? i = some ty.toTy ∧
          (∀ q deps' src', f.body.get? q = some (.memcpy deps' (.memref a) src') → q = p)) ∧
      (∀ p q deps dst src deps' a src' ty adeps, p < q →
        f.body.get? p = some (.memcpy deps dst src) →
        f.body.get? q = some (.memcpy deps' (.memref a) src') →
        (∀ r d x y, p < r → r < q → f.body.get? r ≠ some (.memcpy d x y)) →
        f.body.get? a = some (.alloc ty adeps) → adeps = [.token p]) := by
  obtain ⟨m, hm⟩ := GenerateModelMemrefInitializerImpl_isSome funcName module n th ix sh ch ts
    sparseRep
  have hget : ∀ (l : List Op) (j : Nat) (x : Op), l.get? j = some x → j < l.length := by
    intro l j x hx
    exact (List.get?_eq_some.1 hx).1
  refine ⟨m, ?_⟩
  have hm' := hm
  by_cases hts : ts = 1 <;> cases sparseRep <;>
    simp [GenerateModelMemrefInitializerImpl, create, hts, ModuleOp.push_back] at hm' <;>
    subst hm' <;>
    refine ⟨_, hm, rfl, ?_, ?_, ?_, ?_⟩
  case pos.false.refine_1 | pos.true.refine_1 | neg.false.refine_1 | neg.true.refine_1 =>
    simp [MemRefType.toTy, hts]
  case pos.false.refine_2 | pos.true.refine_2 | neg.false.refine_2 | neg.true.refine_2 =>
    simp [List.filterMap, Op.copySource, hts]
  case pos.false.refine_3 | pos.true.refine_3 | neg.false.refine_3 | neg.true.refine_3 =>
    intro p deps dst src hp
    have hlt := hget _ _ _ hp
    simp only [List.length_cons, List.length_nil] at hlt
    interval_cases p <;> simp at hp <;>
      (obtain ⟨rfl, rfl, rfl⟩ := hp
       refine ⟨_, _, _, _, ?_, rfl, rfl, rfl, rfl, rfl, ?_⟩
       · decide
       · intro q deps' src' hq
         have hlt' := hget _ _ _ hq
         simp only [List.length_cons, List.length_nil] at hlt'
         interval_cases q <;> simp at hq ⊢)
  case pos.false.refine_4 | pos.true.refine_4 | neg.false.refine_4 | neg.true.refine_4 =>
    clear hm
    intro p q deps dst src deps' a src' ty adeps hpq hp hq hbetween ha
    have hb := hbetween (q - 2)
    clear hbetween
    have hlt := hget _ _ _ hq
    clear hget
    simp only [List.length_cons, List.length_nil] at hlt
    interval_cases q <;> simp at hq <;>
      (obtain ⟨rfl, rfl, rfl⟩ := hq
       simp at ha hb
       obtain ⟨rfl, rfl⟩ := ha
       interval_cases p <;>
         first
         | rfl
         | (exfalso; omega)
         | (exfalso; exact hb _ _ _ (by decide) rfl rfl rfl)
         | (exfalso; simp at hp))

/-- Witness for C10: the sparse initializer for tile size 2 issues the four
copies from arguments 0, 1, 2, 3 in this order. -/
theorem model_initializer_copies_witness :
    ∃ m f,
      GenerateModelMemrefInitializerImpl "Init_Model" ⟨[], []⟩
        ⟨6, .tiledNumericalNode (.float 64) (.int 32) (.int 32) 2 (.int 32)⟩ true = some m ∧
      m.funcs = ([] : List FuncOp) ++ [f] ∧
      f.type.inputs = [.memref (6 * 2) (.float 64), .memref (6 * 2) (.int 32),
          .memref 6 (.int 32)]
        ++ (if true = true then [.memref 6 (.int 32)] else []) ∧
      f.body.filterMap Op.copySource = [.arg 0, .arg 1]
        ++ (if (2 : Int) ≠ 1 then [.arg 2] else []) ++ (if true = true then [.arg 3] else []) ∧
      (∀ p deps dst src, f.body.get? p = some (.memcpy deps dst src) →
        ∃ a i ty adeps, a < p ∧ dst = .memref a ∧ src = .arg i ∧ deps = [.token a] ∧
          f.body.get? a = some (.alloc ty adeps) ∧ f.type.inputs.get? i = some ty.toTy ∧
          (∀ q deps' src', f.body.get? q = some (.memcpy deps' (.memref a) src') → q = p)) ∧
      (∀ p q deps dst src deps' a src' ty adeps, p < q →
        f.body.get? p = some (.memcpy deps dst src) →
        f.body.get? q = some (.memcpy deps' (.memref a) src') →
        (∀ r d x y, p < r → r < q → f.body.get? r ≠ some (.memcpy d x y)) →
        f.body.get? a = some (.alloc ty adeps) → adeps = [.token p]) :=
  model_initializer_copies "Init_Model" ⟨[], []⟩ 6 (.float 64) (.int 32) (.int 32) (.int 32) 2 true

/-! ### Claims C12, C13: the simple initializer and the cleanup procedure -/

/-- C12: for every buffer type, the procedure `GenerateSimpleInitializer` adds
to the module takes exactly one input, of that type, and returns one value of
that type; its body allocates one buffer of the same type (operation 1), copies
argument 0 into that buffer with the copy depending on the allocation's token,
waits on the copy's token, and returns the allocated buffer, not the input. -/
theorem GenerateSimpleInitializer_procedure (funcName : String) (module : ModuleOp)
    (memrefType : MemRefType) :
    ∃ f, GenerateSimpleInitializer funcName module memrefType = module.push_back f ∧
      f.name = funcName ∧
      f.type.inputs = [memrefType.toTy] ∧ f.type.results = [memrefType.toTy] ∧
      f.body = [.wait [], .alloc memrefType [.token 0],
                .memcpy [.token 1] (.memref 1) (.arg 0), .wait [.token 2],
                .ret [.memref 1]] :=
  ⟨_, rfl, rfl, rfl, rfl, rfl⟩

/-- Instance of C12 for a zero-element type, the class-info buffer of a
non-classifier (`memref<0xi8>`). -/
theorem GenerateSimpleInitializer_procedure_witness :
    ∃ f, GenerateSimpleInitializer "Init_ClassIds" ⟨[], []⟩ ⟨0, .int 8⟩
        = ModuleOp.push_back ⟨[], []⟩ f ∧
      f.name = "Init_ClassIds" ∧
      f.type.inputs = [.memref 0 (.int 8)] ∧ f.type.results = [.memref 0 (.int 8)] ∧
      f.body = [.wait [], .alloc ⟨0, .int 8⟩ [.token 0],
                .memcpy [.token 1] (.memref 1) (.arg 0), .wait [.token 2],
                .ret [.memref 1]] :=
  GenerateSimpleInitializer_procedure "Init_ClassIds" ⟨[], []⟩ ⟨0, .int 8⟩

theorem GenerateCleanupProc.loop_spec (n : Nat) :
    ∀ (i : Nat) (asyncToken : Val) (entryBlock : List Op),
      GenerateCleanupProc.loop n i (asyncToken, entryBlock)
        = (if n = 0 then asyncToken else .token (entryBlock.length + n - 1),
           entryBlock ++ (List.range n).map (fun j =>
             Op.dealloc [if j = 0 then asyncToken else .token (entryBlock.length + j - 1)]
               (.arg (i + j)))) := by
  induction n with
  | zero => intro i tok block; simp [GenerateCleanupProc.loop]
  | succ n ih =>
    intro i tok block
    simp only [GenerateCleanupProc.loop, create]
    rw [ih]
    refine Prod.ext ?_ ?_
    · simp only [List.length_append, List.length_singleton]
      by_cases hn : n = 0
      · subst hn; simp
      · simp only [hn, if_false, Nat.succ_ne_zero]
        congr 1
        omega
    · simp only [List.length_append, List.length_singleton, List.range_succ_eq_map,
        List.map_cons, List.map_map, List.append_assoc, List.singleton_append, if_true,
        Nat.add_zero]
      congr 2
      apply List.map_congr_left
      intro j _
      simp only [Function.comp, Nat.succ_ne_zero, if_false]
      by_cases hj : j = 0
      · subst hj; simp
      · simp only [hj, if_false]
        have e1 : block.length + 1 + j - 1 = block.length + j.succ - 1 := by omega
        have e2 : i + 1 + j = i + j.succ := by omega
        rw [e1, e2]

theorem GenerateCleanupProc_body (funcName : String) (module : ModuleOp)
    (memrefTypes : List Ty) :
    GenerateCleanupProc funcName module memrefTypes
      = module.push_back ⟨funcName, ⟨memrefTypes, [.int 32]⟩, "public",
          [.wait []] ++ (List.range memrefTypes.length).map
              (fun j => Op.dealloc [.token j] (.arg j))
            ++ [.wait [.token memrefTypes.length], .constantInt 0 32,
                .ret [.result (memrefTypes.length + 2)]]⟩ := by
  unfold GenerateCleanupProc
  simp only [create, GenerateCleanupProc.loop_spec]
  congr 2
  simp only [List.length_nil, List.nil_append, List.length_singleton, Nat.zero_add,
    List.length_append, List.length_map, List.length_range, List.append_assoc,
    List.singleton_append, List.cons_append, List.cons.injEq, true_and]
  have hmap : (List.range memrefTypes.length).map (fun j =>
        Op.dealloc [if j = 0 then Val.token 0 else .token (1 + j - 1)] (.arg j))
      = (List.range memrefTypes.length).map (fun j => Op.dealloc [.token j] (.arg j)) := by
    apply List.map_congr_left
    intro j _
    by_cases hj : j = 0
    · subst hj; simp
    · simp only [hj, if_false]
      congr 3
      omega
  rw [hmap]
  congr 1
  by_cases hn : memrefTypes.length = 0
  · simp [hn]
  · simp only [hn, if_false]
    have h1 : 1 + memrefTypes.length - 1 = memrefTypes.length := by omega
    have h2 : 1 + memrefTypes.length + 1 = memrefTypes.length + 2 := by omega
    have h3 : 1 + memrefTypes.length + 1 + 1 = memrefTypes.length + 3 := by omega
    simp [h1, h2]

/-- C13: for every ordered list of `n` buffer types, the procedure
`GenerateCleanupProc` adds to the module takes `n` buffers of these types, in
this order, and returns one `i32`. Its body is: the initial wait; `n` frees, the
`i`-th (operation `i + 1`) releasing argument `i` and depending on the token of
operation `i` (the initial wait for `i = 0`, the previous free otherwise), and
no other free; a wait on the token of the last free (of the initial wait when
`n = 0`); the 32-bit constant 0; the return of that constant. -/
theorem GenerateCleanupProc_procedure (funcName : String) (module : ModuleOp)
    (memrefTypes : List Ty) :
    ∃ f, GenerateCleanupProc funcName module memrefTypes = module.push_back f ∧
      f.name = funcName ∧
      f.type.inputs = memrefTypes ∧ f.type.results = [.int 32] ∧
      f.body.length = memrefTypes.length + 4 ∧
      f.body.get? 0 = some (.wait []) ∧
      (∀ i, i < memrefTypes.length →
        f.body.get? (i + 1) = some (.dealloc [.token i] (.arg i))) ∧
      (∀ j deps buf, f.body.get? j = some (.dealloc deps buf) →
        1 ≤ j ∧ j ≤ memrefTypes.length) ∧
      f.body.get? (memrefTypes.length + 1) = some (.wait [.token memrefTypes.length]) ∧
      f.body.get? (memrefTypes.length + 2) = some (.constantInt 0 32) ∧
      f.body.get? (memrefTypes.length + 3)
        = some (.ret [.result (memrefTypes.length + 2)]) := by
  refine ⟨_, GenerateCleanupProc_body funcName module memrefTypes, rfl, rfl, rfl, ?_, ?_, ?_, ?_,
    ?_, ?_, ?_⟩
  · simp
  · simp
  · intro i hi
    simp only [List.get?_eq_getElem?, List.append_assoc, List.singleton_append,
      List.getElem?_cons_succ]
    rw [List.getElem?_append_left (by simpa using hi)]
    simp [List.getElem?_range hi]
  · intro j deps buf hj
    simp only [List.get?_eq_getElem?, List.append_assoc, List.singleton_append] at hj
    cases j with
    | zero => simp at hj
    | succ j =>
      simp only [List.cons_append, List.getElem?_cons_succ] at hj
      by_cases hlt : j < memrefTypes.length
      · omega
      · exfalso
        rw [List.getElem?_append_right (by simpa using hlt)] at hj
        simp only [List.length_map, List.length_range] at hj
        obtain ⟨d, hd⟩ : ∃ d, j - memrefTypes.length = d := ⟨_, rfl⟩
        rw [hd] at hj
        rcases d with _ | _ | _ | d <;> simp at hj
  · simp only [List.get?_eq_getElem?, List.append_assoc, List.singleton_append,
      List.getElem?_cons_succ]
    rw [List.getElem?_append_right (by simp)]
    simp
  · simp only [List.get?_eq_getElem?, List.append_assoc, List.singleton_append,
      List.getElem?_cons_succ]
    rw [List.getElem?_append_right (by simp)]
    simp
  · simp only [List.get?_eq_getElem?, List.append_assoc, List.singleton_append,
      List.getElem?_cons_succ]
    rw [List.getElem?_append_right (by simp)]
    simp

/-- Instances of C13: for `n = 0` the procedure issues no free, still waits
and returns 0; for two buffers it frees argument 0, then argument 1. -/
theorem GenerateCleanupProc_procedure_witness :
    (GenerateCleanupProc "Dealloc_Buffers" ⟨[], []⟩ []).funcs.map (fun f => f.body)
      = [[.wait [], .wait [.token 0], .constantInt 0 32, .ret [.result 2]]] ∧
    (GenerateCleanupProc "Dealloc_Buffers" ⟨[], []⟩
        [.memref 6 (.float 64), .memref 3 .index]).funcs.map (fun f => f.body)
      = [[.wait [], .dealloc [.token 0] (.arg 0), .dealloc [.token 1] (.arg 1),
          .wait [.token 2], .constantInt 0 32, .ret [.result 4]]] ∧
    ∃ f, GenerateCleanupProc "Dealloc_Buffers" ⟨[], []⟩ [] = ModuleOp.push_back ⟨[], []⟩ f ∧
      f.body.length = 4 :=
  ⟨by decide, by decide,
   (GenerateCleanupProc_procedure "Dealloc_Buffers" ⟨[], []⟩ []).elim
     (fun f hf => ⟨f, hf.1, hf.2.2.2.2.1⟩)⟩

/-! ### Claim C11: the parameter list of the model-buffer initializer -/

/-- C11 (counterexample): for tile size 1 the array-based initializer takes 3
arrays, not 2, and the sparse initializer takes 4, not 3: the tile-shape-id
array is a parameter also when `tileSize = 1`. -/
theorem model_initializer_signature_untiled :
    (GenerateModelMemrefInitializerImpl "Init_Model" ⟨[], []⟩
        ⟨6, .tiledNumericalNode (.float 64) (.int 32) (.int 32) 1 (.int 32)⟩ false).map
      (fun m => m.funcs.map (fun f => f.type.inputs))
      = some [[.memref 6 (.float 64), .memref 6 (.int 32), .memref 6 (.int 32)]] ∧
    (GenerateModelMemrefInitializerImpl "Init_Model" ⟨[], []⟩
        ⟨6, .tiledNumericalNode (.float 64) (.int 32) (.int 32) 1 (.int 32)⟩ true).map
      (fun m => m.funcs.map (fun f => f.type.inputs.length)) = some [4] := by
  constructor <;> decide

/-- C11 (amended): for every tile size the parameter list of the model-buffer
initializer is the threshold array, the feature-index array and the
tile-shape-id array, followed by the child-index array for the sparse
representation only: 3 arrays for the array-based representation and 4 for the
sparse one. The tile-shape-id array (argument 2) is copied to the device if and
only if `tileSize ≠ 1`, the child-index array (argument 3) if and only if the
representation is sparse. -/
theorem model_initializer_signature (funcName : String) (module : ModuleOp) (n : Int)
    (th ix sh ch : Ty) (ts : Int) (sparseRep : Bool) :
    ∃ m f,
      GenerateModelMemrefInitializerImpl funcName module
        ⟨n, .tiledNumericalNode th ix sh ts ch⟩ sparseRep = some m ∧
      m.funcs = module.funcs ++ [f] ∧
      f.type.inputs = [.memref (n * ts) th, .memref (n * ts) ix, .memref n sh]
        ++ (if sparseRep then [.memref n ch] else []) ∧
      f.type.inputs.length = (if sparseRep then 4 else 3) ∧
      f.type.results = [.memref n (.tiledNumericalNode th ix sh ts ch)] ∧
      (Val.arg 2 ∈ f.body.filterMap Op.copySource ↔ ts ≠ 1) ∧
      (Val.arg 3 ∈ f.body.filterMap Op.copySource ↔ sparseRep = true) := by
  obtain ⟨m, hm⟩ := GenerateModelMemrefInitializerImpl_isSome funcName module n th ix sh ch ts
    sparseRep
  refine ⟨m, ?_⟩
  have hm' := hm
  by_cases hts : ts = 1 <;> cases sparseRep <;>
    simp [GenerateModelMemrefInitializerImpl, create, hts, ModuleOp.push_back] at hm' <;>
    subst hm' <;>
    refine ⟨_, hm, rfl, ?_, ?_, ?_, ?_, ?_⟩ <;>
    simp [MemRefType.toTy, List.filterMap, Op.copySource, hts]

/-- Instance of the amended C11: the array-based initializer for tile size 2
takes three arrays. -/
theorem model_initializer_signature_witness :
    ∃ m f,
      GenerateModelMemrefInitializerImpl "Init_Model" ⟨[], []⟩
        ⟨6, .tiledNumericalNode (.float 64) (.int 32) (.int 32) 2 (.int 32)⟩ false = some m ∧
      m.funcs = ([] : List FuncOp) ++ [f] ∧
      f.type.inputs = [.memref (6 * 2) (.float 64), .memref (6 * 2) (.int 32),
          .memref 6 (.int 32)]
        ++ (if false = true then [.memref 6 (.int 32)] else []) ∧
      f.type.inputs.length = (if false = true then 4 else 3) ∧
      f.type.results
        = [.memref 6 (.tiledNumericalNode (.float 64) (.int 32) (.int 32) 2 (.int 32))] ∧
      (Val.arg 2 ∈ f.body.filterMap Op.copySource ↔ (2 : Int) ≠ 1) ∧
      (Val.arg 3 ∈ f.body.filterMap Op.copySource ↔ false = true) :=
  model_initializer_signature "Init_Model" ⟨[], []⟩ 6 (.float 64) (.int 32) (.int 32) (.int 32)
    2 false

/-! ### Claim C20: the cache lookup miss -/

/-- C20: for an ensemble value defined by a cache directive (on an ensemble
constant), `GenerateTreeMemref` fails — it emits nothing and records nothing for
the requesting operation — exactly when the Cache Entry table has no entry for
the directive or the Registration Table has no entry for the directive's
ensemble; when both entries exist it succeeds, emits the view and records it
for the requesting operation. -/
theorem GenerateTreeMemref_lookup_miss (rep : GPUArrayBasedRepresentation)
    (base : GPUArrayBasedRepresentation → Nat → Nat → Option TreeMemref)
    (op cacheTreesOp ec : Nat) :
    (rep.GenerateTreeMemref base op (.cacheTreesFromEnsemble cacheTreesOp (.ensembleConstant ec))
        = none ↔
      (rep.m_cacheTreesOpsMap.lookup cacheTreesOp = none ∨
       rep.ensembleConstantToMemrefsMap.lookup ec = none)) ∧
    (∀ info entry, rep.ensembleConstantToMemrefsMap.lookup ec = some info →
      rep.m_cacheTreesOpsMap.lookup cacheTreesOp = some entry →
      ∃ t, rep.GenerateTreeMemref base op
            (.cacheTreesFromEnsemble cacheTreesOp (.ensembleConstant ec)) = some t ∧
        t.code = GenerateTreeMemref.emitted op info entry.cachedModelBuffer ∧
        t.rep.getTreeOperationMap.lookup op = some (.res ⟨op, "treeMemref"⟩)) := by
  constructor
  · cases h1 : rep.ensembleConstantToMemrefsMap.lookup ec <;>
      cases h2 : rep.m_cacheTreesOpsMap.lookup cacheTreesOp <;>
      simp [GPUArrayBasedRepresentation.GenerateTreeMemref, h1, h2]
  · intro info entry h1 h2
    refine ⟨_, by simp [GPUArrayBasedRepresentation.GenerateTreeMemref, h1, h2]; rfl, rfl, ?_⟩
    exact mapSet_lookup_self _ _ _

/-- Instance of C20: in the scenario, before directive 1 is lowered the
request fails (the ensemble is registered, the directive has no Cache Entry);
after the lowering it succeeds. -/
theorem GenerateTreeMemref_lookup_miss_witness :
    exRep.GenerateTreeMemref exBase 2 (.cacheTreesFromEnsemble 1 (.ensembleConstant 0)) = none ∧
    ∃ t, exLowering.rep.GenerateTreeMemref exBase 2
          (.cacheTreesFromEnsemble 1 (.ensembleConstant 0)) = some t ∧
      t.code = GenerateTreeMemref.emitted 2 exInfo (.res ⟨1, "sharedMemoryBuffer"⟩) ∧
      t.rep.getTreeOperationMap.lookup 2 = some (.res ⟨2, "treeMemref"⟩) :=
  ⟨(GenerateTreeMemref_lookup_miss exRep exBase 2 1 0).1.2 (Or.inl (by decide)),
   (GenerateTreeMemref_lookup_miss exLowering.rep exBase 2 1 0).2 exInfo
     ⟨.res ⟨1, "sharedMemoryBuffer"⟩⟩ (by decide) (by decide)⟩

/-! ### `GenerateModelGlobals`, array-based and sparse -/

theorem mapSet_lookup_other {β : Type} (m : List (Nat × β)) (key key' : Nat) (value : β)
    (h : key' ≠ key) : (mapSet m key value).lookup key' = m.lookup key' := by
  have hne : (key' == key) = false := by simpa using h
  simp only [mapSet, List.lookup, hne]
  induction m with
  | nil => rfl
  | cons e rest ih =>
    obtain ⟨k, v⟩ := e
    by_cases hk : k = key
    · subst hk
      simp [List.filter, List.lookup, hne, ih]
    · have hk' : (k != key) = true := by simpa using hk
      simp only [List.filter, hk', List.lookup]
      split <;> simp [ih]

/-- Everything a successful array-based `GenerateModelGlobals` did. -/
theorem GenerateModelGlobals_detail (rep : GPUArrayBasedRepresentation) (op : Nat)
    (forest : Forest) (forestType : List TreeType) (funcArgs : List Ty) (module : ModuleOp)
    (persist : Forest → LayoutPlan) (g : Globals)
    (h : rep.GenerateModelGlobals op forest forestType funcArgs module persist = some g) :
    doAllTreesHaveSameTileSize forestType = true ∧
    ∃ treeType modelType classInfoType m0,
      forestType.head? = some treeType ∧
      modelType = (⟨GetTotalNumberOfTiles (persist forest),
        .tiledNumericalNode treeType.thresholdType treeType.featureIndexType
          treeType.tileShapeType treeType.tileSize treeType.childIndexType⟩ : MemRefType) ∧
      classInfoType = (⟨if forest.isMultiClassClassifier then (forest.NumTrees : Int) else 0,
        .int 8⟩ : MemRefType) ∧
      GenerateModelMemrefInitializerImpl "Init_Model" module modelType false = some m0 ∧
      g.funcArgs = funcArgs ++ [modelType.toTy, .memref forest.NumTrees .index,
        .memref forest.NumTrees .index, classInfoType.toTy] ∧
      g.module = GenerateCleanupProc "Dealloc_Buffers"
        (GenerateSimpleInitializer "Init_ClassIds"
          (GenerateSimpleInitializer "Init_Lengths"
            (GenerateSimpleInitializer "Init_Offsets" m0 ⟨forest.NumTrees, .index⟩)
            ⟨forest.NumTrees, .index⟩) classInfoType)
        [modelType.toTy, .memref forest.NumTrees .index, .memref forest.NumTrees .index] ∧
      g.rep.ensembleConstantToMemrefsMap = mapSet rep.ensembleConstantToMemrefsMap op
        ⟨.arg funcArgs.length, .arg (funcArgs.length + 1), .arg (funcArgs.length + 2),
         .arg (funcArgs.length + 3), modelType.toTy, .memref forest.NumTrees .index,
         .memref forest.NumTrees .index, classInfoType.toTy⟩ ∧
      g.rep.m_cacheTreesOpsMap = rep.m_cacheTreesOpsMap ∧
      g.rep.getTreeOperationMap = rep.getTreeOperationMap := by
  unfold GPUArrayBasedRepresentation.GenerateModelGlobals at h
  split at h
  · exact absurd h (by simp)
  · rename_i hsame
    split at h
    · exact absurd h (by simp)
    · rename_i treeType htree
      simp only at h
      split at h
      · exact absurd h (by simp)
      · rename_i m0 hm0
        simp only [Option.some.injEq] at h
        subst h
        refine ⟨by simpa using hsame, treeType, _, _, m0, htree, rfl, rfl, hm0, ?_, ?_, ?_,
          rfl, rfl⟩
        · simp [MemRefType.toTy]
        · simp [MemRefType.toTy]
        · simp [MemRefType.toTy, Nat.add_assoc]

theorem GenerateModelGlobals_isSome (rep : GPUArrayBasedRepresentation) (op : Nat)
    (forest : Forest) (forestType : List TreeType) (funcArgs : List Ty) (module : ModuleOp)
    (persist : Forest → LayoutPlan)
    (hsame : doAllTreesHaveSameTileSize forestType = true) (hne : forestType ≠ []) :
    ∃ g, rep.GenerateModelGlobals op forest forestType funcArgs module persist = some g := by
  obtain ⟨t, rest, rfl⟩ : ∃ t rest, forestType = t :: rest := by
    cases forestType with
    | nil => exact absurd rfl hne
    | cons t rest => exact ⟨t, rest, rfl⟩
  simp [GPUArrayBasedRepresentation.GenerateModelGlobals, hsame,
    GPUArrayBasedRepresentation.GenerateModelMemrefInitializer,
    GenerateModelMemrefInitializerImpl]

/-- Everything a successful sparse `GenerateModelGlobals` did. -/
theorem SparseGenerateModelGlobals_detail (rep : GPUSparseRepresentation) (op : Nat)
    (forest : Forest) (forestType : List TreeType) (funcArgs : List Ty) (module : ModuleOp)
    (persist : Forest → LayoutPlan) (g : SparseGlobals)
    (h : rep.GenerateModelGlobals op forest forestType funcArgs module persist = some g) :
    doAllTreesHaveSameTileSize forestType = true ∧
    ∃ treeType modelType classInfoType m0,
      forestType.head? = some treeType ∧
      modelType = (⟨GetTotalNumberOfTiles (persist forest),
        .tiledNumericalNode treeType.thresholdType treeType.featureIndexType
          treeType.tileShapeType treeType.tileSize treeType.childIndexType⟩ : MemRefType) ∧
      classInfoType = (⟨if forest.isMultiClassClassifier then (forest.NumTrees : Int) else 0,
        treeType.resultType⟩ : MemRefType) ∧
      GenerateModelMemrefInitializerImpl "Init_Model" module modelType true = some m0 ∧
      g.funcArgs = funcArgs ++ [modelType.toTy, .memref forest.NumTrees .index,
        .memref forest.NumTrees .index, classInfoType.toTy] ∧
      g.module = GenerateCleanupProc "Dealloc_Buffers"
        (GenerateSimpleInitializer "Init_ClassIds"
          (GenerateSimpleInitializer "Init_Lengths"
            (GenerateSimpleInitializer "Init_Offsets" m0 ⟨forest.NumTrees, .index⟩)
            ⟨forest.NumTrees, .index⟩) classInfoType)
        [modelType.toTy, .memref forest.NumTrees .index, .memref forest.NumTrees .index] ∧
      g.rep.sparseEnsembleConstantToMemrefsMap = mapSet rep.sparseEnsembleConstantToMemrefsMap op
        ⟨.arg funcArgs.length, .arg (funcArgs.length + 1), .arg (funcArgs.length + 2),
         .null, .null, .null, .null,
         .arg (funcArgs.length + 3), modelType.toTy, .memref forest.NumTrees .index,
         .memref forest.NumTrees .index, none, none, classInfoType.toTy⟩ := by
  unfold GPUSparseRepresentation.GenerateModelGlobals at h
  split at h
  · exact absurd h (by simp)
  · rename_i hsame
    split at h
    · exact absurd h (by simp)
    · rename_i treeType htree
      simp only at h
      split at h
      · exact absurd h (by simp)
      · rename_i m0 hm0
        simp only [Option.some.injEq] at h
        subst h
        refine ⟨by simpa using hsame, treeType, _, _, m0, htree, rfl, rfl, hm0, ?_, ?_, ?_⟩
        · simp [MemRefType.toTy]
        · simp [MemRefType.toTy]
        · simp [MemRefType.toTy, Nat.add_assoc]

theorem SparseGenerateModelGlobals_isSome (rep : GPUSparseRepresentation) (op : Nat)
    (forest : Forest) (forestType : List TreeType) (funcArgs : List Ty) (module : ModuleOp)
    (persist : Forest → LayoutPlan)
    (hsame : doAllTreesHaveSameTileSize forestType = true) (hne : forestType ≠ []) :
    ∃ g, rep.GenerateModelGlobals op forest forestType funcArgs module persist = some g := by
  obtain ⟨t, rest, rfl⟩ : ∃ t rest, forestType = t :: rest := by
    cases forestType with
    | nil => exact absurd rfl hne
    | cons t rest => exact ⟨t, rest, rfl⟩
  simp [GPUSparseRepresentation.GenerateModelGlobals, hsame,
    GPUSparseRepresentation.GenerateModelMemrefInitializer,
    GenerateModelMemrefInitializerImpl]

/-! ### Claims C14, C16, C17, C19: what `GenerateModelGlobals` generates -/

/-- C14 (counterexample): for a multi-class classifier with five trees, both
representations generate `Init_Model`, `Init_Offsets`,
`Init_Lengths` and `Init_ClassIds` (the last one for the class-info buffer of 5
elements), while `Dealloc_Buffers` takes three buffers — the model, offset and
length buffers — and frees arguments 0, 1 and 2: no handle of the class-info
buffer is taken or freed. -/
theorem Dealloc_Buffers_omits_class_info :
    exClassifierGlobals.map (fun g => g.module.funcs.map (fun f => (f.name, f.type.inputs)))
      = some
        [("Init_Model", [.memref 5 (.float 64), .memref 5 (.int 32), .memref 5 (.int 32)]),
         ("Init_Offsets", [.memref 5 .index]),
         ("Init_Lengths", [.memref 5 .index]),
         ("Init_ClassIds", [.memref 5 (.int 8)]),
         ("Dealloc_Buffers",
            [.memref 5 (.tiledNumericalNode (.float 64) (.int 32) (.int 32) 1 (.int 32)),
             .memref 5 .index, .memref 5 .index])] ∧
    exClassifierSparseGlobals.map
        (fun g => g.module.funcs.map (fun f => (f.name, f.type.inputs)))
      = some
        [("Init_Model", [.memref 5 (.float 64), .memref 5 (.int 32), .memref 5 (.int 32),
            .memref 5 (.int 32)]),
         ("Init_Offsets", [.memref 5 .index]),
         ("Init_Lengths", [.memref 5 .index]),
         ("Init_ClassIds", [.memref 5 (.float 64)]),
         ("Dealloc_Buffers",
            [.memref 5 (.tiledNumericalNode (.float 64) (.int 32) (.int 32) 1 (.int 32)),
             .memref 5 .index, .memref 5 .index])] ∧
    exClassifierGlobals.map (fun g =>
        (g.module.funcs.filter (fun f => f.name == "Dealloc_Buffers")).map (fun f => f.body))
      = some [[.wait [], .dealloc [.token 0] (.arg 0), .dealloc [.token 1] (.arg 1),
               .dealloc [.token 2] (.arg 2), .wait [.token 3], .constantInt 0 32,
               .ret [.result 5]]] ∧
    exClassifierSparseGlobals.map (fun g =>
        (g.module.funcs.filter (fun f => f.name == "Dealloc_Buffers")).map (fun f => f.body))
      = some [[.wait [], .dealloc [.token 0] (.arg 0), .dealloc [.token 1] (.arg 1),
               .dealloc [.token 2] (.arg 2), .wait [.token 3], .constantInt 0 32,
               .ret [.result 5]]] :=
  ⟨by decide, by decide, by decide, by decide⟩

/-- The module `GenerateModelGlobals` leaves behind: the cleanup procedure is
its last function and takes the three given buffers; `Init_ClassIds` precedes
it. -/
theorem Dealloc_Buffers_last (m0 : ModuleOp) (offsetType classInfoType : MemRefType)
    (t0 t1 t2 : Ty) :
    ∃ pre f,
      (GenerateCleanupProc "Dealloc_Buffers"
          (GenerateSimpleInitializer "Init_ClassIds"
            (GenerateSimpleInitializer "Init_Lengths"
              (GenerateSimpleInitializer "Init_Offsets" m0 offsetType) offsetType)
            classInfoType) [t0, t1, t2]).funcs = pre ++ [f] ∧
      f.name = "Dealloc_Buffers" ∧ f.type.inputs = [t0, t1, t2] ∧ f.type.results = [.int 32] ∧
      f.body = [.wait [], .dealloc [.token 0] (.arg 0), .dealloc [.token 1] (.arg 1),
        .dealloc [.token 2] (.arg 2), .wait [.token 3], .constantInt 0 32, .ret [.result 5]] ∧
      ∃ init ∈ pre, init.name = "Init_ClassIds" ∧ init.type.inputs = [classInfoType.toTy] ∧
        init.type.results = [classInfoType.toTy] := by
  rw [GenerateCleanupProc_body]
  refine ⟨_, _, rfl, rfl, rfl, rfl, ?_, ?_⟩
  · simp [List.range, List.range.loop]
  · refine ⟨⟨"Init_ClassIds", ⟨[classInfoType.toTy], [classInfoType.toTy]⟩, "public",
        [.wait [], .alloc classInfoType [.token 0], .memcpy [.token 1] (.memref 1) (.arg 0),
         .wait [.token 2], .ret [.memref 1]]⟩, ?_, rfl, rfl, rfl⟩
    simp [GenerateSimpleInitializer, create, ModuleOp.push_back]

/-- C14 (amended): the one combined cleanup routine `GenerateModelGlobals`
generates (`Dealloc_Buffers`, the last function of the module), array-based and
sparse, takes and frees, in this order, a handle for the model buffer, the
offset buffer and the length buffer, the first three of the four buffers the
call appends to the function's arguments. The fourth, the class-info buffer,
has the initializer `Init_ClassIds` in the module and is not among the
arguments of `Dealloc_Buffers`. -/
theorem Dealloc_Buffers_frees_three (rep : GPUArrayBasedRepresentation)
    (sparse : GPUSparseRepresentation) (op : Nat) (forest : Forest)
    (forestType : List TreeType) (funcArgs : List Ty) (module : ModuleOp)
    (persist : Forest → LayoutPlan) :
    (∀ g, rep.GenerateModelGlobals op forest forestType funcArgs module persist = some g →
      ∃ pre f modelTy offsetTy lengthTy classInfoTy,
        g.module.funcs = pre ++ [f] ∧ f.name = "Dealloc_Buffers" ∧
        g.funcArgs = funcArgs ++ [modelTy, offsetTy, lengthTy, classInfoTy] ∧
        f.type.inputs = [modelTy, offsetTy, lengthTy] ∧
        f.body = [.wait [], .dealloc [.token 0] (.arg 0), .dealloc [.token 1] (.arg 1),
          .dealloc [.token 2] (.arg 2), .wait [.token 3], .constantInt 0 32,
          .ret [.result 5]] ∧
        ∃ init ∈ pre, init.name = "Init_ClassIds" ∧ init.type.inputs = [classInfoTy]) ∧
    (∀ g, sparse.GenerateModelGlobals op forest forestType funcArgs module persist = some g →
      ∃ pre f modelTy offsetTy lengthTy classInfoTy,
        g.module.funcs = pre ++ [f] ∧ f.name = "Dealloc_Buffers" ∧
        g.funcArgs = funcArgs ++ [modelTy, offsetTy, lengthTy, classInfoTy] ∧
        f.type.inputs = [modelTy, offsetTy, lengthTy] ∧
        f.body = [.wait [], .dealloc [.token 0] (.arg 0), .dealloc [.token 1] (.arg 1),
          .dealloc [.token 2] (.arg 2), .wait [.token 3], .constantInt 0 32,
          .ret [.result 5]] ∧
        ∃ init ∈ pre, init.name = "Init_ClassIds" ∧ init.type.inputs = [classInfoTy]) := by
  constructor
  · intro g hg
    obtain ⟨_, treeType, modelType, classInfoType, m0, _, _, _, _, hargs, hmodule, _⟩ :=
      GenerateModelGlobals_detail rep op forest forestType funcArgs module persist g hg
    obtain ⟨pre, f, hfuncs, hname, hinputs, _, hbody, init, hinit, hiname, hiinputs, _⟩ :=
      Dealloc_Buffers_last m0 ⟨forest.NumTrees, .index⟩ classInfoType modelType.toTy
        (.memref forest.NumTrees .index) (.memref forest.NumTrees .index)
    exact ⟨pre, f, _, _, _, _, by rw [hmodule]; exact hfuncs, hname, hargs, hinputs, hbody, init,
      hinit, hiname, hiinputs⟩
  · intro g hg
    obtain ⟨_, treeType, modelType, classInfoType, m0, _, _, _, _, hargs, hmodule, _⟩ :=
      SparseGenerateModelGlobals_detail sparse op forest forestType funcArgs module persist g hg
    obtain ⟨pre, f, hfuncs, hname, hinputs, _, hbody, init, hinit, hiname, hiinputs, _⟩ :=
      Dealloc_Buffers_last m0 ⟨forest.NumTrees, .index⟩ classInfoType modelType.toTy
        (.memref forest.NumTrees .index) (.memref forest.NumTrees .index)
    exact ⟨pre, f, _, _, _, _, by rw [hmodule]; exact hfuncs, hname, hargs, hinputs, hbody, init,
      hinit, hiname, hiinputs⟩

/-- Witness for the amended C14: the multi-class classifier with five trees,
array-based. -/
theorem Dealloc_Buffers_frees_three_witness :
    ∃ (g : Globals) (pre : List FuncOp) (f : FuncOp) (modelTy offsetTy lengthTy classInfoTy : Ty),
      exClassifierGlobals = some g ∧
      g.module.funcs = pre ++ [f] ∧ f.name = "Dealloc_Buffers" ∧
      g.funcArgs = [] ++ [modelTy, offsetTy, lengthTy, classInfoTy] ∧
      f.type.inputs = [modelTy, offsetTy, lengthTy] ∧
      f.body = [.wait [], .dealloc [.token 0] (.arg 0), .dealloc [.token 1] (.arg 1),
        .dealloc [.token 2] (.arg 2), .wait [.token 3], .constantInt 0 32,
        .ret [.result 5]] ∧
      ∃ init ∈ pre, init.name = "Init_ClassIds" ∧ init.type.inputs = [classInfoTy] :=
  match h : exClassifierGlobals with
  | some g =>
    ((Dealloc_Buffers_frees_three .new .new 0 exClassifier exClassifierTypes [] ⟨[], []⟩
        exPersist).1 g h).elim
      (fun pre hp => hp.elim (fun f hf => hf.elim (fun a ha => ha.elim (fun b hb =>
        hb.elim (fun c hc => hc.elim (fun d hd => ⟨g, pre, f, a, b, c, d, rfl, hd⟩))))))
  | none => absurd h (by decide)

/-- C17: `GenerateModelGlobals`, array-based and sparse, on an ensemble constant
`op` whose function has the `k` arguments `funcArgs`: it succeeds whenever its
assertions hold (the trees share the tile size and the ensemble has a tree);
it appends exactly four arguments, the model, offset, length and class-info
buffers in this order, after the unchanged former arguments; it stores under
`op` a lowering info whose model, offset, length and class-info values are
arguments `k`, `k + 1`, `k + 2`, `k + 3` and whose recorded types are the types
of these arguments; and the entries of other ensembles are unchanged. -/
theorem GenerateModelGlobals_frame (rep : GPUArrayBasedRepresentation)
    (sparse : GPUSparseRepresentation) (op : Nat) (forest : Forest)
    (forestType : List TreeType) (funcArgs : List Ty) (module : ModuleOp)
    (persist : Forest → LayoutPlan) :
    (doAllTreesHaveSameTileSize forestType = true → forestType ≠ [] →
      (∃ g, rep.GenerateModelGlobals op forest forestType funcArgs module persist = some g) ∧
      (∃ g, sparse.GenerateModelGlobals op forest forestType funcArgs module persist
        = some g)) ∧
    (∀ g, rep.GenerateModelGlobals op forest forestType funcArgs module persist = some g →
      ∃ modelType offsetType lengthType classInfoType,
        g.funcArgs = funcArgs ++ [modelType, offsetType, lengthType, classInfoType] ∧
        g.rep.ensembleConstantToMemrefsMap.lookup op = some
          ⟨.arg funcArgs.length, .arg (funcArgs.length + 1), .arg (funcArgs.length + 2),
           .arg (funcArgs.length + 3), modelType, offsetType, lengthType, classInfoType⟩ ∧
        ∀ other, other ≠ op →
          g.rep.ensembleConstantToMemrefsMap.lookup other
            = rep.ensembleConstantToMemrefsMap.lookup other) ∧
    (∀ g, sparse.GenerateModelGlobals op forest forestType funcArgs module persist = some g →
      ∃ modelType offsetType lengthType classInfoType,
        g.funcArgs = funcArgs ++ [modelType, offsetType, lengthType, classInfoType] ∧
        g.rep.sparseEnsembleConstantToMemrefsMap.lookup op = some
          ⟨.arg funcArgs.length, .arg (funcArgs.length + 1), .arg (funcArgs.length + 2),
           .null, .null, .null, .null, .arg (funcArgs.length + 3),
           modelType, offsetType, lengthType, none, none, classInfoType⟩ ∧
        ∀ other, other ≠ op →
          g.rep.sparseEnsembleConstantToMemrefsMap.lookup other
            = sparse.sparseEnsembleConstantToMemrefsMap.lookup other) := by
  refine ⟨fun hsame hne => ⟨?_, ?_⟩, ?_, ?_⟩
  · exact GenerateModelGlobals_isSome rep op forest forestType funcArgs module persist hsame hne
  · exact SparseGenerateModelGlobals_isSome sparse op forest forestType funcArgs module persist
      hsame hne
  · intro g hg
    obtain ⟨_, treeType, modelType, classInfoType, m0, _, _, _, _, hargs, _, hmap, _⟩ :=
      GenerateModelGlobals_detail rep op forest forestType funcArgs module persist g hg
    refine ⟨_, _, _, _, hargs, ?_, ?_⟩
    · rw [hmap]; exact mapSet_lookup_self _ _ _
    · intro other hother
      rw [hmap]; exact mapSet_lookup_other _ _ _ _ hother
  · intro g hg
    obtain ⟨_, treeType, modelType, classInfoType, m0, _, _, _, _, hargs, _, hmap⟩ :=
      SparseGenerateModelGlobals_detail sparse op forest forestType funcArgs module persist g hg
    refine ⟨_, _, _, _, hargs, ?_, ?_⟩
    · rw [hmap]; exact mapSet_lookup_self _ _ _
    · intro other hother
      rw [hmap]; exact mapSet_lookup_other _ _ _ _ hother

/-- Witness for C17: in the scenario (a function without arguments, `k = 0`)
the registration succeeds, the function gets the four arguments and the entry
of operation 0 holds arguments 0, 1, 2, 3 with their types. -/
theorem GenerateModelGlobals_frame_witness :
    ∃ modelType offsetType lengthType classInfoType,
      exFuncArgs = [] ++ [modelType, offsetType, lengthType, classInfoType] ∧
      exRep.ensembleConstantToMemrefsMap.lookup 0 = some
        ⟨.arg 0, .arg (0 + 1), .arg (0 + 2), .arg (0 + 3),
         modelType, offsetType, lengthType, classInfoType⟩ ∧
      ∀ other, other ≠ 0 →
        exRep.ensembleConstantToMemrefsMap.lookup other
          = GPUArrayBasedRepresentation.new.ensembleConstantToMemrefsMap.lookup other :=
  (GenerateModelGlobals_frame .new .new 0 exForest exTypes [] ⟨[], []⟩ exPersist).2.1
    ⟨exRep, exFuncArgs, exModule⟩ rfl

theorem doAllTreesHaveSameTileSize_iff (forestType : List TreeType) :
    doAllTreesHaveSameTileSize forestType = true ↔
      ∀ t ∈ forestType, ∀ t' ∈ forestType, t.tileSize = t'.tileSize := by
  cases forestType with
  | nil => simp [doAllTreesHaveSameTileSize]
  | cons t0 rest =>
    simp only [doAllTreesHaveSameTileSize, List.all_eq_true, List.head?_cons, Option.map_some',
      beq_iff_eq, Option.some.injEq]
    constructor
    · intro h t ht t' ht'
      rw [← h t ht, ← h t' ht']
    · intro h t ht
      exact h t0 (List.mem_cons_self _ _) t ht

/-- C19 (counterexample): for two trees of tile size 1 that disagree on the
threshold and feature-index types, `GenerateModelGlobals` succeeds, array-based
and sparse. -/
theorem GenerateModelGlobals_accepts_mixed_types :
    doAllTreesHaveSameType exMixedTypes = false ∧
    exMixedTypes.map (fun t => t.thresholdType) = [.float 64, .float 32] ∧
    exMixedTypes.map (fun t => t.tileSize) = [1, 1] ∧
    (GPUArrayBasedRepresentation.new.GenerateModelGlobals 0 exMixedForest exMixedTypes []
        ⟨[], []⟩ exPersist).isSome = true ∧
    (GPUSparseRepresentation.new.GenerateModelGlobals 0 exMixedForest exMixedTypes []
        ⟨[], []⟩ exPersist).isSome = true :=
  ⟨by decide, by decide, by decide, by decide, by decide⟩

/-- C19 (amended): `GenerateModelGlobals`, array-based and sparse, fails
fatally, before persisting the forest or adding any argument (the failed call
yields no state, whatever the serializer, the function and the module), if the
trees of the ensemble disagree on the tile size; it succeeds only when all
trees share the tile size. -/
theorem GenerateModelGlobals_tile_size_guard (rep : GPUArrayBasedRepresentation)
    (sparse : GPUSparseRepresentation) (op : Nat) (forest : Forest)
    (forestType : List TreeType) (funcArgs : List Ty) (module : ModuleOp)
    (persist : Forest → LayoutPlan) :
    (doAllTreesHaveSameTileSize forestType = true ↔
      ∀ t ∈ forestType, ∀ t' ∈ forestType, t.tileSize = t'.tileSize) ∧
    (doAllTreesHaveSameTileSize forestType = false →
      rep.GenerateModelGlobals op forest forestType funcArgs module persist = none ∧
      sparse.GenerateModelGlobals op forest forestType funcArgs module persist = none) ∧
    (∀ g, rep.GenerateModelGlobals op forest forestType funcArgs module persist = some g →
      ∀ t ∈ forestType, ∀ t' ∈ forestType, t.tileSize = t'.tileSize) ∧
    (∀ g, sparse.GenerateModelGlobals op forest forestType funcArgs module persist = some g →
      ∀ t ∈ forestType, ∀ t' ∈ forestType, t.tileSize = t'.tileSize) := by
  refine ⟨doAllTreesHaveSameTileSize_iff forestType, ?_, ?_, ?_⟩
  · intro h
    simp [GPUArrayBasedRepresentation.GenerateModelGlobals,
      GPUSparseRepresentation.GenerateModelGlobals, h]
  · intro g hg
    exact (doAllTreesHaveSameTileSize_iff forestType).1
      (GenerateModelGlobals_detail rep op forest forestType funcArgs module persist g hg).1
  · intro g hg
    exact (doAllTreesHaveSameTileSize_iff forestType).1
      (SparseGenerateModelGlobals_detail sparse op forest forestType funcArgs module persist g
        hg).1

/-- Witness for the amended C19: trees of tile sizes 1 and 2 make both
variants fail. -/
theorem GenerateModelGlobals_tile_size_guard_witness :
    GPUArrayBasedRepresentation.new.GenerateModelGlobals 0 exMixedForest
        [exTreeType, ⟨.float 64, .int 32, .int 32, .int 32, .float 64, 2⟩] [] ⟨[], []⟩ exPersist
      = none ∧
    GPUSparseRepresentation.new.GenerateModelGlobals 0 exMixedForest
        [exTreeType, ⟨.float 64, .int 32, .int 32, .int 32, .float 64, 2⟩] [] ⟨[], []⟩ exPersist
      = none :=
  (GenerateModelGlobals_tile_size_guard .new .new 0 exMixedForest
    [exTreeType, ⟨.float 64, .int 32, .int 32, .int 32, .float 64, 2⟩] [] ⟨[], []⟩
    exPersist).2.1 (by decide)

/-! ### The two tables over a sequence of calls -/

/-- One successful call leaves every entry of both tables in place, except the
entry under the key the call itself writes, which exists afterwards. -/
theorem applyCall_tables (base : GPUArrayBasedRepresentation → Nat → Nat → Option TreeMemref)
    (hbase : ∀ rep op ec t, base rep op ec = some t →
      t.rep.ensembleConstantToMemrefsMap = rep.ensembleConstantToMemrefsMap ∧
      t.rep.m_cacheTreesOpsMap = rep.m_cacheTreesOpsMap)
    (st st' : LoweringState) (call : Call) (h : applyCall base st call = some st') :
    (∀ key, call.registers ≠ some key →
      st'.rep.ensembleConstantToMemrefsMap.lookup key
        = st.rep.ensembleConstantToMemrefsMap.lookup key) ∧
    (∀ key, call.registers = some key →
      ∃ info, st'.rep.ensembleConstantToMemrefsMap.lookup key = some info) ∧
    (∀ key, call.caches ≠ some key →
      st'.rep.m_cacheTreesOpsMap.lookup key = st.rep.m_cacheTreesOpsMap.lookup key) ∧
    (∀ key, call.caches = some key →
      ∃ info, st'.rep.m_cacheTreesOpsMap.lookup key = some info) := by
  cases call with
  | generateModelGlobals op forest forestType persist =>
    simp only [applyCall, Option.map_eq_some'] at h
    obtain ⟨g, hg, rfl⟩ := h
    obtain ⟨_, _, _, _, _, _, _, _, _, _, _, hmap, hcache, _⟩ :=
      GenerateModelGlobals_detail _ _ _ _ _ _ _ g hg
    refine ⟨?_, ?_, ?_, ?_⟩
    · intro key hkey
      simp only [Call.registers, ne_eq, Option.some.injEq] at hkey
      simp only [hmap]
      exact mapSet_lookup_other _ _ _ _ (fun e => hkey e.symm)
    · intro key hkey
      simp only [Call.registers, Option.some.injEq] at hkey
      subst hkey
      exact ⟨_, by simp only [hmap]; exact mapSet_lookup_self _ _ _⟩
    · intro key _
      simp only [hcache]
    · intro key hkey
      simp [Call.caches] at hkey
  | lowerCacheTreeOp op forest forestType lengths stepConst owningGPULaunchOp =>
    simp only [applyCall, Option.map_eq_some'] at h
    obtain ⟨c, hc, rfl⟩ := h
    obtain ⟨_, _, _, _, _, _, _, _, _, _, _, _, _, hrep, _⟩ :=
      LowerCacheTreeOp_some _ _ _ _ _ _ _ c hc
    refine ⟨?_, ?_, ?_, ?_⟩
    · intro key _
      simp only [hrep]
    · intro key hkey
      simp [Call.registers] at hkey
    · intro key hkey
      simp only [Call.caches, ne_eq, Option.some.injEq] at hkey
      simp only [hrep]
      exact mapSet_lookup_other _ _ _ _ (fun e => hkey e.symm)
    · intro key hkey
      simp only [Call.caches, Option.some.injEq] at hkey
      subst hkey
      exact ⟨_, by simp only [hrep]; exact mapSet_lookup_self _ _ _⟩
  | generateTreeMemref op ensembleDefiningOp =>
    simp only [applyCall, Option.map_eq_some'] at h
    obtain ⟨t, ht, rfl⟩ := h
    have hsame : t.rep.ensembleConstantToMemrefsMap = st.rep.ensembleConstantToMemrefsMap ∧
        t.rep.m_cacheTreesOpsMap = st.rep.m_cacheTreesOpsMap := by
      unfold GPUArrayBasedRepresentation.GenerateTreeMemref at ht
      split at ht
      · exact hbase _ _ _ _ ht
      · split at ht
        · simp only [Option.some.injEq] at ht
          subst ht
          exact ⟨rfl, rfl⟩
        · exact absurd ht (by simp)
      · exact absurd ht (by simp)
    refine ⟨?_, ?_, ?_, ?_⟩
    · intro key _
      simp only [hsame.1]
    · intro key hkey
      simp [Call.registers] at hkey
    · intro key _
      simp only [hsame.2]
    · intro key hkey
      simp [Call.caches] at hkey

theorem reachesB_sound (body : List Op) (fuel k j : Nat)
    (h : reachesB (body.map Op.asyncDependencies) fuel k j = true) : DependsOn body k j := by
  induction fuel generalizing k with
  | zero => simp [reachesB] at h
  | succ fuel ih =>
    simp only [reachesB, List.any_eq_true] at h
    obtain ⟨v, hv, hstep⟩ := h
    cases hk : body.get? k with
    | none =>
      simp only [List.get?_eq_getElem?] at hk
      simp [List.get?_eq_getElem?, List.getElem?_map, hk] at hv
    | some op =>
      have hk' := hk
      simp only [List.get?_eq_getElem?] at hk'
      simp only [List.get?_eq_getElem?, List.getElem?_map, hk', Option.map_some',
        Option.getD_some] at hv
      cases v with
      | token i =>
        simp only [Bool.or_eq_true, beq_iff_eq] at hstep
        rcases hstep with rfl | hrest
        · exact .direct hk hv
        · exact .trans (.direct hk hv) (ih i hrest)
      | arg _ => simp at hstep
      | memref _ => simp at hstep
      | result _ => simp at hstep
      | null => simp at hstep

theorem waitsForAll_sound (body : List Op) (w : Nat) (h : waitsForAll body w = true) :
    FinalWait body w := by
  simp only [waitsForAll, Bool.and_eq_true, List.all_eq_true, List.mem_range, Bool.or_eq_true,
    Bool.not_eq_true', decide_eq_true_eq] at h
  obtain ⟨hw, hall⟩ := h
  constructor
  · split at hw
    · rename_i deps hdeps
      exact ⟨deps, hdeps⟩
    · exact absurd hw (by simp)
  · intro j op hj hasync
    have hlt : j < body.length := (List.get?_eq_some.1 hj).1
    rcases hall j hlt with hno | ⟨hjw, hreach⟩
    · rw [hj] at hno
      simp [hasync] at hno
    · exact ⟨hjw, reachesB_sound body _ w j hreach⟩

/-- A chain of operations each depending on the token of its predecessor. -/
theorem DependsOn.chain (body : List Op) (hi : Nat)
    (h : ∀ i, i < hi → ∃ op, body.get? (i + 1) = some op ∧ Val.token i ∈ op.asyncDependencies)
    (d : Nat) : ∀ j, j + d + 1 = hi → DependsOn body hi j := by
  induction d with
  | zero =>
    intro j hj
    obtain ⟨op, hop, hmem⟩ := h j (by omega)
    have e : j + 1 = hi := by omega
    rw [e] at hop
    exact .direct hop hmem
  | succ d ih =>
    intro j hj
    obtain ⟨op, hop, hmem⟩ := h j (by omega)
    exact .trans (ih (j + 1) (by omega)) (.direct hop hmem)

/-- The body of the cleanup procedure for `n` buffers ends with a wait that
transitively depends on every free, followed by the constant and the return. -/
theorem cleanup_body_final_wait (n : Nat) (body : List Op)
    (hbody : body = [Op.wait []] ++ (List.range n).map (fun j => Op.dealloc [.token j] (.arg j))
      ++ [.wait [.token n], .constantInt 0 32, .ret [.result (n + 2)]]) :
    FinalWait body (n + 1) ∧ body.get? (n + 2) = some (.constantInt 0 32) ∧
      body.get? (n + 3) = some (.ret [.result (n + 2)]) ∧ body.length = n + 4 := by
  have hfree : ∀ i, i < n → body.get? (i + 1) = some (.dealloc [.token i] (.arg i)) := by
    intro i hi
    simp only [hbody, List.get?_eq_getElem?, List.append_assoc, List.singleton_append,
      List.getElem?_cons_succ]
    rw [List.getElem?_append_left (by simpa using hi)]
    simp [List.getElem?_range hi]
  have hwait : body.get? (n + 1) = some (.wait [.token n]) := by
    simp only [hbody, List.get?_eq_getElem?, List.append_assoc, List.singleton_append,
      List.getElem?_cons_succ]
    rw [List.getElem?_append_right (by simp)]
    simp
  have hasync : ∀ j op, body.get? j = some op → op.isAsync = true → 1 ≤ j ∧ j ≤ n := by
    intro j op hj hop
    simp only [hbody, List.get?_eq_getElem?, List.append_assoc, List.singleton_append] at hj
    cases j with
    | zero =>
      simp at hj
      subst hj
      simp [Op.isAsync] at hop
    | succ j =>
      simp only [List.cons_append, List.getElem?_cons_succ] at hj
      by_cases hlt : j < n
      · omega
      · exfalso
        rw [List.getElem?_append_right (by simpa using hlt)] at hj
        simp only [List.length_map, List.length_range] at hj
        obtain ⟨d, hd⟩ : ∃ d, j - n = d := ⟨_, rfl⟩
        rw [hd] at hj
        rcases d with _ | _ | _ | d <;> simp at hj <;> subst hj <;> simp [Op.isAsync] at hop
  have hchain : ∀ i, i < n + 1 →
      ∃ op, body.get? (i + 1) = some op ∧ Val.token i ∈ op.asyncDependencies := by
    intro i hi
    by_cases hlt : i < n
    · exact ⟨_, hfree i hlt, by simp [Op.asyncDependencies]⟩
    · have e : i = n := by omega
      subst e
      exact ⟨_, hwait, by simp [Op.asyncDependencies]⟩
  refine ⟨⟨⟨_, hwait⟩, ?_⟩, ?_, ?_, ?_⟩
  · intro j op hj hop
    obtain ⟨h1, h2⟩ := hasync j op hj hop
    exact ⟨by omega, DependsOn.chain body (n + 1) hchain (n - j) j (by omega)⟩
  · simp only [hbody, List.get?_eq_getElem?, List.append_assoc, List.singleton_append,
      List.getElem?_cons_succ]
    rw [List.getElem?_append_right (by simp)]
    simp
  · simp only [hbody, List.get?_eq_getElem?, List.append_assoc, List.singleton_append,
      List.getElem?_cons_succ]
    rw [List.getElem?_append_right (by simp)]
    simp
  · simp [hbody]

/-- C15 (counterexample): in the cleanup procedure the operation immediately
before the return is the constant `0 : i32`, not a wait; the wait is the
operation before the constant. -/
theorem GenerateCleanupProc_constant_before_return :
    (GenerateCleanupProc "Dealloc_Buffers" ⟨[], []⟩ [.memref 3 .index]).funcs.map
        (fun f => f.body)
      = [[.wait [], .dealloc [.token 0] (.arg 0), .wait [.token 1], .constantInt 0 32,
          .ret [.result 3]]] ∧
    (GenerateCleanupProc "Dealloc_Buffers" ⟨[], []⟩ [.memref 3 .index]).funcs.map
        (fun f => f.body.get? (f.body.length - 2))
      = [some (.constantInt 0 32)] :=
  ⟨by decide, by decide⟩

/-- C15 (amended): every procedure the synthesizer emits (simple initializer,
model-buffer initializer for every tile size and both representations, cleanup
procedure for every buffer list) has a wait whose dependencies transitively
include every asynchronous allocation, copy, kernel launch and free of the
procedure, all of them issued before it. In the two initializers this wait is
the operation immediately before the return; in the cleanup procedure only the
constant `0 : i32` stands between the wait and the return. -/
theorem final_wait_before_return :
    (∀ (funcName : String) (module : ModuleOp) (memrefType : MemRefType),
      ∃ f operands, GenerateSimpleInitializer funcName module memrefType = module.push_back f ∧
        FinalWait f.body 3 ∧ f.body.get? 4 = some (.ret operands) ∧ f.body.length = 5) ∧
    (∀ (funcName : String) (module : ModuleOp) (n : Int) (th ix sh ch : Ty) (ts : Int)
        (sparseRep : Bool),
      ∃ m f w operands,
        GenerateModelMemrefInitializerImpl funcName module
          ⟨n, .tiledNumericalNode th ix sh ts ch⟩ sparseRep = some m ∧
        m.funcs = module.funcs ++ [f] ∧
        FinalWait f.body w ∧ f.body.get? (w + 1) = some (.ret operands) ∧
        f.body.length = w + 2) ∧
    (∀ (funcName : String) (module : ModuleOp) (memrefTypes : List Ty),
      ∃ f operands, GenerateCleanupProc funcName module memrefTypes = module.push_back f ∧
        FinalWait f.body (memrefTypes.length + 1) ∧
        f.body.get? (memrefTypes.length + 2) = some (.constantInt 0 32) ∧
        f.body.get? (memrefTypes.length + 3) = some (.ret operands) ∧
        f.body.length = memrefTypes.length + 4) := by
  refine ⟨?_, ?_, ?_⟩
  · intro funcName module memrefType
    exact ⟨_, _, rfl, waitsForAll_sound _ _ rfl, rfl, rfl⟩
  · intro funcName module n th ix sh ch ts sparseRep
    obtain ⟨m, hm⟩ := GenerateModelMemrefInitializerImpl_isSome funcName module n th ix sh ch ts
      sparseRep
    refine ⟨m, ?_⟩
    have hm' := hm
    by_cases hts : ts = 1 <;> cases sparseRep <;>
      simp [GenerateModelMemrefInitializerImpl, create, hts, ModuleOp.push_back] at hm' <;>
      subst hm'
    case pos.false => exact ⟨_, 10, _, hm, rfl, waitsForAll_sound _ _ rfl, rfl, rfl⟩
    case pos.true => exact ⟨_, 12, _, hm, rfl, waitsForAll_sound _ _ rfl, rfl, rfl⟩
    case neg.false => exact ⟨_, 12, _, hm, rfl, waitsForAll_sound _ _ rfl, rfl, rfl⟩
    case neg.true => exact ⟨_, 14, _, hm, rfl, waitsForAll_sound _ _ rfl, rfl, rfl⟩
  · intro funcName module memrefTypes
    obtain ⟨hfinal, hconst, hret, hlen⟩ :=
      cleanup_body_final_wait memrefTypes.length _ rfl
    exact ⟨_, _, GenerateCleanupProc_body funcName module memrefTypes, hfinal, hconst, hret, hlen⟩

/-- Instance of the amended C15: the cleanup procedure for the model, offset
and length buffers waits at position 4 on the three frees, then creates the
constant and returns. -/
theorem final_wait_before_return_witness :
    ∃ f operands,
      GenerateCleanupProc "Dealloc_Buffers" ⟨[], []⟩
          [.memref 6 (.float 64), .memref 3 .index, .memref 3 .index]
        = ModuleOp.push_back ⟨[], []⟩ f ∧
      FinalWait f.body (3 + 1) ∧
      f.body.get? (3 + 2) = some (.constantInt 0 32) ∧
      f.body.get? (3 + 3) = some (.ret operands) ∧
      f.body.length = 3 + 4 :=
  final_wait_before_return.2.2 "Dealloc_Buffers" ⟨[], []⟩
    [.memref 6 (.float 64), .memref 3 .index, .memref 3 .index]

/-! ### The barrier of the staging code -/

/-- Every run of the staging code that does not fault passes the barrier
exactly once, as its last event. -/
theorem LowerCacheTreeOp.emitted_run_barrier {θ : Type} (mem : Memory θ) (inp : Inputs) (op : Nat)
    (info : EnsembleConstantLoweringInfo) (offsetsLength modelLength : Int) (ty : MemRefType)
    (name : String)
    (hok : (runStmts mem inp
      (LowerCacheTreeOp.emitted op info offsetsLength modelLength ty name)).faulted = false) :
    (runStmts mem inp (LowerCacheTreeOp.emitted op info offsetsLength modelLength ty name)).events.filter
        Event.isBarrier = [.barrier] ∧
    (runStmts mem inp (LowerCacheTreeOp.emitted op info offsetsLength modelLength ty name)).events.getLast?
      = some .barrier := by
  cases hs : (mem.ints (.host info.offsetGlobal)).bind (fun l => vecAt l inp.startTreeIndex) with
  | none =>
    simp [LowerCacheTreeOp.emitted, lookup_cons_name, runStmts, runFrom, runStmt, runOps, evalOp,
      evalVal, evalInt, evalBuf, hs] at hok
  | some s =>
    by_cases hlt : inp.endTreeIndex < offsetsLength
    · cases he : (mem.ints (.host info.offsetGlobal)).bind
          (fun l => vecAt l inp.endTreeIndex) with
      | none =>
        simp [LowerCacheTreeOp.emitted, lookup_cons_name, runStmts, runFrom, runStmt, runOps,
          evalOp, evalVal, evalInt, evalBuf, hs, he, hlt] at hok
      | some e =>
        by_cases hin : inp.blockSizeX * inp.threadIdY + inp.threadIdX < e - s
        · cases htile : (mem.tiles (.host info.modelGlobal)).bind
              (fun l => vecAt l (inp.blockSizeX * inp.threadIdY + inp.threadIdX + s)) with
          | none =>
            simp [LowerCacheTreeOp.emitted, lookup_cons_name, runStmts, runFrom, runStmt, runOps,
              evalOp, evalVal, evalInt, evalBuf, hs, he, hlt, hin, htile] at hok
          | some tile =>
            simp [Event.isBarrier, LowerCacheTreeOp.emitted, lookup_cons_name, runStmts, runFrom, runStmt,
                runOps, evalOp, evalVal, evalInt, evalBuf, hs, he, hlt, hin, htile]
        · simp [Event.isBarrier, LowerCacheTreeOp.emitted, lookup_cons_name, runStmts, runFrom, runStmt,
              runOps, evalOp, evalVal, evalInt, evalBuf, hs, he, hlt, hin]
    · by_cases hin : inp.blockSizeX * inp.threadIdY + inp.threadIdX < offsetsLength - s
      · cases htile : (mem.tiles (.host info.modelGlobal)).bind
            (fun l => vecAt l (inp.blockSizeX * inp.threadIdY + inp.threadIdX + s)) with
        | none =>
          simp [LowerCacheTreeOp.emitted, lookup_cons_name, runStmts, runFrom, runStmt, runOps,
            evalOp, evalVal, evalInt, evalBuf, hs, hlt, hin, htile] at hok
        | some tile =>
          simp [Event.isBarrier, LowerCacheTreeOp.emitted, lookup_cons_name, runStmts, runFrom, runStmt,
              runOps, evalOp, evalVal, evalInt, evalBuf, hs, hlt, hin, htile]
      · simp [Event.isBarrier, LowerCacheTreeOp.emitted, lookup_cons_name, runStmts, runFrom, runStmt,
            runOps, evalOp, evalVal, evalInt, evalBuf, hs, hlt, hin]

theorem runCalls_append (base : GPUArrayBasedRepresentation → Nat → Nat → Option TreeMemref)
    (pre rest : List Call) (st : LoweringState) :
    runCalls base st (pre ++ rest) = (runCalls base st pre).bind (fun s => runCalls base s rest) := by
  induction pre generalizing st with
  | nil => simp [runCalls]
  | cons call pre ih =>
    simp only [List.cons_append, runCalls]
    cases applyCall base st call with
    | none => simp
    | some s => simp [ih]

/-- A directive without a Cache Entry has none after calls that do not lower it. -/
theorem runCalls_cache_absent (base : GPUArrayBasedRepresentation → Nat → Nat → Option TreeMemref)
    (hbase : ∀ rep op ec t, base rep op ec = some t →
      t.rep.ensembleConstantToMemrefsMap = rep.ensembleConstantToMemrefsMap ∧
      t.rep.m_cacheTreesOpsMap = rep.m_cacheTreesOpsMap)
    (key : Nat) (calls : List Call) (st st' : LoweringState)
    (hrun : runCalls base st calls = some st')
    (hno : ∀ call ∈ calls, call.caches ≠ some key)
    (habsent : st.rep.m_cacheTreesOpsMap.lookup key = none) :
    st'.rep.m_cacheTreesOpsMap.lookup key = none := by
  induction calls generalizing st with
  | nil =>
    simp only [runCalls, Option.some.injEq] at hrun
    subst hrun
    exact habsent
  | cons call rest ih =>
    simp only [runCalls, Option.bind_eq_some] at hrun
    obtain ⟨st1, hstep, hrest⟩ := hrun
    obtain ⟨_, _, hcache, _⟩ := applyCall_tables base hbase st st1 call hstep
    exact ih st1 hrest (fun c hc => hno c (List.mem_cons_of_mem _ hc))
      (by rw [hcache key (hno call (List.mem_cons_self _ _))]; exact habsent)

/-- C21: the operation sequence a successful `LowerCacheTreeOp` emits has
exactly one `gpu.barrier`; it is the last of the twelve top-level statements,
outside both `scf.if`, and the only staging store (`InitTileOp`) lies in the
then-region of the `scf.if` on `indexLTElemsToRead`, the statement before the
barrier. Every worker whose run does not fault, idle or not, passes the barrier
exactly once, as its last event. The call returns the Cache Entry of the
directive together with this code; and in a sequence of calls that starts
without an entry for the directive, a `GenerateTreeMemref` for the cached
ensemble succeeds only after an earlier `LowerCacheTreeOp` call for the
directive, the call that emitted the barrier. -/
theorem LowerCacheTreeOp_barrier {θ : Type} (rep : GPUArrayBasedRepresentation) (op : Nat)
    (forest : DefiningOp) (forestType : List TreeType) (lengths : List Int) (ctx : CacheContext)
    (module : ModuleOp) (c : CacheLowering)
    (h : rep.LowerCacheTreeOp op forest forestType lengths ctx module = some c) :
    c.code.length = 12 ∧
    c.code.get? 11 = some (.op ⟨op, "barrier"⟩ .barrier) ∧
    (∀ j stmt, c.code.get? j = some stmt → stmt.ops.any DOp.isBarrier = true → j = 11) ∧
    (∃ thenOps, c.code.get? 10 = some (.ifOp ⟨op, "ifIndexInRange"⟩
        (.res ⟨op, "indexLTElemsToRead"⟩) thenOps []) ∧
      ∃ o ∈ thenOps, o.2.isInitTile = true) ∧
    (∀ j stmt, c.code.get? j = some stmt → stmt.ops.any DOp.isInitTile = true → j = 10) ∧
    (∀ (mem : Memory θ) (inp : Inputs), (runStmts mem inp c.code).faulted = false →
      (runStmts mem inp c.code).events.filter Event.isBarrier = [.barrier] ∧
      (runStmts mem inp c.code).events.getLast? = some .barrier) ∧
    c.rep.m_cacheTreesOpsMap.lookup op = some ⟨.res ⟨op, "sharedMemoryBuffer"⟩⟩ ∧
    (∀ (base : GPUArrayBasedRepresentation → Nat → Nat → Option TreeMemref),
      (∀ r o ec t, base r o ec = some t →
        t.rep.ensembleConstantToMemrefsMap = r.ensembleConstantToMemrefsMap ∧
        t.rep.m_cacheTreesOpsMap = r.m_cacheTreesOpsMap) →
      ∀ (pre : List Call) (st st' : LoweringState) (consumer ec : Nat),
        st.rep.m_cacheTreesOpsMap.lookup op = none →
        runCalls base st (pre ++ [.generateTreeMemref consumer
          (.cacheTreesFromEnsemble op (.ensembleConstant ec))]) = some st' →
        ∃ call ∈ pre, call.caches = some op) := by
  obtain ⟨ec, info, maxLen, stepValue, treeTy, offTy, _, _, _, _, _, _, _, hrep, hcode⟩ :=
    LowerCacheTreeOp_some rep op forest forestType lengths ctx module c h
  have hget : ∀ (l : List DStmt) (j : Nat) (x : DStmt), l.get? j = some x → j < l.length := by
    intro l j x hx
    exact (List.get?_eq_some.1 hx).1
  refine ⟨?_, ?_, ?_, ?_, ?_, ?_, ?_, ?_⟩
  · rw [hcode]; rfl
  · rw [hcode]; rfl
  · intro j stmt hj hb
    rw [hcode] at hj
    have hlt := hget _ _ _ hj
    simp only [LowerCacheTreeOp.emitted, List.length_cons, List.length_nil] at hlt
    interval_cases j <;> simp [LowerCacheTreeOp.emitted] at hj <;> subst hj <;>
      first
        | rfl
        | simp [DStmt.ops, DOp.isBarrier] at hb
  · rw [hcode]
    exact ⟨_, rfl, _, List.mem_cons_of_mem _ (List.mem_cons_of_mem _ (List.mem_cons_of_mem _
      (List.mem_cons_of_mem _ (List.mem_cons_of_mem _ (List.mem_cons_self _ _))))), rfl⟩
  · intro j stmt hj hb
    rw [hcode] at hj
    have hlt := hget _ _ _ hj
    simp only [LowerCacheTreeOp.emitted, List.length_cons, List.length_nil] at hlt
    interval_cases j <;> simp [LowerCacheTreeOp.emitted] at hj <;> subst hj <;>
      first
        | rfl
        | simp [DStmt.ops, DOp.isInitTile] at hb
  · intro mem inp hok
    rw [hcode] at hok ⊢
    exact LowerCacheTreeOp.emitted_run_barrier mem inp op info _ _ _ _ hok
  · rw [hrep]
    exact mapSet_lookup_self _ _ _
  · intro base hbase pre st st' consumer ec' habsent hrun
    by_contra hnone
    have hno : ∀ call ∈ pre, call.caches ≠ some op := by
      intro call hcall hc
      exact hnone ⟨call, hcall, hc⟩
    rw [runCalls_append] at hrun
    simp only [Option.bind_eq_some] at hrun
    obtain ⟨st1, hpre, hlast⟩ := hrun
    have h1 := runCalls_cache_absent base hbase op pre st st1 hpre hno habsent
    simp only [runCalls, applyCall, Option.bind_eq_some, Option.map_eq_some',
      Option.some.injEq] at hlast
    obtain ⟨_, ⟨t, ht, _⟩, _⟩ := hlast
    simp only [GPUArrayBasedRepresentation.GenerateTreeMemref, h1] at ht
    split at ht <;> simp_all

/-- Witness for C21: in the scenario, worker 3 of the block is idle (the code
stages one tile), its run does not fault and it passes the barrier as its last
event. -/
theorem LowerCacheTreeOp_barrier_witness :
    (runStmts exMemory (exWorker 3) exLowering.code).events
      = [.load (.host (.arg 1)) 1, .barrier] ∧
    (runStmts exMemory (exWorker 3) exLowering.code).events.filter Event.isBarrier
      = [.barrier] ∧
    (runStmts exMemory (exWorker 3) exLowering.code).events.getLast? = some .barrier :=
  ⟨by decide,
    (LowerCacheTreeOp_barrier exRep 1 (.ensembleConstant 0) exTypes [2, 3, 1] exContext exModule
      exLowering rfl).2.2.2.2.2.1 exMemory (exWorker 3) (by decide)⟩

/-! ### Serialization and equality -/

theorem vecUpdate_none {α : Type} (v : List α) (i : Int) (f : α → α)
    (hx : vecAt v i = none) : vecUpdate v i f = none := by
  simp [vecUpdate, hx]

theorem vecAt_lt {α : Type} (v : List α) (i : Int) (h0 : 0 ≤ i) (hlt : i < v.length) :
    ∃ x, vecAt v i = some x := by
  have hl : i.toNat < v.length := by omega
  exact ⟨v.get ⟨i.toNat, hl⟩, by simp [vecAt, h0, List.get?_eq_getElem?, List.getElem?_eq_getElem hl]⟩

theorem vecAt_some_lt {α : Type} (v : List α) (i : Int) (x : α) (h : vecAt v i = some x) :
    0 ≤ i ∧ i < v.length := by
  unfold vecAt at h
  split_ifs at h with h0
  have hlt : i.toNat < v.length := (List.get?_eq_some.1 h).1
  exact ⟨h0, by omega⟩

/-- C24: for every buffer of tiles of tile size 1 and every index `i` inside
it, the threshold load returns the threshold of tile `i` and the feature-index
load the feature index of tile `i`; through a subview at offset `o` with
stride 1 and size `n` (inside the buffer), index `i < n` yields the fields of
tile `o + i` of the buffer. The functions of the four tests, run on the tiles
`(1, 1) … (5, 5)`, give the thresholds and feature indices `1 … 5`, and
`2 … 5` through the subview at offset 1, and return 0. -/
theorem tile_loads {θ : Type} (tiles : List (Tile θ)) :
    (∀ (i : Int) (tile : Tile θ), vecAt tiles i = some tile →
      LoadTileThresholdsOp ⟨tiles, 0, tiles.length, 1⟩ i = some tile.threshold ∧
      LoadTileFeatureIndicesOp ⟨tiles, 0, tiles.length, 1⟩ i = some tile.featureIndex) ∧
    (∀ (o n i : Int) (tile : Tile θ), 0 ≤ o → 0 ≤ i → i < n → vecAt tiles (o + i) = some tile →
      LoadTileThresholdsOp ((TileMemref.mk tiles 0 tiles.length 1).SubViewOp o n 1) i
        = some tile.threshold ∧
      LoadTileFeatureIndicesOp ((TileMemref.mk tiles 0 tiles.length 1).SubViewOp o n 1) i
        = some tile.featureIndex) ∧
    Test_LoadTileThresholdOp exTiles [-1, -1, -1, -1, -1] = some ([1, 2, 3, 4, 5], 0) ∧
    Test_LoadTileFeatureIndicesOp exTiles [-1, -1, -1, -1, -1] = some ([1, 2, 3, 4, 5], 0) ∧
    Test_LoadTileThresholdOp_Subview exTiles 1 [-1, -1, -1, -1] = some ([2, 3, 4, 5], 0) ∧
    Test_LoadTileFeatureIndicesOp_Subview exTiles 1 [-1, -1, -1, -1]
      = some ([2, 3, 4, 5], 0) := by
  refine ⟨?_, ?_, by decide, by decide, by decide, by decide⟩
  · intro i tile hi
    obtain ⟨h0, hlt⟩ := vecAt_some_lt _ _ _ hi
    simp [LoadTileThresholdsOp, LoadTileFeatureIndicesOp, TileMemref.tileAt, h0, hlt, hi]
  · intro o n i tile ho hi hin htile
    simp [LoadTileThresholdsOp, LoadTileFeatureIndicesOp, TileMemref.tileAt,
      TileMemref.SubViewOp, hi, hin, htile]

/-- Witness for C24: tile 3 of the test buffer through the subview at offset 1
is tile 4 of the buffer, `(5, 5)`. -/
theorem tile_loads_witness :
    LoadTileThresholdsOp ((TileMemref.mk exTiles 0 exTiles.length 1).SubViewOp 1 4 1) 3
      = some 5 ∧
    LoadTileFeatureIndicesOp ((TileMemref.mk exTiles 0 exTiles.length 1).SubViewOp 1 4 1) 3
      = some 5 :=
  (tile_loads exTiles).2.1 1 4 3 ⟨5, 5, 0⟩ (by decide) (by decide) (by decide) (by decide)

/-! ### Coverage of the fill kernel -/

/-- The launch of the model-buffer initializer: its grid and block constants
and what one worker of it does. -/
theorem fill_kernel_body {θ : Type} (funcName : String) (module : ModuleOp) (n : Int)
    (th ix sh ch : Ty) (ts : Int) (sparseRep : Bool) :
    ∃ m f k gridX blockX one deps body call,
      GenerateModelMemrefInitializerImpl funcName module
        ⟨n, .tiledNumericalNode th ix sh ts ch⟩ sparseRep = some m ∧
      m.funcs = module.funcs ++ [f] ∧
      f.body.get? k = some (.launch (.result gridX) (.result one) (.result one)
        (.result blockX) (.result one) (.result one) deps body) ∧
      f.body.get? gridX = some (.constantIndex (doubleToInt32 (ceilDiv n 32))) ∧
      f.body.get? blockX = some (.constantIndex 32) ∧
      f.body.get? one = some (.constantIndex 1) ∧
      ∀ (mem : Memory θ) (inp : Inputs), inp.blockSizeX = 32 →
        (runStmts mem inp body).events
          = if inp.blockIdX * 32 + inp.threadIdX < n
            then [.createBody call (inp.blockIdX * 32 + inp.threadIdX)] else [] := by
  obtain ⟨m, hm⟩ := GenerateModelMemrefInitializerImpl_isSome funcName module n th ix sh ch ts
    sparseRep
  refine ⟨m, ?_⟩
  have hm' := hm
  have hrun : ∀ (owner : Nat) (call : CreateBodyCall) (mem : Memory θ) (inp : Inputs),
      call.tileIndex = .res ⟨owner, "elementIndex"⟩ → inp.blockSizeX = 32 →
      (runStmts mem inp
        [ .op ⟨owner, "memrefLengthConst"⟩ (.constantIndex n),
          .op ⟨owner, "firstThreadNum"⟩ (.muli .blockSizeX .blockIdX),
          .op ⟨owner, "elementIndex"⟩ (.addi (.res ⟨owner, "firstThreadNum"⟩) .threadIdX),
          .op ⟨owner, "inBoundsCondition"⟩
            (.cmpiSlt (.res ⟨owner, "elementIndex"⟩) (.res ⟨owner, "memrefLengthConst"⟩)),
          .ifOp ⟨owner, "ifInBounds"⟩ (.res ⟨owner, "inBoundsCondition"⟩)
            [(⟨owner, "createBody"⟩, .createBody call)] [],
          .op ⟨owner, "terminator"⟩ .terminator ]).events
        = if inp.blockIdX * 32 + inp.threadIdX < n
          then [.createBody call (inp.blockIdX * 32 + inp.threadIdX)] else [] := by
    intro owner call mem inp hcall hbs
    by_cases hin : inp.blockIdX * 32 + inp.threadIdX < n
    · have hin' : 32 * inp.blockIdX + inp.threadIdX < n := by omega
      have he : 32 * inp.blockIdX + inp.threadIdX = inp.blockIdX * 32 + inp.threadIdX := by
        omega
      simp [lookup_cons_name, runStmts, runFrom, runStmt, runOps, evalOp, evalVal, evalInt,
        hbs, hin, hin', he, hcall]
    · have hin' : ¬ 32 * inp.blockIdX + inp.threadIdX < n := by omega
      simp [lookup_cons_name, runStmts, runFrom, runStmt, runOps, evalOp, evalVal, evalInt,
        hbs, hin, hin']
  by_cases hts : ts = 1 <;> cases sparseRep <;>
    simp [GenerateModelMemrefInitializerImpl, create, hts, ModuleOp.push_back] at hm' <;>
    subst hm'
  · exact ⟨_, 9, 7, 8, 6, _, _, _, hm, rfl, rfl, rfl, rfl, rfl,
      fun mem inp hbs => hrun 9 _ mem inp rfl hbs⟩
  · exact ⟨_, 11, 9, 10, 8, _, _, _, hm, rfl, rfl, rfl, rfl, rfl,
      fun mem inp hbs => hrun 11 _ mem inp rfl hbs⟩
  · exact ⟨_, 11, 9, 10, 8, _, _, _, hm, rfl, rfl, rfl, rfl, rfl,
      fun mem inp hbs => hrun 11 _ mem inp rfl hbs⟩
  · exact ⟨_, 13, 11, 12, 10, _, _, _, hm, rfl, rfl, rfl, rfl, rfl,
      fun mem inp hbs => hrun 13 _ mem inp rfl hbs⟩

/-- C25 (counterexample): for `n = 68719476705` elements the grid constant of
the generated launch is `-2147483648`: the grid has no block, and element 0 of
`[0, n)` is handled by no pair `(b, t)` of the grid. -/
theorem fill_kernel_no_block :
    (GenerateModelMemrefInitializerImpl "Init_Model" ⟨[], []⟩
        ⟨68719476705, .tiledNumericalNode (.float 64) (.int 32) (.int 32) 1 (.int 32)⟩
        true).map (fun m => m.funcs.map (fun f => f.body.get? 9))
      = some [some (.constantIndex (-2147483648))] ∧
    ¬ ((0 : Int) < -2147483648) ∧ (0 : Int) < 68719476705 := by
  refine ⟨?_, by decide, by decide⟩
  simp [GenerateModelMemrefInitializerImpl, create, ModuleOp.push_back, ceilDiv_eq,
    doubleToInt32]

/-- C25 (amended): for every element count `n` with
`0 ≤ n ≤ 32 * (2^31 - 1) = 68719476704`, the fill kernel of the model-buffer
initializer is launched over `numBlocks = ceilDiv n 32` blocks of 32 workers,
and it covers the buffer exactly once: worker `t` of block `b` handles element
`b * 32 + t` when that is below `n` and nothing otherwise; every index in
`[0, n)` is handled by exactly one pair `(b, t)` with `b < numBlocks` and
`t < 32`; and no pair handles an index outside `[0, n)`. -/
theorem fill_kernel_covers_once {θ : Type} (funcName : String) (module : ModuleOp) (n : Int)
    (th ix sh ch : Ty) (ts : Int) (sparseRep : Bool) (hn : 0 ≤ n) (hmax : n ≤ 68719476704) :
    ∃ m f k gridX blockX one deps body call numBlocks,
      GenerateModelMemrefInitializerImpl funcName module
        ⟨n, .tiledNumericalNode th ix sh ts ch⟩ sparseRep = some m ∧
      m.funcs = module.funcs ++ [f] ∧
      f.body.get? k = some (.launch (.result gridX) (.result one) (.result one)
        (.result blockX) (.result one) (.result one) deps body) ∧
      f.body.get? gridX = some (.constantIndex numBlocks) ∧
      f.body.get? blockX = some (.constantIndex 32) ∧
      numBlocks = ceilDiv n 32 ∧
      (∀ (mem : Memory θ) (b t : Int), 0 ≤ b → b < numBlocks → 0 ≤ t → t < 32 →
        (runStmts mem (fillWorker b t) body).events
          = if b * 32 + t < n then [.createBody call (b * 32 + t)] else []) ∧
      (∀ i, 0 ≤ i → i < n →
        ∃ b t, 0 ≤ b ∧ b < numBlocks ∧ 0 ≤ t ∧ t < 32 ∧
          (∀ mem : Memory θ,
            (runStmts mem (fillWorker b t) body).events = [.createBody call i]) ∧
          ∀ (mem : Memory θ) (b' t' : Int) (call' : CreateBodyCall),
            0 ≤ b' → b' < numBlocks → 0 ≤ t' → t' < 32 →
            Event.createBody call' i ∈ (runStmts mem (fillWorker b' t') body).events →
            b' = b ∧ t' = t) ∧
      (∀ (mem : Memory θ) (b t : Int) (call' : CreateBodyCall) (i : Int),
        0 ≤ b → b < numBlocks → 0 ≤ t → t < 32 →
        Event.createBody call' i ∈ (runStmts mem (fillWorker b t) body).events →
        0 ≤ i ∧ i < n ∧ i = b * 32 + t) := by
  obtain ⟨m, f, k, gridX, blockX, one, deps, body, call, hm, hf, hk, hgrid, hblock, _, hrun⟩ :=
    fill_kernel_body (θ := θ) funcName module n th ix sh ch ts sparseRep
  rw [doubleToInt32_ceilDiv n hn hmax] at hgrid
  have hev : ∀ (mem : Memory θ) (b t : Int),
      (runStmts mem (fillWorker b t) body).events
        = if b * 32 + t < n then [.createBody call (b * 32 + t)] else [] :=
    fun mem b t => hrun mem (fillWorker b t) rfl
  have hmem : ∀ (mem : Memory θ) (b t : Int) (call' : CreateBodyCall) (i : Int),
      0 ≤ b → 0 ≤ t →
      Event.createBody call' i ∈ (runStmts mem (fillWorker b t) body).events →
      0 ≤ i ∧ i < n ∧ i = b * 32 + t := by
    intro mem b t call' i hb ht hi
    rw [hev] at hi
    split_ifs at hi with hlt
    · simp only [List.mem_singleton, Event.createBody.injEq] at hi
      obtain ⟨_, rfl⟩ := hi
      exact ⟨by omega, hlt, rfl⟩
    · simp at hi
  refine ⟨m, f, k, gridX, blockX, one, deps, body, call, ceilDiv n 32, hm, hf, hk, hgrid, hblock,
    rfl, ?_, ?_, ?_⟩
  · intro mem b t _ _ _ _
    exact hev mem b t
  · intro i hi0 hin
    have hnb : ceilDiv n 32 = (n + 31) / 32 := ceilDiv_eq n
    refine ⟨i / 32, i % 32, by omega, by rw [hnb]; omega, by omega, by omega, ?_, ?_⟩
    · intro mem
      have hi : i / 32 * 32 + i % 32 = i := by omega
      rw [hev, hi, if_pos hin]
    · intro mem b' t' call' hb0 _ ht0 ht32 hmem'
      obtain ⟨_, _, hi⟩ := hmem mem b' t' call' i hb0 ht0 hmem'
      constructor <;> omega
  · intro mem b t call' i hb _ ht _ hmem'
    exact hmem mem b t call' i hb ht hmem'

/-- Witness for the amended C25: for 33 elements the grid has 2 blocks; element
32 is handled by worker 0 of block 1 and by no other worker, and worker 1 of
block 1 handles nothing. -/
theorem fill_kernel_covers_once_witness :
    ∃ (body : List DStmt) (call : CreateBodyCall) (numBlocks : Int),
      numBlocks = ceilDiv 33 32 ∧
      (∀ (mem : Memory Int) (b t : Int), 0 ≤ b → b < numBlocks → 0 ≤ t → t < 32 →
        (runStmts mem (fillWorker b t) body).events
          = if b * 32 + t < 33 then [.createBody call (b * 32 + t)] else []) ∧
      (∀ i, 0 ≤ i → i < 33 →
        ∃ b t, 0 ≤ b ∧ b < numBlocks ∧ 0 ≤ t ∧ t < 32 ∧
          (∀ mem : Memory Int,
            (runStmts mem (fillWorker b t) body).events = [.createBody call i]) ∧
          ∀ (mem : Memory Int) (b' t' : Int) (call' : CreateBodyCall),
            0 ≤ b' → b' < numBlocks → 0 ≤ t' → t' < 32 →
            Event.createBody call' i ∈ (runStmts mem (fillWorker b' t') body).events →
            b' = b ∧ t' = t) :=
  (fill_kernel_covers_once "Init_Model" ⟨[], []⟩ 33 (.float 64) (.int 32) (.int 32) (.int 32) 1
    false (by decide) (by decide)).elim
    (fun _ h => h.elim (fun _ h => h.elim (fun _ h => h.elim (fun _ h => h.elim (fun _ h =>
      h.elim (fun _ h => h.elim (fun _ h => h.elim (fun body h => h.elim (fun call h =>
        h.elim (fun numBlocks h =>
          ⟨body, call, numBlocks, h.2.2.2.2.2.1, h.2.2.2.2.2.2.1, h.2.2.2.2.2.2.2.1⟩))))))))))

/-! ### Completeness of the staging step -/

/-- Distinct thread coordinates of a block give distinct worker ids. -/
theorem workerId_inj (X tx ty tx' ty' : Int) (hX : 0 < X) (h0 : 0 ≤ tx) (h1 : tx < X)
    (h0' : 0 ≤ tx') (h1' : tx' < X) (h : X * ty + tx = X * ty' + tx') : tx = tx' ∧ ty = ty' := by
  have e1 : (X * ty + tx) % X = tx := by
    rw [add_comm, Int.add_mul_emod_self_left, Int.emod_eq_of_lt h0 h1]
  have e2 : (X * ty' + tx') % X = tx' := by
    rw [add_comm, Int.add_mul_emod_self_left, Int.emod_eq_of_lt h0' h1']
  have htx : tx = tx' := by rw [← e1, ← e2, h]
  subst htx
  have hmul : X * ty = X * ty' := by omega
  exact ⟨rfl, Int.eq_of_mul_eq_mul_left (ne_of_gt hX) hmul⟩

/-- Every id below the block size is the worker id of thread coordinates of
the block. -/
theorem workerId_surj (X Y w : Int) (hX : 0 < X) (h0 : 0 ≤ w) (hw : w < X * Y) :
    0 ≤ w % X ∧ w % X < X ∧ 0 ≤ w / X ∧ w / X < Y ∧ X * (w / X) + w % X = w := by
  refine ⟨Int.emod_nonneg _ (ne_of_gt hX), Int.emod_lt_of_pos _ hX, Int.ediv_nonneg h0 (le_of_lt hX),
    ?_, ?_⟩
  · apply Int.ediv_lt_of_lt_mul hX
    rw [mul_comm]
    exact hw
  · have := Int.emod_add_ediv w X
    omega

/-- The worker id of thread coordinates of the block is below the block size. -/
theorem workerId_range (X Y tx ty : Int) (hX : 0 < X) (h0 : 0 ≤ tx) (h1 : tx < X)
    (h0' : 0 ≤ ty) (h1' : ty < Y) : 0 ≤ X * ty + tx ∧ X * ty + tx < X * Y := by
  have hm : 0 ≤ X * ty := mul_nonneg (le_of_lt hX) h0'
  have hle : X * (ty + 1) ≤ X * Y := Int.mul_le_mul_of_nonneg_left (by omega) (le_of_lt hX)
  have he : X * (ty + 1) = X * ty + X := by ring
  constructor <;> omega

/-- C26: in a block of `X × Y` workers running the staging code that
`LowerCacheTreeOp` emits, in which worker `(0, 0)` computes `startIndex = s`
and `endIndex = e` over a model buffer that holds the tiles `[s, e)`:
worker `(tx, ty)` computes the id `X * ty + tx`, distinct coordinates give
distinct ids, and the ids are exactly `[0, X * Y)`; and when `X * Y ≥ e - s`,
every scratch slot `i` in `[0, e - s)` is written by exactly one worker, whose
only store puts the threshold and the feature index of global tile `s + i`
(with tile-shape id 0) into slot `i`. -/
theorem staging_complete {θ : Type} (rep : GPUArrayBasedRepresentation)
    (op ec : Nat) (forestType : List TreeType) (lengths : List Int) (ctx : CacheContext)
    (module : ModuleOp) (c : CacheLowering) (info : EnsembleConstantLoweringInfo)
    (mem : Memory θ) (model : List (Tile θ)) (X Y startTree endTree s e : Int)
    (h : rep.LowerCacheTreeOp op (.ensembleConstant ec) forestType lengths ctx module = some c)
    (hinfo : rep.ensembleConstantToMemrefsMap.lookup ec = some info)
    (hX : 0 < X)
    (hstart : (runStmts mem (stagingWorker X Y 0 0 startTree endTree) c.code).env.lookup
      ⟨op, "startIndex"⟩ = some (.int s))
    (hend : (runStmts mem (stagingWorker X Y 0 0 startTree endTree) c.code).env.lookup
      ⟨op, "endIndex"⟩ = some (.int e))
    (hmodel : mem.tiles (.host info.modelGlobal) = some model)
    (hs0 : 0 ≤ s) (hlen : e ≤ model.length) :
    (∀ tx ty, 0 ≤ tx → tx < X → 0 ≤ ty → ty < Y →
      (runStmts mem (stagingWorker X Y tx ty startTree endTree) c.code).env.lookup ⟨op, "index"⟩
        = some (.int (X * ty + tx)) ∧
      0 ≤ X * ty + tx ∧ X * ty + tx < X * Y) ∧
    (∀ tx ty tx' ty', 0 ≤ tx → tx < X → 0 ≤ tx' → tx' < X →
      X * ty + tx = X * ty' + tx' → tx = tx' ∧ ty = ty') ∧
    (∀ w, 0 ≤ w → w < X * Y →
      ∃ tx ty, 0 ≤ tx ∧ tx < X ∧ 0 ≤ ty ∧ ty < Y ∧ X * ty + tx = w) ∧
    (e - s ≤ X * Y →
      ∀ i, 0 ≤ i → i < e - s →
        ∃ tile tx ty, vecAt model (s + i) = some tile ∧
          0 ≤ tx ∧ tx < X ∧ 0 ≤ ty ∧ ty < Y ∧
          (runStmts mem (stagingWorker X Y tx ty startTree endTree) c.code).events.filter
              Event.isInitTile
            = [.initTile (.global ("treeCache_" ++ toString op)) i tile.threshold
                tile.featureIndex 0] ∧
          ∀ tx' ty' buf thr fi sh, 0 ≤ tx' → tx' < X → 0 ≤ ty' → ty' < Y →
            Event.initTile buf i thr fi sh
              ∈ (runStmts mem (stagingWorker X Y tx' ty' startTree endTree) c.code).events →
            tx' = tx ∧ ty' = ty) := by
  obtain ⟨ec', info', maxLen, stepValue, treeTy, offTy, hf, hinfo', _, _, _, _, _, _, hcode⟩ :=
    LowerCacheTreeOp_some rep op _ forestType lengths ctx module c h
  cases hf
  rw [hinfo] at hinfo'
  cases hinfo'
  rw [hcode] at hstart hend ⊢
  obtain ⟨offsets, hoff, hs, he⟩ := LowerCacheTreeOp.emitted_range_of_env mem _ op info
    offTy.shape treeTy.shape _ _ s e hstart hend
  -- the range is the same for every worker of the block
  have hs' : ∀ tx ty, vecAt offsets (stagingWorker X Y tx ty startTree endTree).startTreeIndex
      = some s := fun _ _ => hs
  have he' : ∀ tx ty,
      (if (stagingWorker X Y tx ty startTree endTree).endTreeIndex < offTy.shape
        then vecAt offsets (stagingWorker X Y tx ty startTree endTree).endTreeIndex = some e
        else e = offTy.shape) := fun _ _ => he
  have htile : ∀ i, 0 ≤ i → i < e - s → ∃ tile, vecAt model (s + i) = some tile :=
    fun i hi0 hie => vecAt_lt model (s + i) (by omega) (by omega)
  refine ⟨?_, ?_, ?_, ?_⟩
  · intro tx ty h0 h1 h0' h1'
    have henv := LowerCacheTreeOp.emitted_run_env mem (stagingWorker X Y tx ty startTree endTree)
      op info offTy.shape treeTy.shape ⟨maxLen * stepValue, treeTy.elementType⟩
      ("treeCache_" ++ toString op) offsets s e hoff (hs' tx ty) (he' tx ty)
    simp only at henv
    exact ⟨henv.2.2.1, workerId_range X Y tx ty hX h0 h1 h0' h1'⟩
  · intro tx ty tx' ty' h0 h1 h0' h1' heq
    exact workerId_inj X tx ty tx' ty' hX h0 h1 h0' h1' heq
  · intro w hw0 hw
    obtain ⟨a, b, c', d, e'⟩ := workerId_surj X Y w hX hw0 hw
    exact ⟨w % X, w / X, a, b, c', d, e'⟩
  · intro hbig i hi0 hie
    obtain ⟨tile, htl⟩ := htile i hi0 hie
    obtain ⟨a, b, c', d, hid⟩ := workerId_surj X Y i hX hi0 (by omega)
    refine ⟨tile, i % X, i / X, htl, a, b, c', d, ?_, ?_⟩
    · have hin : (stagingWorker X Y (i % X) (i / X) startTree endTree).blockSizeX
          * (stagingWorker X Y (i % X) (i / X) startTree endTree).threadIdY
          + (stagingWorker X Y (i % X) (i / X) startTree endTree).threadIdX < e - s := by
        show X * (i / X) + i % X < e - s
        omega
      rw [LowerCacheTreeOp.emitted_run_stage mem _ op info offTy.shape treeTy.shape _ _ offsets
        s e model tile hoff (hs' _ _) (he' _ _) hin hmodel
        (by show vecAt model (s + (X * (i / X) + i % X)) = some tile; rw [hid]; exact htl)]
      have hid' : (stagingWorker X Y (i % X) (i / X) startTree endTree).blockSizeX
          * (stagingWorker X Y (i % X) (i / X) startTree endTree).threadIdY
          + (stagingWorker X Y (i % X) (i / X) startTree endTree).threadIdX = i := hid
      rw [hid']
      unfold rangeLoads
      split <;> simp [Event.isInitTile]
    · intro tx' ty' buf thr fi sh h0 h1 h0' h1' hmem
      obtain ⟨hr0, hr1⟩ := workerId_range X Y tx' ty' hX h0 h1 h0' h1'
      by_cases hin : (stagingWorker X Y tx' ty' startTree endTree).blockSizeX
          * (stagingWorker X Y tx' ty' startTree endTree).threadIdY
          + (stagingWorker X Y tx' ty' startTree endTree).threadIdX < e - s
      · have hin' : X * ty' + tx' < e - s := hin
        obtain ⟨tile', htl'⟩ := htile (X * ty' + tx') hr0 hin'
        rw [LowerCacheTreeOp.emitted_run_stage mem _ op info offTy.shape treeTy.shape _ _ offsets
          s e model tile' hoff (hs' _ _) (he' _ _) hin hmodel htl'] at hmem
        unfold rangeLoads at hmem
        have hidx : X * ty' + tx' = i := by
          split at hmem <;> simp at hmem <;> exact hmem.2.1.symm
        have := workerId_inj X tx' ty' (i % X) (i / X) hX h0 h1 a b (by omega)
        exact this
      · rw [LowerCacheTreeOp.emitted_run_idle mem _ op info offTy.shape treeTy.shape _ _ offsets
          s e hoff (hs' _ _) (he' _ _) hin] at hmem
        unfold rangeLoads at hmem
        split at hmem <;> simp at hmem

/-- Witness for C26: a block of `4 × 2` workers staging the trees `[0, 2)` of
the scenario (tiles `[0, 5)`): slot 4 is written by one worker only, with the
fields of global tile 4. -/
theorem staging_complete_witness :
    ∃ (tile : Tile Int) (tx ty : Int),
      vecAt [(⟨10, 0, 0⟩ : Tile Int), ⟨11, 1, 0⟩, ⟨12, 2, 0⟩, ⟨13, 3, 0⟩, ⟨14, 4, 0⟩, ⟨15, 5, 0⟩]
        (0 + 4) = some tile ∧
      0 ≤ tx ∧ tx < 4 ∧ 0 ≤ ty ∧ ty < 2 ∧
      (runStmts exMemory (stagingWorker 4 2 tx ty 0 2) exLowering.code).events.filter
          Event.isInitTile
        = [.initTile (.global ("treeCache_" ++ toString 1)) 4 tile.threshold
            tile.featureIndex 0] ∧
      ∀ tx' ty' buf thr fi sh, 0 ≤ tx' → tx' < 4 → 0 ≤ ty' → ty' < 2 →
        Event.initTile buf 4 thr fi sh
          ∈ (runStmts exMemory (stagingWorker 4 2 tx' ty' 0 2) exLowering.code).events →
        tx' = tx ∧ ty' = ty :=
  (staging_complete exRep 1 0 exTypes [2, 3, 1] exContext exModule exLowering exInfo exMemory
    [⟨10, 0, 0⟩, ⟨11, 1, 0⟩, ⟨12, 2, 0⟩, ⟨13, 3, 0⟩, ⟨14, 4, 0⟩, ⟨15, 5, 0⟩] 4 2 0 2 0 5
    rfl (by decide) (by decide) (by decide) (by decide) (by decide) (by decide)
    (by decide)).2.2.2 (by decide) 4 (by decide) (by decide)

/-! ### The view of a cached tree and the staged range -/

/-- C27 (evaluation of the code at the boundary scenario): for tile counts
`[2, 3, 1]` and the cached range `[1, 3)`, whose end is the number of trees,
the staging code computes `endIndex - startIndex = 3 - 2 = 1` staged tile,
while the view `GenerateTreeMemref` returns for tree 2 starts at
`cacheIndex = 5 - 2 = 3` with length 1, and the view of tree 1 starts at 0 with
length 3: both reach beyond the staged tile. For the range `[0, 2)`, whose end
is below the number of trees, the staging code computes `5 - 0 = 5` staged
tiles and the view of tree 1 (offset 2, length 3) lies inside them. -/
theorem GenerateTreeMemref_view_beyond_staged_range :
    (runStmts exMemory exRequest exLowering.code).env.lookup ⟨1, "numElementsToRead"⟩
      = some (.int 1) ∧
    (runFrom exMemory exRequest (runStmts exMemory exRequest exLowering.code)
        exTreeMemref.code).env.lookup ⟨2, "treeMemref"⟩
      = some (.view (.global "treeCache_1") 3 1 1) ∧
    ¬ ((3 : Int) + 1 ≤ 1) ∧
    (runFrom exMemory ⟨4, 1, 0, 0, 0, 1, 3, 1⟩
        (runStmts exMemory ⟨4, 1, 0, 0, 0, 1, 3, 1⟩ exLowering.code)
        exTreeMemref.code).env.lookup ⟨2, "treeMemref"⟩
      = some (.view (.global "treeCache_1") 0 3 1) ∧
    ¬ ((0 : Int) + 3 ≤ 1) ∧
    (runStmts exMemory ⟨4, 1, 0, 0, 0, 0, 2, 1⟩ exLowering.code).env.lookup
        ⟨1, "numElementsToRead"⟩
      = some (.int 5) ∧
    (runFrom exMemory ⟨4, 1, 0, 0, 0, 0, 2, 1⟩
        (runStmts exMemory ⟨4, 1, 0, 0, 0, 0, 2, 1⟩ exLowering.code)
        exTreeMemref.code).env.lookup ⟨2, "treeMemref"⟩
      = some (.view (.global "treeCache_1") 2 3 1) ∧
    (2 : Int) + 3 ≤ 5 :=
  ⟨by decide, by decide, by decide, by decide, by decide, by decide, by decide, by decide⟩

/-! ### Bounds and termination of `PredictTree` -/

theorem vecAt_mem {α : Type} (v : List α) (i : Int) (x : α) (h : vecAt v i = some x) : x ∈ v := by
  unfold vecAt at h
  split_ifs at h
  exact List.get?_mem h

/-- In a tree whose nodes have no child or two children inside the tree, over
data that covers the feature indices of the inner nodes, the loop of
`PredictTree` entered at a node of the tree never leaves a vector. -/
theorem PredictTree.loop_no_fault {θ : Type} (lt : θ → θ → Bool) (m_nodes : List (Node θ))
    (data : List θ)
    (hchildren : ∀ node ∈ m_nodes,
      (node.leftChild = INVALID_NODE_INDEX ∧ node.rightChild = INVALID_NODE_INDEX) ∨
      ((0 ≤ node.leftChild ∧ node.leftChild < m_nodes.length) ∧
       (0 ≤ node.rightChild ∧ node.rightChild < m_nodes.length)))
    (hdata : ∀ node ∈ m_nodes, node.IsLeaf = false →
      0 ≤ node.featureIndex ∧ node.featureIndex < data.length)
    (fuel : Nat) (node : Node θ) (hnode : node ∈ m_nodes) :
    PredictTree.loop lt m_nodes data fuel node ≠ .fault := by
  induction fuel generalizing node with
  | zero => simp [PredictTree.loop]
  | succ fuel ih =>
    unfold PredictTree.loop
    by_cases hleaf : node.IsLeaf = true
    · simp [hleaf]
    · have hleaf' : node.IsLeaf = false := by simpa using hleaf
      simp only [hleaf', Bool.false_eq_true, if_false]
      obtain ⟨hf0, hf1⟩ := hdata node hnode hleaf'
      obtain ⟨x, hx⟩ := vecAt_lt data node.featureIndex hf0 hf1
      rcases hchildren node hnode with ⟨hl, hr⟩ | ⟨⟨hl0, hl1⟩, ⟨hr0, hr1⟩⟩
      · exfalso
        simp [Node.IsLeaf, hl, hr] at hleaf'
      · obtain ⟨l, hl⟩ := vecAt_lt m_nodes node.leftChild hl0 hl1
        obtain ⟨r, hr⟩ := vecAt_lt m_nodes node.rightChild hr0 hr1
        simp only [hx, hl, hr]
        split_ifs
        · exact ih l (vecAt_mem _ _ _ hl)
        · exact ih r (vecAt_mem _ _ _ hr)

/-- C28: for every tree with at least one node in which every node has either
both children `INVALID_NODE_INDEX` or both children valid indices below the
node count, and every data vector with `0 ≤ featureIndex < data length` for
every non-leaf node, `PredictTree` never accesses a node or a data element out
of bounds, however many nodes it visits; and it is at the root, a node of the
tree, that the traversal starts. -/
theorem PredictTree_in_bounds {θ : Type} (lt : θ → θ → Bool) (tree : DecisionTree θ)
    (data : List θ)
    (hnonempty : 0 < tree.m_nodes.length)
    (hchildren : ∀ node ∈ tree.m_nodes,
      (node.leftChild = INVALID_NODE_INDEX ∧ node.rightChild = INVALID_NODE_INDEX) ∨
      ((0 ≤ node.leftChild ∧ node.leftChild < tree.m_nodes.length) ∧
       (0 ≤ node.rightChild ∧ node.rightChild < tree.m_nodes.length)))
    (hdata : ∀ node ∈ tree.m_nodes, node.IsLeaf = false →
      0 ≤ node.featureIndex ∧ node.featureIndex < data.length) :
    (∀ fuel, tree.PredictTree lt data fuel ≠ .fault) ∧
    (∃ root, vecAt tree.m_nodes 0 = some root ∧
      ∀ fuel, tree.PredictTree lt data fuel = PredictTree.loop lt tree.m_nodes data fuel root) := by
  obtain ⟨root, hroot⟩ := vecAt_lt tree.m_nodes 0 (le_refl 0) (by exact_mod_cast hnonempty)
  have hrun : ∀ fuel,
      tree.PredictTree lt data fuel = PredictTree.loop lt tree.m_nodes data fuel root := by
    intro fuel
    simp [DecisionTree.PredictTree, hnonempty, hroot]
  refine ⟨?_, root, hroot, hrun⟩
  intro fuel
  rw [hrun]
  exact PredictTree.loop_no_fault lt tree.m_nodes data hchildren hdata fuel root
    (vecAt_mem _ _ _ hroot)

/-- Witness for C28: the three-node stump on a one-feature row. -/
theorem PredictTree_in_bounds_witness :
    (∀ fuel, stumpTree.PredictTree ltInt [7] fuel ≠ .fault) ∧
    (∃ root, vecAt stumpTree.m_nodes 0 = some root ∧
      ∀ fuel, stumpTree.PredictTree ltInt [7] fuel
        = PredictTree.loop ltInt stumpTree.m_nodes [7] fuel root) :=
  PredictTree_in_bounds ltInt stumpTree [7] (by decide) (by decide) (by decide)

/-- The outcome of the indexed loop is the outcome of the loop of `PredictTree`. -/
theorem PredictTree.visited_outcome {θ : Type} (lt : θ → θ → Bool) (m_nodes : List (Node θ))
    (data : List θ) (fuel : Nat) :
    ∀ (i : Int) (node : Node θ), vecAt m_nodes i = some node →
      (PredictTree.visited lt m_nodes data fuel i).2 = PredictTree.loop lt m_nodes data fuel node := by
  induction fuel with
  | zero =>
    intro i node hi
    simp [PredictTree.visited, PredictTree.loop, hi]
  | succ fuel ih =>
    intro i node hi
    unfold PredictTree.visited PredictTree.loop
    simp only [hi]
    by_cases hleaf : node.IsLeaf = true
    · simp [hleaf]
    · have hleaf' : node.IsLeaf = false := by simpa using hleaf
      simp only [hleaf', Bool.false_eq_true, if_false]
      cases hx : vecAt data node.featureIndex with
      | none => rfl
      | some x =>
        simp only
        by_cases hlt : lt node.threshold x = true
        · simp only [hlt, if_true]
          cases hl : vecAt m_nodes node.leftChild with
          | none => cases fuel <;> simp [PredictTree.visited, hl]
          | some next => exact ih _ next hl
        · have hlt' : lt node.threshold x = false := by simpa using hlt
          simp only [hlt', Bool.false_eq_true, if_false]
          cases hr : vecAt m_nodes node.rightChild with
          | none => cases fuel <;> simp [PredictTree.visited, hr]
          | some next => exact ih _ next hr

/-- From a node of a tree whose inner nodes have two children at greater
indices, the indexed loop reaches a leaf along strictly increasing indices. -/
theorem PredictTree.visited_terminates {θ : Type} (lt : θ → θ → Bool) (m_nodes : List (Node θ))
    (data : List θ)
    (hchildren : ∀ i node, vecAt m_nodes i = some node →
      (node.leftChild = INVALID_NODE_INDEX ∧ node.rightChild = INVALID_NODE_INDEX) ∨
      ((i < node.leftChild ∧ node.leftChild < m_nodes.length) ∧
       (i < node.rightChild ∧ node.rightChild < m_nodes.length)))
    (hdata : ∀ node ∈ m_nodes, node.IsLeaf = false →
      0 ≤ node.featureIndex ∧ node.featureIndex < data.length)
    (fuel : Nat) :
    ∀ i : Int, 0 ≤ i → i < m_nodes.length → (m_nodes.length : Int) - i ≤ fuel →
      ∃ v path last leaf,
        PredictTree.visited lt m_nodes data fuel i = (i :: path, .value v) ∧
        List.Chain (fun a b => a < b) i path ∧
        (((i :: path).length : Nat) : Int) ≤ (m_nodes.length : Int) - i ∧
        (i :: path).getLast? = some last ∧ vecAt m_nodes last = some leaf ∧
        leaf.IsLeaf = true ∧ leaf.threshold = v := by
  induction fuel with
  | zero =>
    intro i _ hlt hfuel
    exfalso
    simp only [Nat.cast_zero] at hfuel
    omega
  | succ fuel ih =>
    intro i hi0 hlt hfuel
    obtain ⟨node, hnode⟩ := vecAt_lt m_nodes i hi0 hlt
    unfold PredictTree.visited
    simp only [hnode]
    by_cases hleaf : node.IsLeaf = true
    · refine ⟨node.threshold, [], i, node, by simp [hleaf], List.Chain.nil, ?_, rfl, hnode, hleaf,
        rfl⟩
      simp only [List.length_singleton, Nat.cast_one]
      omega
    · have hleaf' : node.IsLeaf = false := by simpa using hleaf
      simp only [hleaf', Bool.false_eq_true, if_false]
      obtain ⟨hf0, hf1⟩ := hdata node (vecAt_mem _ _ _ hnode) hleaf'
      obtain ⟨x, hx⟩ := vecAt_lt data node.featureIndex hf0 hf1
      simp only [hx]
      rcases hchildren i node hnode with ⟨hl, hr⟩ | ⟨⟨hl0, hl1⟩, ⟨hr0, hr1⟩⟩
      · exfalso
        simp [Node.IsLeaf, hl, hr] at hleaf'
      · have hnext : ∀ next : Int, i < next → next < m_nodes.length →
            ∃ v path last leaf,
              (i :: (PredictTree.visited lt m_nodes data fuel next).1,
                (PredictTree.visited lt m_nodes data fuel next).2) = (i :: path, Outcome.value v) ∧
              List.Chain (fun a b => a < b) i path ∧
              (((i :: path).length : Nat) : Int) ≤ (m_nodes.length : Int) - i ∧
              (i :: path).getLast? = some last ∧ vecAt m_nodes last = some leaf ∧
              leaf.IsLeaf = true ∧ leaf.threshold = v := by
          intro next hin hnl
          have hfuel' : (m_nodes.length : Int) - next ≤ fuel := by
            push_cast at hfuel
            omega
          obtain ⟨v, path, last, leaf, hvis, hchain, hlen, hlast, hleafAt, hisLeaf, hthr⟩ :=
            ih next (by omega) hnl hfuel'
          refine ⟨v, next :: path, last, leaf, by rw [hvis], List.Chain.cons hin hchain, ?_, ?_,
            hleafAt, hisLeaf, hthr⟩
          · simp only [List.length_cons, Nat.cast_add, Nat.cast_one] at hlen ⊢
            omega
          · rw [List.getLast?_cons_cons]
            exact hlast
        split_ifs
        · exact hnext node.leftChild hl0 hl1
        · exact hnext node.rightChild hr0 hr1

/-- C29 (counterexample): in the two-node tree whose root (index 0) has the
right child 1 only, every valid child index is greater than its parent's index
and less than the node count 2, and the row `[10]` covers the feature index 0;
the root sends the traversal to its left child `-1`, outside the node vector,
and `PredictTree` reaches no leaf. -/
theorem PredictTree_half_node_faults :
    exHalfTree.m_nodes.length = 2 ∧
    exHalfTree.m_nodes.map (fun node => (node.leftChild, node.rightChild))
      = [(INVALID_NODE_INDEX, 1), (INVALID_NODE_INDEX, INVALID_NODE_INDEX)] ∧
    exHalfTree.m_nodes.map (fun node => node.featureIndex) = [0, 0] ∧
    exHalfTree.PredictTree ltInt [10] 2 = .fault ∧
    PredictTree.visited ltInt exHalfTree.m_nodes [10] 2 0 = ([0], .fault) :=
  ⟨by decide, by decide, by decide, by decide, by decide⟩

/-- C29 (amended): for every non-empty tree in which every node has either
both children `INVALID_NODE_INDEX` or both children at indices strictly greater
than its own and less than the node count, and every data vector covering the
feature indices of the non-leaf nodes, `PredictTree` run for at least
node-count steps returns the threshold of a leaf, after visiting at most
node-count nodes, the visited indices starting at the root 0 and strictly
increasing. -/
theorem PredictTree_terminates {θ : Type} (lt : θ → θ → Bool) (tree : DecisionTree θ)
    (data : List θ)
    (hnonempty : 0 < tree.m_nodes.length)
    (hchildren : ∀ i node, vecAt tree.m_nodes i = some node →
      (node.leftChild = INVALID_NODE_INDEX ∧ node.rightChild = INVALID_NODE_INDEX) ∨
      ((i < node.leftChild ∧ node.leftChild < tree.m_nodes.length) ∧
       (i < node.rightChild ∧ node.rightChild < tree.m_nodes.length)))
    (hdata : ∀ node ∈ tree.m_nodes, node.IsLeaf = false →
      0 ≤ node.featureIndex ∧ node.featureIndex < data.length)
    (fuel : Nat) (hfuel : tree.m_nodes.length ≤ fuel) :
    ∃ v path last leaf,
      tree.PredictTree lt data fuel = .value v ∧
      PredictTree.visited lt tree.m_nodes data fuel 0 = (0 :: path, .value v) ∧
      List.Chain' (fun a b => a < b) (0 :: path) ∧
      (0 :: path).length ≤ tree.m_nodes.length ∧
      (0 :: path).getLast? = some last ∧ vecAt tree.m_nodes last = some leaf ∧
      leaf.IsLeaf = true ∧ leaf.threshold = v := by
  obtain ⟨v, path, last, leaf, hvis, hchain, hlen, hlast, hleafAt, hisLeaf, hthr⟩ :=
    PredictTree.visited_terminates lt tree.m_nodes data hchildren hdata fuel 0 (le_refl 0)
      (by exact_mod_cast hnonempty) (by simpa using hfuel)
  obtain ⟨root, hroot⟩ := vecAt_lt tree.m_nodes 0 (le_refl 0) (by exact_mod_cast hnonempty)
  refine ⟨v, path, last, leaf, ?_, hvis, hchain, ?_, hlast, hleafAt, hisLeaf, hthr⟩
  · have hout := PredictTree.visited_outcome lt tree.m_nodes data fuel 0 root hroot
    rw [hvis] at hout
    simp only [DecisionTree.PredictTree, hnonempty, hroot, gt_iff_lt, if_true]
    exact hout.symm
  · simp only [sub_zero] at hlen
    exact_mod_cast hlen

/-- Witness for the amended C29: the stump on the row `[7]` visits the root
and the left leaf. -/
theorem PredictTree_terminates_witness :
    ∃ v path last leaf,
      stumpTree.PredictTree ltInt [7] 3 = .value v ∧
      PredictTree.visited ltInt stumpTree.m_nodes [7] 3 0 = (0 :: path, .value v) ∧
      List.Chain' (fun a b => a < b) (0 :: path) ∧
      (0 :: path).length ≤ stumpTree.m_nodes.length ∧
      (0 :: path).getLast? = some last ∧ vecAt stumpTree.m_nodes last = some leaf ∧
      leaf.IsLeaf = true ∧ leaf.threshold = v :=
  PredictTree_terminates ltInt stumpTree [7]
    (by decide)
    (by
      intro i node hi
      obtain ⟨h0, hlt⟩ := vecAt_some_lt _ _ _ hi
      have hlen : (stumpTree.m_nodes.length : Int) = 3 := rfl
      rw [hlen] at hlt ⊢
      have hcases : i = 0 ∨ i = 1 ∨ i = 2 := by omega
      rcases hcases with rfl | rfl | rfl <;>
        (simp [vecAt, stumpTree] at hi; subst hi; simp [INVALID_NODE_INDEX]))
    (by decide) 3 (by decide)

/-! ### Building trees from an ONNX model -/

theorem preorderNodes_length {θ : Type} (t : ONNXTreeNode θ) :
    ∀ (parent : Int) (base : Nat), (preorderNodes parent base t).length = t.size := by
  induction t with
  | null => intro _ _; rfl
  | node f th l r ihl ihr =>
    intro parent base
    simp only [preorderNodes, List.length_cons, List.length_append, ihl, ihr, ONNXTreeNode.size]
    omega

theorem vecUpdate_at_length {α : Type} (pre post : List α) (x : α) (f : α → α) (i : Int)
    (hi : i = (pre.length : Int)) :
    vecUpdate (pre ++ x :: post) i f = some (pre ++ f x :: post) := by
  subst hi
  have hget : vecAt (pre ++ x :: post) (pre.length : Int) = some x := by
    simp [vecAt, List.get?_eq_getElem?, List.getElem?_append_right (Nat.le_refl _)]
  simp [vecUpdate, hget]

/-- The root of a non-null subtree in the preorder list, and the rest of it,
which does not depend on the parent of the root. -/
theorem preorderNodes_cons {θ : Type} (parent : Int) (base : Nat) (f : Int) (th : θ)
    (l r : ONNXTreeNode θ) :
    preorderNodes parent base (.node f th l r)
      = ⟨th, int64ToInt32 f, parent,
          if l.isNull then INVALID_NODE_INDEX else ((base + 1 : Nat) : Int),
          if r.isNull then INVALID_NODE_INDEX else ((base + 1 + l.size : Nat) : Int),
          .kNumerical⟩
        :: (preorderNodes base (base + 1) l ++ preorderNodes base (base + 1 + l.size) r) := rfl

/-- Linking a child subtree that was just built at the end of the node vector:
the child field of the root is set and the root of the subtree gets its
parent; a null subtree changes nothing. -/
theorem linkChild_spec {θ : Type}
    (setChild : DecisionTree θ → Int → Int → Option (DecisionTree θ))
    (setField : Node θ → Int → Node θ)
    (hset : ∀ tree node child, setChild tree node child
      = (vecUpdate tree.m_nodes node (fun n => setField n child)).map
          (fun m_nodes => { tree with m_nodes := m_nodes }))
    (tree : DecisionTree θ) (pre mid : List (Node θ)) (root : Node θ) (child : ONNXTreeNode θ)
    (hnodes : tree.m_nodes = pre ++ root :: mid
      ++ preorderNodes (-1) (pre.length + 1 + mid.length) child) :
    linkChild setChild tree (pre.length : Int)
        (if child.isNull then -1 else ((pre.length + 1 + mid.length : Nat) : Int))
      = some { tree with
          m_nodes := pre
            ++ (if child.isNull then root
                else setField root ((pre.length + 1 + mid.length : Nat) : Int)) :: mid
            ++ preorderNodes (pre.length : Int) (pre.length + 1 + mid.length) child } := by
  cases child with
  | null =>
    simp only [ONNXTreeNode.isNull, if_true, linkChild, preorderNodes, List.append_nil]
      at hnodes ⊢
    simp [← hnodes]
  | node f th l r =>
    have hne : (((pre.length + 1 + mid.length : Nat) : Int) != -1) = true := by
      simp only [bne_iff_ne, ne_eq]
      omega
    simp only [ONNXTreeNode.isNull, Bool.false_eq_true, if_false, linkChild, hne, if_true]
    rw [preorderNodes_cons] at hnodes
    rw [preorderNodes_cons]
    generalize (preorderNodes ((pre.length + 1 + mid.length : Nat) : Int)
      (pre.length + 1 + mid.length + 1) l
      ++ preorderNodes ((pre.length + 1 + mid.length : Nat) : Int)
        (pre.length + 1 + mid.length + 1 + l.size) r) = rest at hnodes ⊢
    generalize (if l.isNull then INVALID_NODE_INDEX
      else ((pre.length + 1 + mid.length + 1 : Nat) : Int)) = li at hnodes ⊢
    generalize (if r.isNull then INVALID_NODE_INDEX
      else ((pre.length + 1 + mid.length + 1 + l.size : Nat) : Int)) = ri at hnodes ⊢
    have e1 : pre ++ root :: mid ++ (⟨th, int64ToInt32 f, -1, li, ri, .kNumerical⟩ : Node θ) :: rest
        = pre ++ root :: (mid ++ (⟨th, int64ToInt32 f, -1, li, ri, .kNumerical⟩ : Node θ) :: rest) := by
      simp
    have e2 : pre ++ setField root ((pre.length + 1 + mid.length : Nat) : Int)
          :: (mid ++ (⟨th, int64ToInt32 f, -1, li, ri, .kNumerical⟩ : Node θ) :: rest)
        = (pre ++ setField root ((pre.length + 1 + mid.length : Nat) : Int) :: mid)
          ++ (⟨th, int64ToInt32 f, -1, li, ri, .kNumerical⟩ : Node θ) :: rest := by
      simp
    have hlen : ((pre.length + 1 + mid.length : Nat) : Int)
        = ((pre ++ setField root ((pre.length + 1 + mid.length : Nat) : Int) :: mid).length
            : Int) := by
      simp only [List.length_append, List.length_cons]
      omega
    rw [hset, hnodes, e1, vecUpdate_at_length pre _ root _ _ rfl]
    simp only [Option.map_some', Option.some_bind, ForestCreator.SetNodeParent,
      DecisionTree.SetNodeParent]
    rw [e2, vecUpdate_at_length _ _ _ _ _ hlen]
    simp

/-- What `constructSingleTree` returns and does to the tree under construction. -/
theorem constructSingleTree_spec {θ : Type} (t : ONNXTreeNode θ) :
    ∀ (nodes : List (Node θ)) (nf : Nat) (sc : θ),
      constructSingleTree t ⟨nodes, nf, sc⟩
        = some (if t.isNull then -1 else (nodes.length : Int),
            ⟨nodes ++ preorderNodes (-1) nodes.length t, nf, sc⟩) := by
  induction t with
  | null =>
    intro nodes nf sc
    simp [constructSingleTree, preorderNodes, ONNXTreeNode.isNull]
  | node f th l r ihl ihr =>
    intro nodes nf sc
    have hroot : (((nodes ++ [(⟨th, int64ToInt32 f, INVALID_NODE_INDEX, INVALID_NODE_INDEX,
        INVALID_NODE_INDEX, .kNumerical⟩ : Node θ)]).length : Nat) : Int) - 1
        = (nodes.length : Int) := by
      simp
    simp only [constructSingleTree, ForestCreator.NewNode, DecisionTree.NewNode, hroot, ihl]
    -- the left subtree
    have hl := linkChild_spec ForestCreator.SetNodeLeftChild
      (fun n c => { n with leftChild := c }) (fun _ _ _ => rfl)
      (⟨nodes ++ [⟨th, int64ToInt32 f, INVALID_NODE_INDEX, INVALID_NODE_INDEX, INVALID_NODE_INDEX,
          .kNumerical⟩]
        ++ preorderNodes (-1) (nodes ++ [(⟨th, int64ToInt32 f, INVALID_NODE_INDEX, INVALID_NODE_INDEX,
          INVALID_NODE_INDEX, .kNumerical⟩ : Node θ)]).length l, nf, sc⟩ : DecisionTree θ)
      nodes [] ⟨th, int64ToInt32 f, INVALID_NODE_INDEX, INVALID_NODE_INDEX, INVALID_NODE_INDEX, .kNumerical⟩ l
      (by simp)
    simp only [List.length_nil, Nat.add_zero, List.length_append, List.length_singleton] at hl ⊢
    rw [hl]
    simp only [ihr]
    -- the right subtree
    have hr := linkChild_spec ForestCreator.SetNodeRightChild
      (fun n c => { n with rightChild := c }) (fun _ _ _ => rfl)
      (⟨nodes ++ (if l.isNull then (⟨th, int64ToInt32 f, INVALID_NODE_INDEX, INVALID_NODE_INDEX,
            INVALID_NODE_INDEX, .kNumerical⟩ : Node θ)
          else ⟨th, int64ToInt32 f, INVALID_NODE_INDEX, ((nodes.length + 1 : Nat) : Int), INVALID_NODE_INDEX,
            .kNumerical⟩) :: []
        ++ preorderNodes (nodes.length : Int) (nodes.length + 1) l
        ++ preorderNodes (-1) (nodes.length + 1 + l.size) r, nf, sc⟩ : DecisionTree θ)
      nodes (preorderNodes (nodes.length : Int) (nodes.length + 1) l)
      (if l.isNull then (⟨th, int64ToInt32 f, INVALID_NODE_INDEX, INVALID_NODE_INDEX,
            INVALID_NODE_INDEX, .kNumerical⟩ : Node θ)
          else ⟨th, int64ToInt32 f, INVALID_NODE_INDEX, ((nodes.length + 1 : Nat) : Int), INVALID_NODE_INDEX,
            .kNumerical⟩) r
      (by simp [preorderNodes_length])
    simp only [preorderNodes_length, List.length_append, List.length_cons, List.length_nil,
      List.nil_append, List.cons_append, List.append_assoc] at hr ⊢
    have hN : nodes.length + (l.size + 1) = nodes.length + 1 + l.size := by omega
    simp only [hN]
    rw [hr]
    have hnode : (ONNXTreeNode.node f th l r).isNull = false := rfl
    cases hln : l.isNull <;> cases hrn : r.isNull <;>
      simp [preorderNodes, hln, hrn, hnode, INVALID_NODE_INDEX]

theorem preorderNodes_head {θ : Type} (parent : Int) (base : Nat) (t : ONNXTreeNode θ)
    (ht : t.isNull = false) :
    ∃ root, (preorderNodes parent base t)[0]? = some root ∧ root.parent = parent ∧ 1 ≤ t.size := by
  cases t with
  | null => simp [ONNXTreeNode.isNull] at ht
  | node f th l r =>
    rw [preorderNodes_cons]
    refine ⟨⟨th, int64ToInt32 f, parent,
      if l.isNull then INVALID_NODE_INDEX else ((base + 1 : Nat) : Int),
      if r.isNull then INVALID_NODE_INDEX else ((base + 1 + l.size : Nat) : Int),
      .kNumerical⟩, List.getElem?_cons_zero, rfl, ?_⟩
    simp only [ONNXTreeNode.size]
    omega

/-- In the preorder list of a subtree built at `base`, a valid child index of
the node at `base + j` lies after it and inside the subtree, and the node
there has `base + j` as its parent. -/
theorem preorderNodes_links {θ : Type} (t : ONNXTreeNode θ) :
    ∀ (parent : Int) (base j : Nat) (node : Node θ),
      (preorderNodes parent base t)[j]? = some node →
      (node.leftChild = INVALID_NODE_INDEX ∨
        ∃ c : Nat, node.leftChild = (c : Int) ∧ base + j < c ∧ c < base + t.size ∧
          ∃ child, (preorderNodes parent base t)[c - base]? = some child ∧
            child.parent = ((base + j : Nat) : Int)) ∧
      (node.rightChild = INVALID_NODE_INDEX ∨
        ∃ c : Nat, node.rightChild = (c : Int) ∧ base + j < c ∧ c < base + t.size ∧
          ∃ child, (preorderNodes parent base t)[c - base]? = some child ∧
            child.parent = ((base + j : Nat) : Int)) := by
  induction t with
  | null =>
    intro parent base j node h
    simp [preorderNodes] at h
  | node f th l r ihl ihr =>
    intro parent base j node h
    have hPL := preorderNodes_length l (base : Int) (base + 1)
    have hPR := preorderNodes_length r (base : Int) (base + 1 + l.size)
    rw [preorderNodes_cons] at h ⊢
    cases j with
    | zero =>
      simp only [List.getElem?_cons_zero, Option.some.injEq] at h
      subst h
      constructor
      · cases hl : l.isNull with
        | true => left; simp
        | false =>
          right
          obtain ⟨child, hchild, hpar, hsize⟩ := preorderNodes_head (base : Int) (base + 1) l hl
          refine ⟨base + 1, by simp, by omega, by simp only [ONNXTreeNode.size]; omega, child, ?_,
            by simpa using hpar⟩
          have e : base + 1 - base = 0 + 1 := by omega
          rw [e, List.getElem?_cons_succ, List.getElem?_append_left (by omega)]
          exact hchild
      · cases hr : r.isNull with
        | true => left; simp
        | false =>
          right
          obtain ⟨child, hchild, hpar, hsize⟩ :=
            preorderNodes_head (base : Int) (base + 1 + l.size) r hr
          refine ⟨base + 1 + l.size, by simp, by omega, by simp only [ONNXTreeNode.size]; omega,
            child, ?_, by simpa using hpar⟩
          have e : base + 1 + l.size - base = l.size + 1 := by omega
          rw [e, List.getElem?_cons_succ, List.getElem?_append_right (by omega), hPL,
            Nat.sub_self]
          exact hchild
    | succ j =>
      simp only [List.getElem?_cons_succ] at h
      by_cases hj : j < l.size
      · rw [List.getElem?_append_left (by omega)] at h
        obtain ⟨hL, hR⟩ := ihl (base : Int) (base + 1) j node h
        have lift : ∀ c : Nat, base + 1 + j < c → c < base + 1 + l.size →
            ∀ child, (preorderNodes (base : Int) (base + 1) l)[c - (base + 1)]? = some child →
            child.parent = ((base + 1 + j : Nat) : Int) →
            base + (j + 1) < c ∧ c < base + (ONNXTreeNode.node f th l r).size ∧
            ∃ child', ((⟨th, int64ToInt32 f, parent,
                if l.isNull then INVALID_NODE_INDEX else ((base + 1 : Nat) : Int),
                if r.isNull then INVALID_NODE_INDEX else ((base + 1 + l.size : Nat) : Int),
                .kNumerical⟩ : Node θ)
              :: (preorderNodes (base : Int) (base + 1) l
                ++ preorderNodes (base : Int) (base + 1 + l.size) r))[c - base]? = some child' ∧
              child'.parent = ((base + (j + 1) : Nat) : Int) := by
          intro c h1 h2 child hchild hpar
          refine ⟨by omega, by simp only [ONNXTreeNode.size]; omega, child, ?_, ?_⟩
          · have e : c - base = (c - (base + 1)) + 1 := by omega
            rw [e, List.getElem?_cons_succ, List.getElem?_append_left (by omega)]
            exact hchild
          · rw [hpar]
            congr 1
            omega
        constructor
        · rcases hL with hL | ⟨c, hc, h1, h2, child, hchild, hpar⟩
          · exact Or.inl hL
          · exact Or.inr ⟨c, hc, lift c h1 h2 child hchild hpar⟩
        · rcases hR with hR | ⟨c, hc, h1, h2, child, hchild, hpar⟩
          · exact Or.inl hR
          · exact Or.inr ⟨c, hc, lift c h1 h2 child hchild hpar⟩
      · rw [List.getElem?_append_right (by omega), hPL] at h
        obtain ⟨hL, hR⟩ := ihr (base : Int) (base + 1 + l.size) (j - l.size) node h
        have lift : ∀ c : Nat, base + 1 + l.size + (j - l.size) < c →
            c < base + 1 + l.size + r.size →
            ∀ child, (preorderNodes (base : Int) (base + 1 + l.size) r)[c - (base + 1 + l.size)]?
              = some child →
            child.parent = ((base + 1 + l.size + (j - l.size) : Nat) : Int) →
            base + (j + 1) < c ∧ c < base + (ONNXTreeNode.node f th l r).size ∧
            ∃ child', ((⟨th, int64ToInt32 f, parent,
                if l.isNull then INVALID_NODE_INDEX else ((base + 1 : Nat) : Int),
                if r.isNull then INVALID_NODE_INDEX else ((base + 1 + l.size : Nat) : Int),
                .kNumerical⟩ : Node θ)
              :: (preorderNodes (base : Int) (base + 1) l
                ++ preorderNodes (base : Int) (base + 1 + l.size) r))[c - base]? = some child' ∧
              child'.parent = ((base + (j + 1) : Nat) : Int) := by
          intro c h1 h2 child hchild hpar
          refine ⟨by omega, by simp only [ONNXTreeNode.size]; omega, child, ?_, ?_⟩
          · have e : c - base = (c - (base + 1 + l.size) + l.size) + 1 := by omega
            rw [e, List.getElem?_cons_succ, List.getElem?_append_right (by omega), hPL]
            have e2 : c - (base + 1 + l.size) + l.size - l.size = c - (base + 1 + l.size) := by
              omega
            rw [e2]
            exact hchild
          · rw [hpar]
            congr 1
            omega
        constructor
        · rcases hL with hL | ⟨c, hc, h1, h2, child, hchild, hpar⟩
          · exact Or.inl hL
          · exact Or.inr ⟨c, hc, lift c h1 h2 child hchild hpar⟩
        · rcases hR with hR | ⟨c, hc, h1, h2, child, hchild, hpar⟩
          · exact Or.inl hR
          · exact Or.inr ⟨c, hc, lift c h1 h2 child hchild hpar⟩

/-- One iteration of the loop of `ConstructForest` on a non-null root whose
tree index has exactly one class id when the model is a classifier. -/
theorem ConstructForest_step {θ : Type} (zero : θ) (cls : Bool) (classIdMap : Int → List Int)
    (t : ONNXTreeNode θ) (ht : t.isNull = false) (i : Int) (forest : DecisionForest θ)
    (ids : List (Nat × Int)) (hcls : cls = true → (classIdMap i).length = 1) :
    ∃ ids', ConstructForest.body zero cls classIdMap (i, forest, ids) t
      = some (i + 1, { forest with
          m_trees := forest.m_trees ++ [⟨preorderNodes (-1) 0 t, 0, zero⟩] }, ids') := by
  cases t with
  | null => simp [ONNXTreeNode.isNull] at ht
  | node f th l r =>
    have hspec := constructSingleTree_spec (.node f th l r) ([] : List (Node θ)) 0 zero
    simp only [List.length_nil, List.nil_append, ht, Bool.false_eq_true, if_false,
      Nat.cast_zero] at hspec
    have hset : (DecisionTree.mk (preorderNodes (-1) 0 (.node f th l r)) 0 zero).SetNodeParent
        0 (-1) = some ⟨preorderNodes (-1) 0 (.node f th l r), 0, zero⟩ := by
      rw [preorderNodes_cons]
      simp only [DecisionTree.SetNodeParent]
      have h := vecUpdate_at_length ([] : List (Node θ))
        (preorderNodes ((0 : Nat) : Int) (0 + 1) l
          ++ preorderNodes ((0 : Nat) : Int) (0 + 1 + l.size) r)
        (⟨th, int64ToInt32 f, -1, if l.isNull then INVALID_NODE_INDEX else ((0 + 1 : Nat) : Int),
          if r.isNull then INVALID_NODE_INDEX else ((0 + 1 + l.size : Nat) : Int),
          .kNumerical⟩ : Node θ)
        (fun n => { n with parent := -1 }) 0 rfl
      simp only [List.nil_append] at h
      rw [h]
      rfl
    cases cls with
    | false =>
      exact ⟨ids, by simp [ConstructForest.body, ForestCreator.NewTree,
        ForestCreator.SetNodeParent, DecisionForest.NewTree, hspec, hset]⟩
    | true =>
      obtain ⟨c, hc⟩ := List.length_eq_one.1 (hcls rfl)
      exact ⟨_, by simp [ConstructForest.body, ForestCreator.NewTree,
        ForestCreator.SetNodeParent, DecisionForest.NewTree, hspec, hset, hc]; rfl⟩

/-- The loop of `ConstructForest` on non-null roots: one tree per root, its
nodes in preorder from index 0. -/
theorem ConstructForest_loop {θ : Type} (zero : θ) (cls : Bool) (classIdMap : Int → List Int)
    (_trees : List (ONNXTreeNode θ)) :
    ∀ (i : Int) (forest : DecisionForest θ) (ids : List (Nat × Int)),
      (∀ t ∈ _trees, t.isNull = false) →
      (cls = true → ∀ k : Nat, k < _trees.length → (classIdMap (i + k)).length = 1) →
      ∃ ids', _trees.foldlM (ConstructForest.body zero cls classIdMap) (i, forest, ids)
        = some (i + _trees.length, { forest with
            m_trees := forest.m_trees
              ++ _trees.map (fun t => ⟨preorderNodes (-1) 0 t, 0, zero⟩) }, ids') := by
  induction _trees with
  | nil =>
    intro i forest ids _ _
    exact ⟨ids, by simp⟩
  | cons t rest ih =>
    intro i forest ids hall hcls
    obtain ⟨ids1, hstep⟩ := ConstructForest_step zero cls classIdMap t
      (hall t (List.mem_cons_self _ _)) i forest ids
      (fun h => by simpa using hcls h 0 (by simp))
    obtain ⟨ids2, hrest⟩ := ih (i + 1) { forest with
      m_trees := forest.m_trees ++ [⟨preorderNodes (-1) 0 t, 0, zero⟩] } ids1
      (fun t' ht' => hall t' (List.mem_cons_of_mem _ ht'))
      (fun h k hk => by
        have h1 := hcls h (k + 1) (by simp only [List.length_cons]; omega)
        have e : i + ((k + 1 : Nat) : Int) = i + 1 + (k : Int) := by push_cast; ring
        rw [← e]
        exact h1)
    refine ⟨ids2, ?_⟩
    rw [List.foldlM_cons, hstep]
    simp only [Option.bind_eq_bind, Option.some_bind]
    rw [hrest]
    have e : i + 1 + (rest.length : Int) = i + ((t :: rest).length : Int) := by
      simp only [List.length_cons]
      push_cast
      ring
    rw [e]
    simp

/-- The result of `ConstructForest` on non-null roots, for a regressor and for
a classifier whose every tree index has exactly one class id. -/
theorem ConstructForest_spec {θ : Type} (zero : θ) (cls : Bool) (classIdMap : Int → List Int)
    (_trees : List (ONNXTreeNode θ)) (forest : DecisionForest θ) (ids : List (Nat × Int))
    (hall : ∀ t ∈ _trees, t.isNull = false)
    (hcls : cls = true → ∀ k : Nat, k < _trees.length → (classIdMap k).length = 1) :
    ∃ ids', ConstructForest zero _trees cls classIdMap forest ids
      = some ({ forest with
          m_trees := forest.m_trees
            ++ _trees.map (fun t => ⟨preorderNodes (-1) 0 t, 0, zero⟩) }, ids') := by
  obtain ⟨ids', h⟩ := ConstructForest_loop zero cls classIdMap _trees 0 forest ids hall
    (fun hc k hk => by simpa using hcls hc k hk)
  exact ⟨ids', by simp [ConstructForest, h]⟩

/-- C30: for every finite ONNX node tree, `constructSingleTree` returns -1 for
a null node and leaves the tree under construction alone; otherwise it returns
the index of the subtree's root, the node count before the call, and appends
exactly one node per ONNX node, in preorder (the node, then its left subtree,
then its right subtree): the `leftChild` / `rightChild` of a node hold the
index of the root of the corresponding subtree, `INVALID_NODE_INDEX` for a null
child, every valid child index lies after the node and inside the subtree, and
the node there has the node as its parent; a node holds the threshold of its
ONNX node and its feature id as an `int32_t`. After `ConstructForest` on
non-null roots (for a classifier: with exactly one class id for every tree
index, which the code asserts) every built tree has its root at index 0 with
parent -1 and every valid child index greater than its parent's index and less
than the node count. -/
theorem constructSingleTree_preorder {θ : Type} (zero : θ) :
    (∀ tree : DecisionTree θ, constructSingleTree .null tree = some (-1, tree)) ∧
    (∀ (f : Int) (th : θ) (l r : ONNXTreeNode θ) (tree : DecisionTree θ),
      constructSingleTree (.node f th l r) tree
        = some ((tree.m_nodes.length : Int),
            { tree with
              m_nodes := tree.m_nodes
                ++ preorderNodes (-1) tree.m_nodes.length (.node f th l r) })) ∧
    (∀ (t : ONNXTreeNode θ) (parent : Int) (base : Nat),
      (preorderNodes parent base t).length = t.size) ∧
    (∀ (parent : Int) (base : Nat) (f : Int) (th : θ) (l r : ONNXTreeNode θ),
      preorderNodes parent base (.node f th l r)
        = ⟨th, int64ToInt32 f, parent,
            if l.isNull then INVALID_NODE_INDEX else ((base + 1 : Nat) : Int),
            if r.isNull then INVALID_NODE_INDEX else ((base + 1 + l.size : Nat) : Int),
            .kNumerical⟩
          :: (preorderNodes base (base + 1) l ++ preorderNodes base (base + 1 + l.size) r)) ∧
    (∀ (t : ONNXTreeNode θ) (parent : Int) (base j : Nat) (node : Node θ),
      (preorderNodes parent base t)[j]? = some node →
      (node.leftChild = INVALID_NODE_INDEX ∨
        ∃ c : Nat, node.leftChild = (c : Int) ∧ base + j < c ∧ c < base + t.size ∧
          ∃ child, (preorderNodes parent base t)[c - base]? = some child ∧
            child.parent = ((base + j : Nat) : Int)) ∧
      (node.rightChild = INVALID_NODE_INDEX ∨
        ∃ c : Nat, node.rightChild = (c : Int) ∧ base + j < c ∧ c < base + t.size ∧
          ∃ child, (preorderNodes parent base t)[c - base]? = some child ∧
            child.parent = ((base + j : Nat) : Int))) ∧
    (∀ (_trees : List (ONNXTreeNode θ)) (cls : Bool) (classIdMap : Int → List Int)
      (forest : DecisionForest θ) (ids : List (Nat × Int)),
      (∀ t ∈ _trees, t.isNull = false) →
      (cls = true → ∀ k : Nat, k < _trees.length → (classIdMap k).length = 1) →
      ∃ forest' ids', ConstructForest zero _trees cls classIdMap forest ids
          = some (forest', ids') ∧
        forest'.m_trees.length = forest.m_trees.length + _trees.length ∧
        ∀ (k : Nat) (t : ONNXTreeNode θ), _trees[k]? = some t →
          ∃ built, forest'.m_trees[forest.m_trees.length + k]? = some built ∧
            built.m_nodes = preorderNodes (-1) 0 t ∧
            (∃ root, built.m_nodes[0]? = some root ∧ root.parent = -1) ∧
            ∀ (j : Nat) (node : Node θ), built.m_nodes[j]? = some node →
              (node.leftChild = INVALID_NODE_INDEX ∨
                ((j : Int) < node.leftChild ∧ node.leftChild < built.m_nodes.length)) ∧
              (node.rightChild = INVALID_NODE_INDEX ∨
                ((j : Int) < node.rightChild ∧ node.rightChild < built.m_nodes.length))) := by
  refine ⟨fun _ => rfl, ?_, preorderNodes_length, preorderNodes_cons, preorderNodes_links, ?_⟩
  · intro f th l r tree
    cases tree with
    | mk nodes nf sc =>
      have h := constructSingleTree_spec (.node f th l r) nodes nf sc
      simpa [ONNXTreeNode.isNull] using h
  · intro _trees cls classIdMap forest ids hall hcls
    obtain ⟨ids', hres⟩ := ConstructForest_spec zero cls classIdMap _trees forest ids hall hcls
    refine ⟨_, ids', hres, by simp, ?_⟩
    intro k t hk
    have hklt : k < _trees.length := (List.getElem?_eq_some.1 hk).1
    refine ⟨⟨preorderNodes (-1) 0 t, 0, zero⟩, ?_, rfl, ?_, ?_⟩
    · simp only
      rw [List.getElem?_append_right (by omega)]
      simp [hk]
    · obtain ⟨root, hroot, hpar, _⟩ :=
        preorderNodes_head (-1) 0 t (hall t (List.getElem?_mem hk))
      exact ⟨root, hroot, hpar⟩
    · intro j node hj
      obtain ⟨hL, hR⟩ := preorderNodes_links t (-1) 0 j node hj
      have hlen := preorderNodes_length t (-1) 0
      simp only [hlen]
      constructor
      · rcases hL with hL | ⟨c, hc, h1, h2, _⟩
        · exact Or.inl hL
        · exact Or.inr ⟨by omega, by omega⟩
      · rcases hR with hR | ⟨c, hc, h1, h2, _⟩
        · exact Or.inl hR
        · exact Or.inr ⟨by omega, by omega⟩

/-- Witness for C30: the ONNX tree of five nodes is built as the five nodes
`0 … 4` in preorder, the feature id `2^32 + 1` stored as 1, and
`ConstructForest` on it, for a classifier with the class id 3 for every tree
index, gives one tree with the root at index 0. -/
theorem constructSingleTree_preorder_witness :
    (constructSingleTree exOnnxTree ⟨[], 0, 0⟩).map (fun r => (r.1, r.2.m_nodes))
      = some (0, [⟨5, 0, -1, 1, 2, .kNumerical⟩, ⟨10, 0, 0, -1, -1, .kNumerical⟩,
         ⟨7, 1, 0, 3, 4, .kNumerical⟩, ⟨20, 0, 2, -1, -1, .kNumerical⟩,
         ⟨30, 0, 2, -1, -1, .kNumerical⟩]) ∧
    ∃ forest' ids', ConstructForest 0 [exOnnxTree] true (fun _ => [3]) ⟨[], [], .kAdd⟩ []
        = some (forest', ids') ∧
      forest'.m_trees.length = 0 + 1 ∧
      ∀ (k : Nat) (t : ONNXTreeNode Int), [exOnnxTree][k]? = some t →
        ∃ built, forest'.m_trees[0 + k]? = some built ∧
          built.m_nodes = preorderNodes (-1) 0 t ∧
          (∃ root, built.m_nodes[0]? = some root ∧ root.parent = -1) ∧
          ∀ (j : Nat) (node : Node Int), built.m_nodes[j]? = some node →
            (node.leftChild = INVALID_NODE_INDEX ∨
              ((j : Int) < node.leftChild ∧ node.leftChild < built.m_nodes.length)) ∧
            (node.rightChild = INVALID_NODE_INDEX ∨
              ((j : Int) < node.rightChild ∧ node.rightChild < built.m_nodes.length)) :=
  ⟨by decide,
    (constructSingleTree_preorder (0 : Int)).2.2.2.2.2 [exOnnxTree] true (fun _ => [3])
      ⟨[], [], .kAdd⟩ []
      (by intro t ht; simp only [List.mem_singleton] at ht; subst ht; rfl)
      (by intro _ k _; rfl)⟩

end Treebeard
